import Mathlib

/-!
# EDID decoder (`Source/displayinfo/ExtendedDisplayIdentification.h`)

A shallow embedding of the class `ExtendedDisplayIdentification` and of its nested classes
`Buffer`, `Iterator`, `CEA` and `CEA::DataBlockIterator`.

* Bytes are `Fin 256`; every C++ integer expression is computed on `Nat` and reduced with an
  explicit `% 2^w` where the C++ type narrows it.
* A 128-byte `Buffer` is a list of bytes of length 128.  Reads at an offset that the code has
  compared against the block size are total; reads through `Current()[i]`, which the code does
  not compare against anything, are checked and yield `Fault.outOfBounds`.
* `while` loops run on fuel; running out of fuel is the separate result `Fault.outOfFuel`
  (or `none`), never a value.
* `CEA::SupportedColorFormats` is also given with its reads as the machine performs them
  (`CurrentIn`): the bytes that follow the block in memory are a parameter, and the members
  of the scanner object are one value of it.
-/

/-- Enumerators of `displayinfo.h` that the decoder uses.  The header is not among the sources,
so their numeric values are parameters of the model. -/
structure DisplayInfo where
  DISPLAYINFO_EDID_BPC_UNDEFINED : Nat
  DISPLAYINFO_EDID_BPC_6 : Nat
  DISPLAYINFO_EDID_BPC_8 : Nat
  DISPLAYINFO_EDID_BPC_10 : Nat
  DISPLAYINFO_EDID_BPC_12 : Nat
  DISPLAYINFO_EDID_BPC_14 : Nat
  DISPLAYINFO_EDID_BPC_16 : Nat
  DISPLAYINFO_EDID_COLOR_FORMAT_UNDEFINED : Nat
  DISPLAYINFO_EDID_COLOR_FORMAT_RGB : Nat
  DISPLAYINFO_EDID_COLOR_FORMAT_YCBCR_4_2_2 : Nat
  DISPLAYINFO_EDID_COLOR_FORMAT_YCBCR_4_4_4 : Nat
  DISPLAYINFO_EDID_COLOR_FORMAT_YCBCR_4_2_0 : Nat
  DISPLAYINFO_EDID_COLOR_SPACE_SRGB : Nat
  DISPLAYINFO_EDID_COLOR_SPACE_XVYCC_601 : Nat
  DISPLAYINFO_EDID_COLOR_SPACE_XVYCC_709 : Nat
  DISPLAYINFO_EDID_COLOR_SPACE_SYCC_601 : Nat
  DISPLAYINFO_EDID_COLOR_SPACE_OP_YCC_601 : Nat
  DISPLAYINFO_EDID_COLOR_SPACE_OP_RGB : Nat
  DISPLAYINFO_EDID_COLOR_SPACE_ITUR_BT_2020_CYCC : Nat
  DISPLAYINFO_EDID_COLOR_SPACE_ITUR_BT_2020_YCC : Nat
  DISPLAYINFO_EDID_COLOR_SPACE_ITUR_BT_2020_RGB : Nat
  DISPLAYINFO_EDID_COLOR_SPACE_DCI_P3 : Nat
  DISPLAYINFO_EDID_AUDIOFORMAT_LPCM : Nat
  DISPLAYINFO_EDID_AUDIOFORMAT_AC3 : Nat
  DISPLAYINFO_EDID_AUDIOFORMAT_MPEG1 : Nat
  DISPLAYINFO_EDID_AUDIOFORMAT_MP3 : Nat
  DISPLAYINFO_EDID_AUDIOFORMAT_MPEG2 : Nat
  DISPLAYINFO_EDID_AUDIOFORMAT_AAC_LC : Nat
  DISPLAYINFO_EDID_AUDIOFORMAT_DTS : Nat
  DISPLAYINFO_EDID_AUDIOFORMAT_ATRAC : Nat
  DISPLAYINFO_EDID_AUDIOFORMAT_SUPER_AUDIO_CD : Nat
  DISPLAYINFO_EDID_AUDIOFORMAT_EAC3 : Nat
  DISPLAYINFO_EDID_AUDIOFORMAT_DOLBY_ATMOS : Nat
  DISPLAYINFO_EDID_AUDIOFORMAT_DTSHD : Nat
  DISPLAYINFO_EDID_AUDIOFORMAT_DOLBY_TRUEHD : Nat
  DISPLAYINFO_EDID_AUDIOFORMAT_DST_AUDIO : Nat
  DISPLAYINFO_EDID_AUDIOFORMAT_MS_WMA_PRO : Nat
  DISPLAYINFO_EDID_AUDIOFORMAT_MPEG4_HEAAC : Nat
  DISPLAYINFO_EDID_AUDIOFORMAT_MPEG4_HEAAC_V2 : Nat
  DISPLAYINFO_EDID_AUDIOFORMAT_MPEG4_ACC_LC : Nat
  DISPLAYINFO_EDID_AUDIOFORMAT_DRA : Nat
  DISPLAYINFO_EDID_AUDIOFORMAT_MPEG4_HEAAC_MPEG_SURROUND : Nat
  DISPLAYINFO_EDID_AUDIOFORMAT_MPEG4_HEAAC_LC_MPEG_SURROUND : Nat
  DISPLAYINFO_EDID_AUDIOFORMAT_MPEGH_3DAUDIO : Nat
  DISPLAYINFO_EDID_AUDIOFORMAT_AC4 : Nat
  DISPLAYINFO_EDID_AUDIOFORMAT_LPCM_3DAUDIO : Nat

namespace ExtendedDisplayIdentification

/-- Conversion to `uint8_t`. -/
def u8 (x : Nat) : Nat := x % 256

/-- Conversion to `uint16_t`. -/
def u16 (x : Nat) : Nat := x % 65536

/-- Conversion to `uint32_t`. -/
def u32 (x : Nat) : Nat := x % 4294967296

/-- Bit pattern of a (32-bit, two's complement) `int`, as used by `&` on a possibly negative
operand. -/
def i32 (x : Int) : Nat := (x % 4294967296).toNat

/-- What went wrong in a run of the model that does not produce a value. -/
inductive Fault where
  /-- A byte was read at `offset >= 128` through a pointer into a 128-byte block. -/
  | outOfBounds (offset : Nat)
  /-- The loop budget of the model was used up. -/
  | outOfFuel
  deriving DecidableEq, Repr

deriving instance DecidableEq for Except

/-! ## `Buffer` -/

/-- Value of `Buffer::edid_block_size`. -/
def Buffer.edid_block_size : Nat := 128

/-- Class `Buffer`: `uint8_t _data[edid_block_size]`. -/
structure Buffer where
  _data : List (Fin 256)
  size_eq : _data.length = 128
  deriving DecidableEq

/-- The byte at an offset inside the block, as a number. -/
def Buffer.get (b : Buffer) (i : Fin 128) : Nat :=
  (b._data.get ⟨i.val, by rw [b.size_eq]; exact i.isLt⟩).val

/-- `operator const uint8_t*` followed by an index that is known to lie inside the block. -/
instance : GetElem Buffer Nat Nat (fun _ i => i < 128) where
  getElem b i h := b.get ⟨i, h⟩

/-- `Buffer::Length`. -/
def Buffer.Length (_b : Buffer) : Nat := Buffer.edid_block_size

/-- A block given by its leading bytes, the rest being zero (more than 128 bytes are cut). -/
def Buffer.ofList (l : List (Fin 256)) : Buffer :=
  ⟨(l ++ List.replicate 128 0).take 128, by simp⟩

/-- The write `block[i] = v`. -/
def Buffer.set (b : Buffer) (i : Nat) (v : Fin 256) : Buffer :=
  ⟨b._data.set i v, by rw [List.length_set]; exact b.size_eq⟩

/-- A read `p[o]` through a pointer `p` to the first byte of a block, where the code has not
compared `o` with the block size: beyond the block no value is defined. -/
def Buffer.rd (b : Buffer) (o : Nat) : Except Fault Nat :=
  if h : o < 128 then .ok b[o] else .error (.outOfBounds o)

/-- The byte at offset `o` of the block as a number; 0 stands in at offsets beyond the
block. -/
def Buffer.byteAt (b : Buffer) (o : Nat) : Nat := (b._data.getD o 0).val

/-- Alias `BufferList = std::list<Buffer>`. -/
abbrev BufferList := List Buffer

/-! ## `Iterator` -/

/-- Class `Iterator`.  The `std::list` const iterator `_index` is the part of the list that
starts at the element it points to; `cend()` is the empty rest.  `_segments` is `none` for
`nullptr`. -/
structure Iterator where
  _segments : Option BufferList
  _index : BufferList
  _reset : Bool
  deriving DecidableEq

namespace Iterator

/-- Constructor `Iterator()`. -/
def default : Iterator := ⟨none, [], true⟩

/-- Constructor `Iterator(const BufferList& rhs)`. -/
def ofList (rhs : BufferList) : Iterator := ⟨some rhs, rhs, true⟩

/-- Copy constructor `Iterator(const Iterator& copy)`. -/
def copy (copy : Iterator) : Iterator :=
  ⟨copy._segments, match copy._segments with | some l => l | none => [], true⟩

/-- Assignment `operator=`. -/
def assign (self rhs : Iterator) : Iterator :=
  ⟨rhs._segments, match rhs._segments with | some l => l | none => self._index, true⟩

/-- `Iterator::IsValid`. -/
def IsValid (it : Iterator) : Bool :=
  (it._reset == false) && it._segments.isSome && !it._index.isEmpty

/-- `Iterator::Reset`. -/
def Reset (it : Iterator) : Iterator :=
  ⟨it._segments, match it._segments with | some l => l | none => it._index, true⟩

/-- `Iterator::Next`: the returned flag and the cursor after the call. -/
def Next (it : Iterator) : Bool × Iterator :=
  let it1 : Iterator :=
    if it._reset == true then { it with _reset := false }
    else if it._segments.isSome && !it._index.isEmpty then { it with _index := it._index.tail }
    else it
  (it1._segments.isSome && !it1._index.isEmpty, it1)

/-- `Iterator::Type` (`Type` is reserved in Lean). -/
def Type_ (it : Iterator) : Nat :=
  if h : it.IsValid = true then
    (it._index.head (by intro hnil; simp [IsValid, hnil] at h))[0]
  else 0xFF

/-- `Iterator::Current`; the `ASSERT(IsValid() == true)` is the precondition `h`. -/
def Current (it : Iterator) (h : it.IsValid = true) : Buffer :=
  it._index.head (by intro hnil; simp [IsValid, hnil] at h)

/-- The cursor after `k` consecutive calls of `Next()`. -/
def afterNext (it : Iterator) : Nat → Iterator
  | 0 => it
  | k + 1 => (it.afterNext k).Next.2

end Iterator

/-! ## `CEA::DataBlockIterator` -/

namespace CEA

/-- Value of `CEA::extension_tag`. -/
def extension_tag : Nat := 0x02

/-- Class `CEA::DataBlockIterator`: `_index` is a `uint16_t`, `_dtdBegin` a `uint8_t`. -/
structure DataBlockIterator where
  _segment : Buffer
  _index : Nat
  _dtdBegin : Nat
  _reset : Bool
  deriving DecidableEq

namespace DataBlockIterator

/-- Constructor `DataBlockIterator(const Buffer& rhs, uint8_t dtdBegin)`. -/
def new (rhs : Buffer) (dtdBegin : Nat) : DataBlockIterator := ⟨rhs, 4, dtdBegin, true⟩

/-- Copy constructor `DataBlockIterator(const DataBlockIterator& copy)`. -/
def copy (copy : DataBlockIterator) : DataBlockIterator :=
  ⟨copy._segment, copy._index, copy._dtdBegin, true⟩

/-- Assignment `operator=`. -/
def assign (_self rhs : DataBlockIterator) : DataBlockIterator :=
  ⟨rhs._segment, rhs._index, rhs._dtdBegin, rhs._reset⟩

/-- `DataBlockIterator::IsInRange`. -/
def IsInRange (it : DataBlockIterator) : Bool :=
  decide (it._index < Buffer.edid_block_size) && decide (it._index < it._dtdBegin)
    && decide (it._index ≥ 4)

/-- `DataBlockIterator::IsValid`. -/
def IsValid (it : DataBlockIterator) : Bool :=
  (it._reset == false) && it.IsInRange

/-- The header byte `_segment[_index]`, read where `IsValid()` holds. -/
def header (it : DataBlockIterator) (h : it.IsValid = true) : Nat :=
  it._segment.get ⟨it._index, by
    simp [IsValid, IsInRange, Buffer.edid_block_size] at h
    omega⟩

/-- `DataBlockIterator::BlockSize`. -/
def BlockSize (it : DataBlockIterator) : Nat :=
  if h : it.IsValid = true then (it.header h) &&& 0x1F else 0

/-- `DataBlockIterator::BlockTag`. -/
def BlockTag (it : DataBlockIterator) : Nat :=
  if h : it.IsValid = true then ((it.header h) &&& 0xE0) >>> 5 else 0x00

/-- `DataBlockIterator::Reset`. -/
def Reset (it : DataBlockIterator) : DataBlockIterator :=
  { it with _reset := true, _index := 4 }

/-- `DataBlockIterator::Next`: the returned flag and the scanner after the call. -/
def Next (it : DataBlockIterator) : Bool × DataBlockIterator :=
  let it1 : DataBlockIterator :=
    if it._reset == true then { it with _reset := false }
    else if it.IsInRange then { it with _index := u16 (it._index + (it.BlockSize + 1)) }
    else it
  let success : Bool := if it1.BlockSize == 0 then false else true
  (success && it1.IsInRange, it1)

/-- The read `Current()[i]`: `Current()` is `&_segment[_index]`, and nothing compares
`_index + i` with the block size. -/
def Current (it : DataBlockIterator) (i : Nat) : Except Fault Nat :=
  it._segment.rd (it._index + i)

end DataBlockIterator

end CEA

/-! ## `CEA` -/

/-- Class `CEA`: a copy of the extension block.  The constructor asserts
`_segment[0] == extension_tag`. -/
structure CEA where
  _segment : Buffer
  deriving DecidableEq

namespace CEA

/-- Number of `Next()` calls granted to one `while(dataBlock.Next())` scan. -/
def scanFuel : Nat := 128

/-- `CEA::Version`. -/
def Version (c : CEA) : Nat := c._segment[1]

/-- `CEA::DetailedTimingDescriptorStart`. -/
def DetailedTimingDescriptorStart (c : CEA) : Nat := c._segment[2]

/-- The loop `while(dataBlock.Next())` of `CEA::SupportedColorDepths`. -/
def SupportedColorDepths.loop (K : DisplayInfo) :
    Nat → DataBlockIterator → Nat → Except Fault Nat
  | 0, _, _ => .error .outOfFuel
  | fuel + 1, dataBlock, colorDepthMap =>
    let (next, dataBlock) := dataBlock.Next
    if next then
      if dataBlock.IsValid && (dataBlock.BlockTag == 0x03) && decide (dataBlock.BlockSize > 6) then do
        let b1 ← dataBlock.Current 1
        let b2 ← dataBlock.Current 2
        let b3 ← dataBlock.Current 3
        let registrationId := u32 (b1 + (b2 <<< 8) + (b3 <<< 16))
        if registrationId == 0x000C03 then
          let b6 ← dataBlock.Current 6
          let colorDepthMap :=
            if b6 &&& (1 <<< 6) != 0 then colorDepthMap ||| u8 K.DISPLAYINFO_EDID_BPC_16
            else colorDepthMap
          let colorDepthMap :=
            if b6 &&& (1 <<< 5) != 0 then colorDepthMap ||| u8 K.DISPLAYINFO_EDID_BPC_12
            else colorDepthMap
          let colorDepthMap :=
            if b6 &&& (1 <<< 4) != 0 then colorDepthMap ||| u8 K.DISPLAYINFO_EDID_BPC_10
            else colorDepthMap
          return colorDepthMap
        else SupportedColorDepths.loop K fuel dataBlock colorDepthMap
      else SupportedColorDepths.loop K fuel dataBlock colorDepthMap
    else return colorDepthMap

/-- `CEA::SupportedColorDepths`. -/
def SupportedColorDepths (K : DisplayInfo) (c : CEA) : Except Fault Nat :=
  SupportedColorDepths.loop K scanFuel
    (DataBlockIterator.new c._segment c.DetailedTimingDescriptorStart) 0

/-- `CEA::SupportedColorFormat`. -/
def SupportedColorFormat (K : DisplayInfo) (c : CEA) : Nat :=
  if c.Version > 2 then
    let colorFormat := u8 ((c._segment[3] &&& 0x07) >>> 4)
    match colorFormat with
    | 0x00 => K.DISPLAYINFO_EDID_COLOR_FORMAT_RGB
    | 0x01 => K.DISPLAYINFO_EDID_COLOR_FORMAT_YCBCR_4_2_2
    | 0x02 => K.DISPLAYINFO_EDID_COLOR_FORMAT_YCBCR_4_4_4
    | 0x03 => K.DISPLAYINFO_EDID_COLOR_FORMAT_YCBCR_4_2_0
    | _ => K.DISPLAYINFO_EDID_COLOR_FORMAT_UNDEFINED
  else K.DISPLAYINFO_EDID_COLOR_FORMAT_UNDEFINED

/-- The loop `while(dataBlock.Next())` of `CEA::SupportedColorFormats`. -/
def SupportedColorFormats.loop (K : DisplayInfo) :
    Nat → DataBlockIterator → Nat → Except Fault Nat
  | 0, _, _ => .error .outOfFuel
  | fuel + 1, dataBlock, colorFormatMap =>
    let (next, dataBlock) := dataBlock.Next
    if next then
      if dataBlock.IsValid && (dataBlock.BlockTag == 0x03) && decide (dataBlock.BlockSize > 3) then do
        let b1 ← dataBlock.Current 1
        let b2 ← dataBlock.Current 2
        let b3 ← dataBlock.Current 3
        let registrationId := u32 (b1 + (b2 <<< 8) + (b3 <<< 16))
        if registrationId == 0xC45DD8 then
          let colorFormatMap :=
            if b3 &&& (1 <<< 1) != 0 then
              colorFormatMap ||| u8 K.DISPLAYINFO_EDID_COLOR_FORMAT_YCBCR_4_2_0
            else colorFormatMap
          let colorFormatMap :=
            if b3 &&& (1 <<< 2) != 0 then
              colorFormatMap ||| u8 K.DISPLAYINFO_EDID_COLOR_FORMAT_YCBCR_4_2_0
            else colorFormatMap
          let colorFormatMap :=
            if b3 &&& (1 <<< 3) != 0 then
              colorFormatMap ||| u8 K.DISPLAYINFO_EDID_COLOR_FORMAT_YCBCR_4_2_0
            else colorFormatMap
          return colorFormatMap
        else SupportedColorFormats.loop K fuel dataBlock colorFormatMap
      else SupportedColorFormats.loop K fuel dataBlock colorFormatMap
    else return colorFormatMap

/-- `CEA::SupportedColorFormats`. -/
def SupportedColorFormats (K : DisplayInfo) (c : CEA) : Except Fault Nat :=
  SupportedColorFormats.loop K scanFuel
    (DataBlockIterator.new c._segment c.DetailedTimingDescriptorStart) 0

/-- The statement `if (byte & (1 << bit)) map |= static_cast<uint16_t>(flag);`. -/
def orIfBit16 (byte bit flag map : Nat) : Nat :=
  if byte &&& (1 <<< bit) != 0 then map ||| u16 flag else map

/-- The loop `while(dataBlock.Next())` of `CEA::SupportedColorSpaces`. -/
def SupportedColorSpaces.loop (K : DisplayInfo) :
    Nat → DataBlockIterator → Nat → Except Fault Nat
  | 0, _, _ => .error .outOfFuel
  | fuel + 1, dataBlock, colorSpaceMap =>
    let (next, dataBlock) := dataBlock.Next
    if next then
      if dataBlock.IsValid && (dataBlock.BlockTag == 0x07) && decide (dataBlock.BlockSize > 1) then do
        let extendedTag ← dataBlock.Current 1
        if (extendedTag == 0x05) && decide (dataBlock.BlockSize ≥ 3) then
          let b2 ← dataBlock.Current 2
          let colorSpaceMap := orIfBit16 b2 0 K.DISPLAYINFO_EDID_COLOR_SPACE_XVYCC_601 colorSpaceMap
          let colorSpaceMap := orIfBit16 b2 1 K.DISPLAYINFO_EDID_COLOR_SPACE_XVYCC_709 colorSpaceMap
          let colorSpaceMap := orIfBit16 b2 2 K.DISPLAYINFO_EDID_COLOR_SPACE_SYCC_601 colorSpaceMap
          let colorSpaceMap := orIfBit16 b2 3 K.DISPLAYINFO_EDID_COLOR_SPACE_OP_YCC_601 colorSpaceMap
          let colorSpaceMap := orIfBit16 b2 4 K.DISPLAYINFO_EDID_COLOR_SPACE_OP_RGB colorSpaceMap
          let colorSpaceMap :=
            orIfBit16 b2 5 K.DISPLAYINFO_EDID_COLOR_SPACE_ITUR_BT_2020_CYCC colorSpaceMap
          let colorSpaceMap :=
            orIfBit16 b2 6 K.DISPLAYINFO_EDID_COLOR_SPACE_ITUR_BT_2020_YCC colorSpaceMap
          let colorSpaceMap :=
            orIfBit16 b2 7 K.DISPLAYINFO_EDID_COLOR_SPACE_ITUR_BT_2020_RGB colorSpaceMap
          let b3 ← dataBlock.Current 3
          let colorSpaceMap := orIfBit16 b3 7 K.DISPLAYINFO_EDID_COLOR_SPACE_DCI_P3 colorSpaceMap
          return colorSpaceMap
        else return colorSpaceMap
      else SupportedColorSpaces.loop K fuel dataBlock colorSpaceMap
    else return colorSpaceMap

/-- `CEA::SupportedColorSpaces`. -/
def SupportedColorSpaces (K : DisplayInfo) (c : CEA) : Except Fault Nat :=
  SupportedColorSpaces.loop K scanFuel
    (DataBlockIterator.new c._segment c.DetailedTimingDescriptorStart) 0

/-- The loop `for(uint8_t index = 0; index < dataBlock.BlockSize(); index++)` of
`CEA::SupportedTimings`. -/
def SupportedTimings.forLoop (dataBlock : DataBlockIterator) :
    Nat → Nat → List Nat → Except Fault (List Nat)
  | 0, _, _ => .error .outOfFuel
  | fuel + 1, index, vicList =>
    if index < dataBlock.BlockSize then do
      let b ← dataBlock.Current index
      let vic := b &&& 0x7F
      SupportedTimings.forLoop dataBlock fuel (u8 (index + 1)) (vicList ++ [vic])
    else return vicList

/-- The loop `while(dataBlock.Next())` of `CEA::SupportedTimings`. -/
def SupportedTimings.loop : Nat → DataBlockIterator → List Nat → Except Fault (List Nat)
  | 0, _, _ => .error .outOfFuel
  | fuel + 1, dataBlock, vicList =>
    let (next, dataBlock) := dataBlock.Next
    if next then
      if dataBlock.IsValid && (dataBlock.BlockTag == 0x02) then
        SupportedTimings.forLoop dataBlock 33 0 vicList
      else SupportedTimings.loop fuel dataBlock vicList
    else return vicList

/-- `CEA::SupportedTimings`: the vector `vicList` after the call. -/
def SupportedTimings (c : CEA) (vicList : List Nat) : Except Fault (List Nat) :=
  SupportedTimings.loop scanFuel
    (DataBlockIterator.new c._segment c.DetailedTimingDescriptorStart) vicList

/-- The inner `switch((dataBlock.Current()[index + 2] & 0xF8) >> 3)` of
`CEA::SupportedAudioFormats` (audio format code `0x0F`). -/
def SupportedAudioFormats.extended (K : DisplayInfo) (code audioFormatMap : Nat) : Nat :=
  match code with
  | 0x04 => audioFormatMap ||| u32 K.DISPLAYINFO_EDID_AUDIOFORMAT_MPEG4_HEAAC
  | 0x05 => audioFormatMap ||| u32 K.DISPLAYINFO_EDID_AUDIOFORMAT_MPEG4_HEAAC_V2
  | 0x06 => audioFormatMap ||| u32 K.DISPLAYINFO_EDID_AUDIOFORMAT_MPEG4_ACC_LC
  | 0x07 => audioFormatMap ||| u32 K.DISPLAYINFO_EDID_AUDIOFORMAT_DRA
  | 0x08 => audioFormatMap ||| u32 K.DISPLAYINFO_EDID_AUDIOFORMAT_MPEG4_HEAAC_MPEG_SURROUND
  | 0x0A => audioFormatMap ||| u32 K.DISPLAYINFO_EDID_AUDIOFORMAT_MPEG4_HEAAC_LC_MPEG_SURROUND
  | 0x0B => audioFormatMap ||| u32 K.DISPLAYINFO_EDID_AUDIOFORMAT_MPEGH_3DAUDIO
  | 0x0C => audioFormatMap ||| u32 K.DISPLAYINFO_EDID_AUDIOFORMAT_AC4
  | 0x0D => audioFormatMap ||| u32 K.DISPLAYINFO_EDID_AUDIOFORMAT_LPCM_3DAUDIO
  | _ => audioFormatMap

/-- The body `switch(sad)` of the descriptor loop of `CEA::SupportedAudioFormats`, for the
descriptor whose first byte is `Current()[index]`. -/
def SupportedAudioFormats.descriptor (K : DisplayInfo) (dataBlock : DataBlockIterator)
    (index sad audioFormatMap : Nat) : Except Fault Nat :=
  match sad with
  | 0x01 => return audioFormatMap ||| u32 K.DISPLAYINFO_EDID_AUDIOFORMAT_LPCM
  | 0x02 => return audioFormatMap ||| u32 K.DISPLAYINFO_EDID_AUDIOFORMAT_AC3
  | 0x03 => return audioFormatMap ||| u32 K.DISPLAYINFO_EDID_AUDIOFORMAT_MPEG1
  | 0x04 => return audioFormatMap ||| u32 K.DISPLAYINFO_EDID_AUDIOFORMAT_MP3
  | 0x05 => return audioFormatMap ||| u32 K.DISPLAYINFO_EDID_AUDIOFORMAT_MPEG2
  | 0x06 => return audioFormatMap ||| u32 K.DISPLAYINFO_EDID_AUDIOFORMAT_AAC_LC
  | 0x07 => return audioFormatMap ||| u32 K.DISPLAYINFO_EDID_AUDIOFORMAT_DTS
  | 0x08 => return audioFormatMap ||| u32 K.DISPLAYINFO_EDID_AUDIOFORMAT_ATRAC
  | 0x09 => return audioFormatMap ||| u32 K.DISPLAYINFO_EDID_AUDIOFORMAT_SUPER_AUDIO_CD
  | 0x0A => do
    let audioFormatMap := audioFormatMap ||| u32 K.DISPLAYINFO_EDID_AUDIOFORMAT_EAC3
    let b ← dataBlock.Current (index + 2)
    if b &&& 0x01 != 0 then
      return audioFormatMap ||| u32 K.DISPLAYINFO_EDID_AUDIOFORMAT_DOLBY_ATMOS
    else return audioFormatMap
  | 0x0B => return audioFormatMap ||| u32 K.DISPLAYINFO_EDID_AUDIOFORMAT_DTSHD
  | 0x0C => return audioFormatMap ||| u32 K.DISPLAYINFO_EDID_AUDIOFORMAT_DOLBY_TRUEHD
  | 0x0D => return audioFormatMap ||| u32 K.DISPLAYINFO_EDID_AUDIOFORMAT_DST_AUDIO
  | 0x0E => return audioFormatMap ||| u32 K.DISPLAYINFO_EDID_AUDIOFORMAT_MS_WMA_PRO
  | 0x0F => do
    let b ← dataBlock.Current (index + 2)
    return SupportedAudioFormats.extended K ((b &&& 0xF8) >>> 3) audioFormatMap
  | _ => return audioFormatMap

/-- The loop `for(uint8_t index = 1; index < dataBlock.BlockSize(); index += 3)` of
`CEA::SupportedAudioFormats`. -/
def SupportedAudioFormats.forLoop (K : DisplayInfo) (dataBlock : DataBlockIterator) :
    Nat → Nat → Nat → Except Fault Nat
  | 0, _, _ => .error .outOfFuel
  | fuel + 1, index, audioFormatMap =>
    if index < dataBlock.BlockSize then do
      let b ← dataBlock.Current index
      let sad := u8 ((b &&& 0x78) >>> 3)
      let audioFormatMap ← SupportedAudioFormats.descriptor K dataBlock index sad audioFormatMap
      SupportedAudioFormats.forLoop K dataBlock fuel (u8 (index + 3)) audioFormatMap
    else return audioFormatMap

/-- The loop `while(dataBlock.Next())` of `CEA::SupportedAudioFormats`. -/
def SupportedAudioFormats.loop (K : DisplayInfo) :
    Nat → DataBlockIterator → Nat → Except Fault Nat
  | 0, _, _ => .error .outOfFuel
  | fuel + 1, dataBlock, audioFormatMap =>
    let (next, dataBlock) := dataBlock.Next
    if next then
      if dataBlock.IsValid && (dataBlock.BlockTag == 0x01) then
        SupportedAudioFormats.forLoop K dataBlock 33 1 audioFormatMap
      else SupportedAudioFormats.loop K fuel dataBlock audioFormatMap
    else return audioFormatMap

/-- `CEA::SupportedAudioFormats`. -/
def SupportedAudioFormats (K : DisplayInfo) (c : CEA) : Except Fault Nat :=
  SupportedAudioFormats.loop K scanFuel
    (DataBlockIterator.new c._segment c.DetailedTimingDescriptorStart) 0

/-- The scanner states in which successive calls of `Next()` return true, in order: the data
blocks reached by a loop `while(dataBlock.Next())` that runs to its end. -/
def DataBlockIterator.scan : Nat → DataBlockIterator → List DataBlockIterator
  | 0, _ => []
  | fuel + 1, it => if it.Next.1 then it.Next.2 :: DataBlockIterator.scan fuel it.Next.2 else []

/-- The data blocks that a scan of the CEA block reaches. -/
def dataBlocks (c : CEA) : List DataBlockIterator :=
  (DataBlockIterator.new c._segment c.DetailedTimingDescriptorStart).scan scanFuel

/-- Byte `i` of the data block the scanner stands at: byte 0 is the header, bytes `1..n` are
the payload.  Meant for offsets inside the block (0 stands in beyond it). -/
def DataBlockIterator.byte (it : DataBlockIterator) (i : Nat) : Nat :=
  (it._segment._data.getD (it._index + i) 0).val

/-- The data block lies inside the 128-byte block: its last payload byte has an offset
below 128. -/
def DataBlockIterator.inBlock (it : DataBlockIterator) : Prop :=
  it._index + it.BlockSize < 128

instance (it : DataBlockIterator) : Decidable it.inBlock :=
  inferInstanceAs (Decidable (it._index + it.BlockSize < 128))

/-- Fuel that lets a scan from the state `it` run to its end: every successful `Next()` but
the first moves the offset up, and the offset stays below 128. -/
def DataBlockIterator.enough (fuel : Nat) (it : DataBlockIterator) : Prop :=
  0 < fuel ∧ (if it._reset = true then 129 else 128) < it._index + fuel

/-- The 24-bit registration id `payload[1] + payload[2] * 2^8 + payload[3] * 2^16` of a
vendor-specific data block. -/
def DataBlockIterator.registrationId (it : DataBlockIterator) : Nat :=
  it.byte 1 + it.byte 2 * 2 ^ 8 + it.byte 3 * 2 ^ 16

/-- The flag, as `w`-bit value `cast flag`, selected by bit `i` of a byte: the flag when the
bit is set, nothing when it is clear. -/
def bitFlag (cast : Nat → Nat) (byte i flag : Nat) : Nat :=
  if byte / 2 ^ i % 2 = 1 then cast flag else 0

/-- The colour depths that byte 6 of the HDMI vendor-specific payload announces: `BPC_16`,
`BPC_12`, `BPC_10` for bits 6, 5, 4. -/
def colorDepthsOf (K : DisplayInfo) (b6 : Nat) : Nat :=
  bitFlag u8 b6 6 K.DISPLAYINFO_EDID_BPC_16 ||| bitFlag u8 b6 5 K.DISPLAYINFO_EDID_BPC_12
    ||| bitFlag u8 b6 4 K.DISPLAYINFO_EDID_BPC_10

/-- The colour spaces that payload bytes 2 and 3 of a colorimetry data block announce. -/
def colorimetryOf (K : DisplayInfo) (b2 b3 : Nat) : Nat :=
  bitFlag u16 b2 0 K.DISPLAYINFO_EDID_COLOR_SPACE_XVYCC_601
    ||| bitFlag u16 b2 1 K.DISPLAYINFO_EDID_COLOR_SPACE_XVYCC_709
    ||| bitFlag u16 b2 2 K.DISPLAYINFO_EDID_COLOR_SPACE_SYCC_601
    ||| bitFlag u16 b2 3 K.DISPLAYINFO_EDID_COLOR_SPACE_OP_YCC_601
    ||| bitFlag u16 b2 4 K.DISPLAYINFO_EDID_COLOR_SPACE_OP_RGB
    ||| bitFlag u16 b2 5 K.DISPLAYINFO_EDID_COLOR_SPACE_ITUR_BT_2020_CYCC
    ||| bitFlag u16 b2 6 K.DISPLAYINFO_EDID_COLOR_SPACE_ITUR_BT_2020_YCC
    ||| bitFlag u16 b2 7 K.DISPLAYINFO_EDID_COLOR_SPACE_ITUR_BT_2020_RGB
    ||| bitFlag u16 b3 7 K.DISPLAYINFO_EDID_COLOR_SPACE_DCI_P3

/-- The audio format selected by the extended code (bits 7-3 of the third descriptor byte)
of a descriptor with code `0x0F`. -/
def extendedAudioFormatOf (K : DisplayInfo) (code : Nat) : Nat :=
  match code with
  | 0x04 => u32 K.DISPLAYINFO_EDID_AUDIOFORMAT_MPEG4_HEAAC
  | 0x05 => u32 K.DISPLAYINFO_EDID_AUDIOFORMAT_MPEG4_HEAAC_V2
  | 0x06 => u32 K.DISPLAYINFO_EDID_AUDIOFORMAT_MPEG4_ACC_LC
  | 0x07 => u32 K.DISPLAYINFO_EDID_AUDIOFORMAT_DRA
  | 0x08 => u32 K.DISPLAYINFO_EDID_AUDIOFORMAT_MPEG4_HEAAC_MPEG_SURROUND
  | 0x0A => u32 K.DISPLAYINFO_EDID_AUDIOFORMAT_MPEG4_HEAAC_LC_MPEG_SURROUND
  | 0x0B => u32 K.DISPLAYINFO_EDID_AUDIOFORMAT_MPEGH_3DAUDIO
  | 0x0C => u32 K.DISPLAYINFO_EDID_AUDIOFORMAT_AC4
  | 0x0D => u32 K.DISPLAYINFO_EDID_AUDIOFORMAT_LPCM_3DAUDIO
  | _ => 0

/-- The audio formats that a 3-byte descriptor `(b1, b2, b3)` announces: the format selected
by the code in bits 6-3 of `b1`; for code `0x0A` also Dolby Atmos when bit 0 of `b3` is set;
for code `0x0F` the format selected by bits 7-3 of `b3`. -/
def audioFormatOf (K : DisplayInfo) (b1 b3 : Nat) : Nat :=
  match b1 / 8 % 16 with
  | 0x01 => u32 K.DISPLAYINFO_EDID_AUDIOFORMAT_LPCM
  | 0x02 => u32 K.DISPLAYINFO_EDID_AUDIOFORMAT_AC3
  | 0x03 => u32 K.DISPLAYINFO_EDID_AUDIOFORMAT_MPEG1
  | 0x04 => u32 K.DISPLAYINFO_EDID_AUDIOFORMAT_MP3
  | 0x05 => u32 K.DISPLAYINFO_EDID_AUDIOFORMAT_MPEG2
  | 0x06 => u32 K.DISPLAYINFO_EDID_AUDIOFORMAT_AAC_LC
  | 0x07 => u32 K.DISPLAYINFO_EDID_AUDIOFORMAT_DTS
  | 0x08 => u32 K.DISPLAYINFO_EDID_AUDIOFORMAT_ATRAC
  | 0x09 => u32 K.DISPLAYINFO_EDID_AUDIOFORMAT_SUPER_AUDIO_CD
  | 0x0A =>
    u32 K.DISPLAYINFO_EDID_AUDIOFORMAT_EAC3
      ||| (if b3 % 2 = 1 then u32 K.DISPLAYINFO_EDID_AUDIOFORMAT_DOLBY_ATMOS else 0)
  | 0x0B => u32 K.DISPLAYINFO_EDID_AUDIOFORMAT_DTSHD
  | 0x0C => u32 K.DISPLAYINFO_EDID_AUDIOFORMAT_DOLBY_TRUEHD
  | 0x0D => u32 K.DISPLAYINFO_EDID_AUDIOFORMAT_DST_AUDIO
  | 0x0E => u32 K.DISPLAYINFO_EDID_AUDIOFORMAT_MS_WMA_PRO
  | 0x0F => extendedAudioFormatOf K (b3 / 8 % 32)
  | _ => 0

/-- The bitwise OR of the audio formats of the first `m` descriptors of the audio data block
the scanner stands at: descriptor `t` is payload bytes `3t + 1`, `3t + 2`, `3t + 3`. -/
def DataBlockIterator.audioFormats (K : DisplayInfo) (it : DataBlockIterator) (m : Nat) : Nat :=
  (List.range m).foldl
    (fun map t => map ||| audioFormatOf K (it.byte (3 * t + 1)) (it.byte (3 * t + 3))) 0

/-- The scanner after `k` consecutive calls of `Next()`. -/
def DataBlockIterator.afterNext (it : DataBlockIterator) : Nat → DataBlockIterator
  | 0 => it
  | k + 1 => (it.afterNext k).Next.2

/-- The offsets named in the description of the scan order, written from its words:
`o_1 = 4` and `o_(k+1) = o_k + 1 + (block[o_k] & 0x1F)`.  `specVisitedOffset block n` is
`o_(n+1)`. -/
def specVisitedOffset (block : Buffer) : Nat → Nat
  | 0 => 4
  | n + 1 => specVisitedOffset block n + 1 + (block.byteAt (specVisitedOffset block n) &&& 0x1F)

/-- The read `Current()[i]` as the machine performs it: inside the block it is the byte of
the block; at an offset `128 + j` it is the byte that follows the block in memory, which
`beyond it j` gives for the scanner state `it`. -/
def DataBlockIterator.CurrentIn (beyond : DataBlockIterator → Nat → Fin 256)
    (it : DataBlockIterator) (i : Nat) : Nat :=
  if h : it._index + i < 128 then it._segment[it._index + i]
  else (beyond it (it._index + i - 128)).val

/-- The bytes that follow `_segment` inside the scanner object, by the order of the member
declarations `Buffer _segment; uint16_t _index; uint8_t _dtdBegin; bool _reset;`: the two
bytes of `_index`, low byte first, then `_dtdBegin`, then `_reset` (no padding: `_segment`
has 128 bytes).  Offsets behind the object count as 0. -/
def DataBlockIterator.members (it : DataBlockIterator) (j : Nat) : Fin 256 :=
  match j with
  | 0 => ⟨it._index % 256, Nat.mod_lt _ (by decide)⟩
  | 1 => ⟨it._index / 256 % 256, Nat.mod_lt _ (by decide)⟩
  | 2 => ⟨it._dtdBegin % 256, Nat.mod_lt _ (by decide)⟩
  | 3 => if it._reset then 1 else 0
  | _ => 0

/-- The registration id as `CEA::SupportedColorFormats` computes it from `Current()[1]`,
`Current()[2]`, `Current()[3]`. -/
def DataBlockIterator.registrationIdIn (beyond : DataBlockIterator → Nat → Fin 256)
    (it : DataBlockIterator) : Nat :=
  it.CurrentIn beyond 1 + it.CurrentIn beyond 2 * 2 ^ 8 + it.CurrentIn beyond 3 * 2 ^ 16

/-- The loop `while(dataBlock.Next())` of `CEA::SupportedColorFormats` with the reads
`Current()[i]` performed as `CurrentIn` describes. -/
def SupportedColorFormats.loopIn (K : DisplayInfo)
    (beyond : DataBlockIterator → Nat → Fin 256) :
    Nat → DataBlockIterator → Nat → Except Fault Nat
  | 0, _, _ => .error .outOfFuel
  | fuel + 1, dataBlock, colorFormatMap =>
    let (next, dataBlock) := dataBlock.Next
    if next then
      if dataBlock.IsValid && (dataBlock.BlockTag == 0x03) && decide (dataBlock.BlockSize > 3) then
        let registrationId := u32 (dataBlock.CurrentIn beyond 1
          + (dataBlock.CurrentIn beyond 2 <<< 8) + (dataBlock.CurrentIn beyond 3 <<< 16))
        if registrationId == 0xC45DD8 then
          let colorFormatMap :=
            if dataBlock.CurrentIn beyond 3 &&& (1 <<< 1) != 0 then
              colorFormatMap ||| u8 K.DISPLAYINFO_EDID_COLOR_FORMAT_YCBCR_4_2_0
            else colorFormatMap
          let colorFormatMap :=
            if dataBlock.CurrentIn beyond 3 &&& (1 <<< 2) != 0 then
              colorFormatMap ||| u8 K.DISPLAYINFO_EDID_COLOR_FORMAT_YCBCR_4_2_0
            else colorFormatMap
          let colorFormatMap :=
            if dataBlock.CurrentIn beyond 3 &&& (1 <<< 3) != 0 then
              colorFormatMap ||| u8 K.DISPLAYINFO_EDID_COLOR_FORMAT_YCBCR_4_2_0
            else colorFormatMap
          .ok colorFormatMap
        else SupportedColorFormats.loopIn K beyond fuel dataBlock colorFormatMap
      else SupportedColorFormats.loopIn K beyond fuel dataBlock colorFormatMap
    else .ok colorFormatMap

/-- `CEA::SupportedColorFormats` with the reads `Current()[i]` performed as `CurrentIn`
describes. -/
def SupportedColorFormatsIn (K : DisplayInfo) (beyond : DataBlockIterator → Nat → Fin 256)
    (c : CEA) : Except Fault Nat :=
  SupportedColorFormats.loopIn K beyond scanFuel
    (DataBlockIterator.new c._segment c.DetailedTimingDescriptorStart) 0

end CEA

end ExtendedDisplayIdentification

/-! ## `ExtendedDisplayIdentification` -/

/-- Class `ExtendedDisplayIdentification`: the base block and the list of extension blocks. -/
structure ExtendedDisplayIdentification where
  _base : ExtendedDisplayIdentification.Buffer
  _segments : ExtendedDisplayIdentification.BufferList
  deriving DecidableEq

namespace ExtendedDisplayIdentification

/-- Constructor `ExtendedDisplayIdentification()`: `_base` is not initialised apart from byte 0,
so its previous content `memory` is a parameter. -/
def new (memory : Buffer) : ExtendedDisplayIdentification :=
  ⟨memory.set 0 0x55, []⟩

/-- `ExtendedDisplayIdentification::IsValid`. -/
def IsValid (d : ExtendedDisplayIdentification) : Bool :=
  (d._base[0] == 0x00) &&
  (d._base[1] == 0xFF) &&
  (d._base[2] == 0xFF) &&
  (d._base[3] == 0xFF) &&
  (d._base[4] == 0xFF) &&
  (d._base[5] == 0xFF) &&
  (d._base[6] == 0xFF) &&
  (d._base[7] == 0x00)

/-- `ExtendedDisplayIdentification::ManufactereChar`, the argument being a `uint8_t`. -/
def ManufactereChar (value : Nat) : Char :=
  Char.ofNat (65 + (i32 ((value : Int) - 1) &&& 0x1F))

/-- `ExtendedDisplayIdentification::Manufacturer`. -/
def Manufacturer (d : ExtendedDisplayIdentification) : String :=
  if d.IsValid == true then
    let value := u16 ((d._base[0x08] <<< 8) ||| d._base[0x09])
    let result := String.singleton (ManufactereChar (u8 (value >>> 10)))
    let result := result.push (ManufactereChar (u8 (value >>> 5)))
    let result := result.push (ManufactereChar (u8 value))
    result
  else ""

/-- `ExtendedDisplayIdentification::ProductCode`. -/
def ProductCode (d : ExtendedDisplayIdentification) : Nat :=
  if d.IsValid == true then
    u16 ((d._base[0x0B] <<< 8) ||| d._base[0x0A])
  else 0xFFFF

/-- `ExtendedDisplayIdentification::Serial`. -/
def Serial (d : ExtendedDisplayIdentification) : Nat :=
  if d.IsValid == true then
    u32 ((d._base[0x0F] <<< 24) ||| (d._base[0x0E] <<< 16) ||| (d._base[0x0D] <<< 8)
      ||| d._base[0x0C])
  else 0xFFFFFFFF

/-- `ExtendedDisplayIdentification::Week`. -/
def Week (d : ExtendedDisplayIdentification) : Nat :=
  u8 (if d.IsValid then d._base[0x10] else 0x00)

/-- `ExtendedDisplayIdentification::Year`. -/
def Year (d : ExtendedDisplayIdentification) : Nat :=
  u16 (if d.IsValid then 1990 + d._base[0x11] else 0x00)

/-- `ExtendedDisplayIdentification::Major`. -/
def Major (d : ExtendedDisplayIdentification) : Nat :=
  u8 (if d.IsValid then d._base[0x12] else 0x00)

/-- `ExtendedDisplayIdentification::Minor`. -/
def Minor (d : ExtendedDisplayIdentification) : Nat :=
  u8 (if d.IsValid then d._base[0x13] else 0x00)

/-- `ExtendedDisplayIdentification::Digital`. -/
def Digital (d : ExtendedDisplayIdentification) : Bool :=
  (d._base[14] &&& 0x80) != 0

/-- The table `static uint8_t bitsPerColor[]` of `BitsPerColor`. -/
def bitsPerColor : List Nat := [0, 6, 8, 10, 12, 14, 16, 255]

/-- `ExtendedDisplayIdentification::BitsPerColor`. -/
def BitsPerColor (d : ExtendedDisplayIdentification) : Nat :=
  bitsPerColor.get ⟨(d._base[0x14] >>> 4) &&& 0x7, by
    have h : (d._base[0x14] >>> 4) &&& 0x7 ≤ 0x7 := Nat.and_le_right
    simp only [bitsPerColor, List.length_cons, List.length_nil]
    omega⟩

/-- `ExtendedDisplayIdentification::ColorDepth`. -/
def ColorDepth (K : DisplayInfo) (d : ExtendedDisplayIdentification) : Nat :=
  if (d._base[0x14] >>> 7) &&& 0x01 != 0 then
    match (d._base[0x14] >>> 4) &&& 0x07 with
    | 0x01 => K.DISPLAYINFO_EDID_BPC_6
    | 0x02 => K.DISPLAYINFO_EDID_BPC_8
    | 0x03 => K.DISPLAYINFO_EDID_BPC_10
    | 0x04 => K.DISPLAYINFO_EDID_BPC_12
    | 0x05 => K.DISPLAYINFO_EDID_BPC_14
    | 0x06 => K.DISPLAYINFO_EDID_BPC_16
    | _ => K.DISPLAYINFO_EDID_BPC_UNDEFINED
  else K.DISPLAYINFO_EDID_BPC_UNDEFINED

/-- `ExtendedDisplayIdentification::VideoInterface` (the value before the cast to the
enumeration). -/
def VideoInterface (d : ExtendedDisplayIdentification) : Nat :=
  d._base[0x14] &&& 0x0F

/-- `ExtendedDisplayIdentification::Extensions`. -/
def Extensions (d : ExtendedDisplayIdentification) : Iterator :=
  Iterator.ofList d._segments

/-- `ExtendedDisplayIdentification::Length`. -/
def Length (d : ExtendedDisplayIdentification) : Nat := d._base.Length

/-- `ExtendedDisplayIdentification::Segments`. -/
def Segments (d : ExtendedDisplayIdentification) : Nat :=
  u8 (if d.IsValid then d._base[0x7e] + 1 else 1)

/-- The block a `uint8_t*` returned by `Segment` points to: `nullptr`, the base block, or the
element of `_segments` at a position counted from 0. -/
inductive BlockPtr where
  | null
  | base
  | segment (position : Nat)
  deriving DecidableEq, Repr

/-- The loop `while (current <= index)` of `Segment`.  The `std::list` iterator `pointer` is
`some i` at the element at position `i` and `none` at `end()` (which stays `end()` when the
list grows); `current` is a `uint8_t`; `memory i` is the uninitialised content of the block
that `emplace_back()` creates at position `i`.  The result is `none` when the loop has not
ended within `fuel` iterations. -/
def Segment.loop (memory : Nat → Buffer) (index : Nat) :
    Nat → BufferList → Option Nat → Nat → Option (BufferList × Option Nat)
  | 0, _, _, _ => none
  | fuel + 1, segments, pointer, current =>
    if current ≤ index then
      match pointer with
      | some i =>
        Segment.loop memory index fuel segments
          (if i + 1 < segments.length then some (i + 1) else none) (u8 (current + 1))
      | none =>
        Segment.loop memory index fuel (segments ++ [memory segments.length])
          none (u8 (current + 1))
    else some (segments, pointer)

/-- `ExtendedDisplayIdentification::Segment`, `index` being a `uint8_t`: the block the returned
pointer points to and the document after the call; `none` when the loop does not end within
`fuel` iterations. -/
def Segment (fuel : Nat) (memory : Nat → Buffer) (d : ExtendedDisplayIdentification)
    (index : Nat) : Option (BlockPtr × ExtendedDisplayIdentification) :=
  if index == 0 then
    some (.base, d)
  else if index ≤ d.Segments then
    match Segment.loop memory index fuel d._segments
        (if d._segments.isEmpty then none else some 0) 1 with
    | some (segments, pointer) =>
      let result : BlockPtr :=
        match pointer with
        | some i => .segment i
        | none => .segment (segments.length - 1)
      some (result, { d with _segments := segments })
    | none => none
  else
    some (.null, d)

/-- Filling the 128 bytes behind a pointer returned by `Segment` with the block `bytes`. -/
def fill (d : ExtendedDisplayIdentification) (p : BlockPtr) (bytes : Buffer) :
    ExtendedDisplayIdentification :=
  match p with
  | .null => d
  | .base => { d with _base := bytes }
  | .segment i => { d with _segments := d._segments.set i bytes }

/-- The loop `while(index.Next() == true)` of `CEASegment`. -/
def CEASegment.loop : Nat → Iterator → Iterator
  | 0, index => index
  | fuel + 1, index =>
    let (next, index) := index.Next
    if next == true then
      if index.Type_ == CEA.extension_tag then index
      else CEASegment.loop fuel index
    else index

/-- `ExtendedDisplayIdentification::CEASegment`; the local cursor is returned as it is (the
copy on `return` is elided).  A list of `n` blocks needs at most `n + 1` calls of `Next()`. -/
def CEASegment (d : ExtendedDisplayIdentification) : Iterator :=
  CEASegment.loop (d._segments.length + 1) (Iterator.ofList d._segments)

/-- `ExtendedDisplayIdentification::WidthInCentimeters`. -/
def WidthInCentimeters (d : ExtendedDisplayIdentification) : Nat :=
  u8 (if d.IsValid then d._base[21] else 0)

/-- `ExtendedDisplayIdentification::HeightInCentimeters`. -/
def HeightInCentimeters (d : ExtendedDisplayIdentification) : Nat :=
  u8 (if d.IsValid then d._base[22] else 0)

/-- `ExtendedDisplayIdentification::PreferredWidthInPixels`. -/
def PreferredWidthInPixels (d : ExtendedDisplayIdentification) : Nat :=
  u16 (if d.IsValid then ((d._base[0x3A] &&& 0xF0) <<< 4) + d._base[0x38] else 0)

/-- `ExtendedDisplayIdentification::PreferredHeightInPixels`. -/
def PreferredHeightInPixels (d : ExtendedDisplayIdentification) : Nat :=
  u16 (if d.IsValid then ((d._base[0x3D] &&& 0xF0) <<< 4) + d._base[0x3B] else 0)

/-- `ExtendedDisplayIdentification::SupportedColorDepths`. -/
def SupportedColorDepths (K : DisplayInfo) (d : ExtendedDisplayIdentification) :
    Except Fault Nat :=
  let colorDepthMap := u8 (d.ColorDepth K)
  let segment := d.CEASegment
  if h : segment.IsValid = true then
    let cae : CEA := ⟨segment.Current h⟩
    cae.SupportedColorDepths K
  else return colorDepthMap

/-- `ExtendedDisplayIdentification::SupportedColorFormat`. -/
def SupportedColorFormat (K : DisplayInfo) (d : ExtendedDisplayIdentification) : Nat :=
  let segment := d.CEASegment
  if h : segment.IsValid = true then
    let cae : CEA := ⟨segment.Current h⟩
    cae.SupportedColorFormat K
  else K.DISPLAYINFO_EDID_COLOR_FORMAT_UNDEFINED

/-- `ExtendedDisplayIdentification::SupportedDigitalDisplayTypes`. -/
def SupportedDigitalDisplayTypes (K : DisplayInfo) (d : ExtendedDisplayIdentification) : Nat :=
  let colorFormatMap := u8 K.DISPLAYINFO_EDID_COLOR_FORMAT_RGB
  if (d._base[0x14] >>> 7) &&& 0x01 != 0 then
    match (d._base[0x18] >>> 3) &&& 0x07 with
    | 0x00 => colorFormatMap ||| u8 K.DISPLAYINFO_EDID_COLOR_FORMAT_RGB
    | 0x01 =>
      colorFormatMap ||| u8 K.DISPLAYINFO_EDID_COLOR_FORMAT_RGB
        ||| u8 K.DISPLAYINFO_EDID_COLOR_FORMAT_YCBCR_4_4_4
    | 0x02 =>
      colorFormatMap ||| u8 K.DISPLAYINFO_EDID_COLOR_FORMAT_RGB
        ||| u8 K.DISPLAYINFO_EDID_COLOR_FORMAT_YCBCR_4_2_2
    | 0x03 =>
      colorFormatMap ||| u8 K.DISPLAYINFO_EDID_COLOR_FORMAT_RGB
        ||| u8 K.DISPLAYINFO_EDID_COLOR_FORMAT_YCBCR_4_2_2
        ||| u8 K.DISPLAYINFO_EDID_COLOR_FORMAT_YCBCR_4_4_4
    | _ => colorFormatMap
  else colorFormatMap

/-- `ExtendedDisplayIdentification::SupportedColorFormats`. -/
def SupportedColorFormats (K : DisplayInfo) (d : ExtendedDisplayIdentification) :
    Except Fault Nat :=
  let colorFormatMap := 0
  let segment := d.CEASegment
  if h : segment.IsValid = true then do
    let cae : CEA := ⟨segment.Current h⟩
    let colorFormatMap := colorFormatMap ||| u8 (cae.SupportedColorFormat K)
    let colorFormatMap := colorFormatMap ||| (← cae.SupportedColorFormats K)
    let colorFormatMap := colorFormatMap ||| d.SupportedDigitalDisplayTypes K
    return colorFormatMap
  else return colorFormatMap

/-- `ExtendedDisplayIdentification::SupportedColorSpace`. -/
def SupportedColorSpace (K : DisplayInfo) (d : ExtendedDisplayIdentification) :
    Except Fault Nat :=
  let colorSpaceMap :=
    if d._base[0x18] &&& (1 <<< 2) != 0 then 0 ||| u16 K.DISPLAYINFO_EDID_COLOR_SPACE_SRGB
    else 0
  let segment := d.CEASegment
  if h : segment.IsValid = true then
    let cae : CEA := ⟨segment.Current h⟩
    cae.SupportedColorSpaces K
  else return colorSpaceMap

/-- `ExtendedDisplayIdentification::SupportedTimings`: the vector `vicList` after the call. -/
def SupportedTimings (d : ExtendedDisplayIdentification) (vicList : List Nat) :
    Except Fault (List Nat) :=
  let segment := d.CEASegment
  if h : segment.IsValid = true then
    let cae : CEA := ⟨segment.Current h⟩
    cae.SupportedTimings vicList
  else return vicList

/-- `ExtendedDisplayIdentification::SupportedAudioFormats`. -/
def SupportedAudioFormats (K : DisplayInfo) (d : ExtendedDisplayIdentification) :
    Except Fault Nat :=
  let audioFormatMap := 0
  let segment := d.CEASegment
  if h : segment.IsValid = true then
    let cae : CEA := ⟨segment.Current h⟩
    cae.SupportedAudioFormats K
  else return audioFormatMap

/-- The call `::memcpy(&data[destination], source, count)` that copies the first `count` bytes
of a block into the caller's buffer; `data` is the memory from the caller's pointer on, and
`count` is at most the block size at both calls. -/
def memcpy (data : Nat → Fin 256) (destination : Nat) (source : Buffer) (count : Nat) :
    Nat → Fin 256 :=
  fun i =>
    if destination ≤ i ∧ i < destination + count then source._data.getD (i - destination) 0
    else data i

/-- The loop `while ((written < length) && (index != _segments.cend()))` of `Raw`; the list
is the part of `_segments` from `index` on. -/
def Raw.loop (length : Nat) : BufferList → Nat → (Nat → Fin 256) → Nat × (Nat → Fin 256)
  | [], written, data => (written, data)
  | block :: index, written, data =>
    if written < length then
      let segment := min block.Length (u16 (length - written))
      Raw.loop length index (u16 (written + segment)) (memcpy data written block segment)
    else (written, data)

/-- `ExtendedDisplayIdentification::Raw`, `length` being a `uint16_t`: the returned count and
the caller's buffer after the call. -/
def Raw (d : ExtendedDisplayIdentification) (length : Nat) (data : Nat → Fin 256) :
    Nat × (Nat → Fin 256) :=
  if d.IsValid == true then
    let segment := min d.Length length
    Raw.loop length d._segments segment (memcpy data 0 d._base segment)
  else (0, data)

/-- `ExtendedDisplayIdentification::Clear`. -/
def Clear (d : ExtendedDisplayIdentification) : ExtendedDisplayIdentification :=
  ⟨d._base.set 0 0x55, []⟩

end ExtendedDisplayIdentification

/-! ## Documents and blocks used as concrete inputs -/

namespace ExtendedDisplayIdentification

/-- The signature `00 FF FF FF FF FF FF 00` that `IsValid` compares bytes 0..7 with. -/
def magic : List (Fin 256) := [0x00, 0xFF, 0xFF, 0xFF, 0xFF, 0xFF, 0xFF, 0x00]

/-- The character `'A' + ((g - 1) mod 32)` of the manufacturer code, for a 5-bit group `g`. -/
def groupLetter (g : Nat) : Char := Char.ofNat (65 + (((g : Int) - 1) % 32).toNat)

/-- A valid document with manufacturer bytes `4C 2D`. -/
def samsungDocument : ExtendedDisplayIdentification :=
  ⟨Buffer.ofList (magic ++ [0x4C, 0x2D]), []⟩

/-- A document whose byte 0 is `0x55`, with non-zero identification bytes and byte `0x7E = 7`. -/
def invalidDocument : ExtendedDisplayIdentification :=
  ⟨Buffer.ofList ([0x55] ++ List.replicate 125 0xAB ++ [0x07]), []⟩

/-- A valid document with byte `0x38 = 0x20`, byte `0x3A = 0x10`, byte `0x3B = 0x38` and
byte `0x3D = 0x40`. -/
def preferredDocument : ExtendedDisplayIdentification :=
  ⟨Buffer.ofList (magic ++ List.replicate 48 0 ++ [0x20, 0x00, 0x10, 0x38, 0x00, 0x40]), []⟩

/-- A valid document with byte `0x14 = 0x20`: digital-input flag clear, depth field 2. -/
def analogDocument : ExtendedDisplayIdentification :=
  ⟨Buffer.ofList (magic ++ List.replicate 12 0 ++ [0x20]), []⟩

/-- A valid document with byte `0x14 = 0xA0` (digital-input flag set, depth field 2) and
byte `0x0E = 0x00`. -/
def digitalDocument : ExtendedDisplayIdentification :=
  ⟨Buffer.ofList (magic ++ List.replicate 12 0 ++ [0xA0]), []⟩

/-- A valid document with byte `0x7E = 0xFF`. -/
def wrapDocument : ExtendedDisplayIdentification :=
  ⟨Buffer.ofList (magic ++ List.replicate 118 0 ++ [0xFF]), []⟩

/-- A CEA block (tag `02`, version 3, DTD start 8) with one video data block: header `42`
(tag 2, length 2) and payload `10 1F`. -/
def videoBlock : Buffer := Buffer.ofList [0x02, 0x03, 0x08, 0x00, 0x42, 0x10, 0x1F]

/-- An extension block that is not a CEA block (first byte `70`). -/
def otherBlock : Buffer := Buffer.ofList [0x70, 0x01]

/-- A valid document that declares two extension blocks (byte `0x7E = 2`) and holds both. -/
def twoBlockDocument : ExtendedDisplayIdentification :=
  ⟨Buffer.ofList (magic ++ List.replicate 118 0 ++ [0x02]), [videoBlock, otherBlock]⟩

/-- The block of 128 bytes `EE` that is written through a pointer returned by `Segment`. -/
def newBlock : Buffer := Buffer.ofList (List.replicate 128 0xEE)

/-- A document with byte 0 equal to `0x55` that holds the CEA block `videoBlock`. -/
def invalidCeaDocument : ExtendedDisplayIdentification :=
  ⟨Buffer.ofList [0x55], [videoBlock]⟩

/-- A sample numbering of the enumerators of `displayinfo.h`, used for concrete instances
only: 0 for the undefined ones and distinct single bits for the others. -/
def sampleDisplayInfo : DisplayInfo :=
  ⟨0, 1, 2, 4, 8, 16, 32,
   0, 1, 2, 4, 8,
   1, 2, 4, 8, 16, 32, 64, 128, 256, 512,
   1, 2, 4, 8, 16, 32, 64, 128, 256, 512, 1024, 2048, 4096, 8192, 16384, 32768, 65536, 131072,
   262144, 524288, 1048576, 2097152, 4194304, 8388608⟩

/-- The 128 bytes of a buffer from offset `o` on, as a block. -/
def blockAt (data : Nat → Fin 256) (o : Nat) : Buffer :=
  ⟨(List.range 128).map (fun i => data (o + i)), by simp⟩

/-- The concatenation `base ++ ext_1 ++ ... ++ ext_n` of the blocks of a document. -/
def allBytes (d : ExtendedDisplayIdentification) : List (Fin 256) :=
  d._base._data ++ (d._segments.map (fun b => b._data)).flatten

/-- The round trip's re-population, steps `k, k + 1, ..`: `remaining` times, the bytes
`[128 * k, 128 * (k + 1))` of `data` are copied to the pointer that `Segment(k)` returns.
There is no result when `Segment` does not return or returns `nullptr`. -/
def populate.loop (fuel : Nat) (memory : Nat → Buffer) (data : Nat → Fin 256) :
    Nat → Nat → ExtendedDisplayIdentification → Option ExtendedDisplayIdentification
  | 0, _, d => some d
  | remaining + 1, k, d =>
    match Segment fuel memory d k with
    | none => none
    | some (.null, _) => none
    | some (p, d1) =>
      populate.loop fuel memory data remaining (k + 1) (d1.fill p (blockAt data (128 * k)))

/-- A freshly constructed document populated from `data`: `Segment(0)`, then `Segment(k)` for
`k = 1..n` in increasing order. -/
def populate (fuel : Nat) (memory0 : Buffer) (memory : Nat → Buffer) (data : Nat → Fin 256)
    (n : Nat) : Option ExtendedDisplayIdentification :=
  populate.loop fuel memory data (n + 1) 0 (new memory0)

/-- A caller's buffer filled with the byte `0x11`. -/
def freshData : Nat → Fin 256 := fun _ => 0x11

/-- A valid document with byte `0x7E = 254`, so that `Segments()` is 255, and no extension
block stored. -/
def loopDocument : ExtendedDisplayIdentification :=
  ⟨Buffer.ofList (magic ++ List.replicate 118 0 ++ [0xFE]), []⟩

/-- A valid document that declares no extension (byte `0x7E = 0`) and holds two. -/
def undeclaredDocument : ExtendedDisplayIdentification :=
  ⟨Buffer.ofList magic, [videoBlock, otherBlock]⟩

/-- A valid document with byte `0x14 = 0x80` and byte `0x18 = 0x04` (sRGB bit set) and no
extension block. -/
def srgbDocument : ExtendedDisplayIdentification :=
  ⟨Buffer.ofList (magic ++ List.replicate 12 0 ++ [0x80, 0, 0, 0, 0x04]), []⟩

/-- A CEA block (DTD start 11) with one audio data block: header `26` (tag 1, length 6) and
the descriptors `51 07 01` (code `0x0A`, bit 0 of the third byte set) and `09 7F 07`
(code `0x01`). -/
def audioBlock : Buffer :=
  Buffer.ofList [0x02, 0x03, 0x0B, 0x00, 0x26, 0x51, 0x07, 0x01, 0x09, 0x7F, 0x07]

/-- A CEA block like `overrunBlock` whose data block at offset 100 is an audio block with
header `3E` (tag 1, length 30). -/
def overrunAudioBlock : Buffer :=
  Buffer.ofList ([0x02, 0x03, 0x7F, 0x00, 0x1F] ++ List.replicate 31 0 ++ [0x1F]
    ++ List.replicate 31 0 ++ [0x1F] ++ List.replicate 31 0 ++ [0x3E])

/-- A CEA block (DTD start 20) with a vendor-specific block of another registration id
(header `64`, id `C45DD8`) followed by the HDMI block: header `67` (tag 3, length 7), id
`000C03`, payload byte 6 equal to `0x50` (bits 6 and 4). -/
def hdmiBlock : Buffer :=
  Buffer.ofList [0x02, 0x03, 0x14, 0x00, 0x64, 0xD8, 0x5D, 0xC4, 0x00,
    0x67, 0x03, 0x0C, 0x00, 0x10, 0x00, 0x50, 0x2D]

/-- A CEA block with DTD start `0x7F`, data blocks of tag 0 at offsets 4, 36, 68 (length 31)
and 100 (length 23), and a vendor-specific block with header `67` (tag 3, length 7) at offset
124 whose payload starts with the registration id `03 0C 00`; its payload byte 6 would be at
offset 130. -/
def overrunVendorBlock : Buffer :=
  Buffer.ofList ([0x02, 0x03, 0x7F, 0x00, 0x1F] ++ List.replicate 31 0 ++ [0x1F]
    ++ List.replicate 31 0 ++ [0x1F] ++ List.replicate 31 0 ++ [0x17]
    ++ List.replicate 23 0 ++ [0x67, 0x03, 0x0C, 0x00])

/-- A CEA block (DTD start 12) with two extended-tag blocks: header `E2` with extended tag
`00` (video capability), then header `E3` with extended tag `05` (colorimetry) and the
bytes `FF 80`. -/
def capabilityFirstBlock : Buffer :=
  Buffer.ofList [0x02, 0x03, 0x0C, 0x00, 0xE2, 0x00, 0x0F, 0xE3, 0x05, 0xFF, 0x80]

/-- A CEA block (DTD start 8) with the colorimetry block alone: header `E3`, extended tag
`05`, bytes `03 80`. -/
def colorimetryBlock : Buffer :=
  Buffer.ofList [0x02, 0x03, 0x08, 0x00, 0xE3, 0x05, 0x03, 0x80]

/-- A CEA block of version 3 whose byte 3 is `0x11`: both the bits 2-0 and the bits 6-4 of
byte 3 hold the value 1. -/
def formatBlock : Buffer := Buffer.ofList [0x02, 0x03, 0x04, 0x11]

/-- A CEA block (DTD start 8) with the header `40` (tag 2, length 0) at offset 4, followed at
offset 5 by the header `41` (tag 2, length 1) and its payload `10`. -/
def zeroLengthBlock : Buffer := Buffer.ofList [0x02, 0x03, 0x08, 0x00, 0x40, 0x41, 0x10]

/-- A CEA block (DTD start 12) with the HDMI Forum vendor-specific block alone: header `67`
(tag 3, length 7), registration id `D8 5D C4`, and four more payload bytes. -/
def forumBlock : Buffer :=
  Buffer.ofList [0x02, 0x03, 0x0C, 0x00, 0x67, 0xD8, 0x5D, 0xC4, 0x01, 0x3C, 0x00, 0x0E]

/-- A CEA block with DTD start `0x7F`, data blocks of tag 0 at offsets 4, 36, 68 (length 31)
and 100 (length 24), and a vendor-specific block with header `64` (tag 3, length 4) at offset
125 whose payload starts with `D8 5D`; its payload byte 3 would be at offset 128. -/
def overrunForumBlock : Buffer :=
  Buffer.ofList ([0x02, 0x03, 0x7F, 0x00, 0x1F] ++ List.replicate 31 0 ++ [0x1F]
    ++ List.replicate 31 0 ++ [0x1F] ++ List.replicate 31 0 ++ [0x18]
    ++ List.replicate 24 0 ++ [0x64, 0xD8, 0x5D])

/-- A CEA block with DTD start `0x80` in which every even offset from 4 to 126 holds the
header `21` (tag 1, length 1). -/
def denseBlock : Buffer :=
  Buffer.ofList ([0x02, 0x03, 0x80, 0x00] ++ (List.replicate 62 [0x21, 0x00]).flatten)

/-- A CEA block with DTD start `0x7F`, three data blocks of tag 0 and length 31 at offsets 4,
36 and 68, and a video data block with header `5F` (tag 2, length 31) at offset 100. -/
def overrunBlock : Buffer :=
  Buffer.ofList ([0x02, 0x03, 0x7F, 0x00, 0x1F] ++ List.replicate 31 0 ++ [0x1F]
    ++ List.replicate 31 0 ++ [0x1F] ++ List.replicate 31 0 ++ [0x5F])

end ExtendedDisplayIdentification

/-! ## Lemmas -/

namespace ExtendedDisplayIdentification

theorem Buffer.getElem_eq_getD (b : Buffer) (i : Nat) (h : i < 128) :
    b[i] = (b._data.getD i 0).val := by
  show (b._data.get _).val = _
  have : i < b._data.length := by rw [b.size_eq]; exact h
  simp [List.getD_eq_getElem?_getD, List.getElem?_eq_getElem this]

theorem Buffer.getElem_lt (b : Buffer) (i : Nat) (h : i < 128) : b[i] < 256 :=
  Fin.isLt _

theorem IsValid_iff_take (d : ExtendedDisplayIdentification) :
    d.IsValid = true ↔ d._base._data.take 8 = magic := by
  obtain ⟨⟨l, hl⟩, segs⟩ := d
  match l, hl with
  | a0 :: a1 :: a2 :: a3 :: a4 :: a5 :: a6 :: a7 :: rest, _ =>
    have h255 : ((255 : Fin 256) : Nat) = 255 := rfl
    simp [IsValid, Buffer.getElem_eq_getD, magic, Fin.ext_iff, h255, and_assoc]

theorem IsValid_iff_bytes (d : ExtendedDisplayIdentification) :
    d.IsValid = true ↔
      (d._base[0] = 0x00 ∧ d._base[1] = 0xFF ∧ d._base[2] = 0xFF ∧ d._base[3] = 0xFF ∧
        d._base[4] = 0xFF ∧ d._base[5] = 0xFF ∧ d._base[6] = 0xFF ∧ d._base[7] = 0x00) := by
  simp [IsValid, and_assoc]

theorem ManufactereChar_eq (x : Nat) : ManufactereChar x = groupLetter (x % 32) := by
  unfold ManufactereChar i32 groupLetter
  have h31 : (0x1F : Nat) = 2 ^ 5 - 1 := by norm_num
  rw [h31, Nat.and_pow_two_sub_one_eq_mod]
  congr 2
  omega

theorem Manufacturer_eq (d : ExtendedDisplayIdentification) (h : d.IsValid = true) :
    d.Manufacturer =
      String.mk [groupLetter ((d._base[0x08] * 256 + d._base[0x09]) / 1024 % 32),
        groupLetter ((d._base[0x08] * 256 + d._base[0x09]) / 32 % 32),
        groupLetter ((d._base[0x08] * 256 + d._base[0x09]) % 32)] := by
  have h9 := d._base.getElem_lt 0x09 (by decide)
  have h8 := d._base.getElem_lt 0x08 (by decide)
  have hv : (d._base[0x08] <<< 8) ||| d._base[0x09] = d._base[0x08] * 256 + d._base[0x09] := by
    rw [Nat.shiftLeft_eq, Nat.mul_comm]
    exact (Nat.mul_add_lt_is_or (i := 8) h9 _).symm
  simp only [Manufacturer, h, beq_self_eq_true, if_true, hv, ManufactereChar_eq, u8, u16]
  have e1 : (d._base[0x08] * 256 + d._base[0x09]) % 65536
      = d._base[0x08] * 256 + d._base[0x09] := by omega
  rw [e1]
  simp only [Nat.shiftRight_eq_div_pow]
  have e2 : (d._base[8] * 256 + d._base[9]) / 2 ^ 10 % 256 % 32
      = (d._base[8] * 256 + d._base[9]) / 1024 % 32 := by omega
  have e3 : (d._base[8] * 256 + d._base[9]) / 2 ^ 5 % 256 % 32
      = (d._base[8] * 256 + d._base[9]) / 32 % 32 := by omega
  have e4 : (d._base[8] * 256 + d._base[9]) % 256 % 32
      = (d._base[8] * 256 + d._base[9]) % 32 := by omega
  rw [e2, e3, e4]
  rfl

theorem highNibble_shift_add (a b : Nat) (hb : b < 256) :
    ((a &&& 0xF0) <<< 4) + b = ((a &&& 0xF0) <<< 4) ||| b ∧ ((a &&& 0xF0) <<< 4) + b < 4096 := by
  have hle : a &&& 0xF0 ≤ 0xF0 := Nat.and_le_right
  have hmod : (a &&& 0xF0) % 16 = 0 := by
    have h15 : (16 : Nat) = 2 ^ 4 := by norm_num
    have h := Nat.and_pow_two_sub_one_eq_mod (a &&& 0xF0) 4
    rw [Nat.and_assoc] at h
    have hz : (0xF0 : Nat) &&& (2 ^ 4 - 1) = 0 := by decide
    rw [hz, Nat.and_zero] at h
    rw [h15]
    exact h.symm
  have hshift : (a &&& 0xF0) <<< 4 = 2 ^ 8 * ((a &&& 0xF0) / 16) := by
    rw [Nat.shiftLeft_eq]
    omega
  constructor
  · rw [hshift]
    exact Nat.mul_add_lt_is_or (i := 8) hb _
  · rw [hshift]
    omega

end ExtendedDisplayIdentification

namespace ExtendedDisplayIdentification

theorem shiftRight_and_eq (b : Nat) :
    (b >>> 7) &&& 0x01 = b / 128 % 2 ∧ (b >>> 4) &&& 0x07 = b / 16 % 8 := by
  have h1 : (0x01 : Nat) = 2 ^ 1 - 1 := by norm_num
  have h7 : (0x07 : Nat) = 2 ^ 3 - 1 := by norm_num
  rw [h1, h7, Nat.and_pow_two_sub_one_eq_mod, Nat.and_pow_two_sub_one_eq_mod,
    Nat.shiftRight_eq_div_pow, Nat.shiftRight_eq_div_pow]
  norm_num

theorem BitsPerColor_eq (d : ExtendedDisplayIdentification) :
    d.BitsPerColor = [0, 6, 8, 10, 12, 14, 16, 255].getD (d._base[0x14] / 16 % 8) 0 := by
  have hlt : (d._base[0x14] >>> 4) &&& 0x7 < [0, 6, 8, 10, 12, 14, 16, 255].length := by
    have hle : (d._base[0x14] >>> 4) &&& 0x7 ≤ 0x7 := Nat.and_le_right
    simp only [List.length_cons, List.length_nil]
    omega
  rw [← (shiftRight_and_eq d._base[0x14]).2]
  simp only [BitsPerColor, bitsPerColor, List.getD_eq_getElem?_getD,
    List.getElem?_eq_getElem hlt, Option.getD_some, List.get_eq_getElem]

theorem ColorDepth_eq (K : DisplayInfo) (d : ExtendedDisplayIdentification) :
    d.ColorDepth K =
      if d._base[0x14] / 128 % 2 = 1 then
        [K.DISPLAYINFO_EDID_BPC_UNDEFINED, K.DISPLAYINFO_EDID_BPC_6, K.DISPLAYINFO_EDID_BPC_8,
          K.DISPLAYINFO_EDID_BPC_10, K.DISPLAYINFO_EDID_BPC_12, K.DISPLAYINFO_EDID_BPC_14,
          K.DISPLAYINFO_EDID_BPC_16, K.DISPLAYINFO_EDID_BPC_UNDEFINED].getD
          (d._base[0x14] / 16 % 8) K.DISPLAYINFO_EDID_BPC_UNDEFINED
      else K.DISPLAYINFO_EDID_BPC_UNDEFINED := by
  obtain ⟨h7, h4⟩ := shiftRight_and_eq d._base[0x14]
  unfold ColorDepth
  rw [h7, h4]
  have hf : d._base[0x14] / 16 % 8 < 8 := Nat.mod_lt _ (by norm_num)
  by_cases hflag : d._base[0x14] / 128 % 2 = 1
  · simp only [hflag, if_true]
    have : (1 != 0) = true := rfl
    simp only [this, if_true]
    generalize d._base[0x14] / 16 % 8 = f at hf
    interval_cases f <;> rfl
  · have h0 : d._base[0x14] / 128 % 2 = 0 := by omega
    simp [h0]

theorem Iterator.Type_cons (l : BufferList) (x : Buffer) (s : BufferList) :
    (Iterator.mk (some l) (x :: s) false).Type_ = x[0] := by
  simp [Iterator.Type_, Iterator.IsValid]

theorem CEASegment.loop_start (l : BufferList) (x : Buffer) (s : BufferList) (f : Nat) :
    CEASegment.loop (f + 1) ⟨some l, x :: s, true⟩
      = if x[0] = CEA.extension_tag then ⟨some l, x :: s, false⟩
        else CEASegment.loop f ⟨some l, x :: s, false⟩ := by
  simp [CEASegment.loop, Iterator.Next, Iterator.Type_cons]

theorem CEASegment.loop_step (l : BufferList) (x y : Buffer) (s : BufferList) (f : Nat) :
    CEASegment.loop (f + 1) ⟨some l, x :: y :: s, false⟩
      = if y[0] = CEA.extension_tag then ⟨some l, y :: s, false⟩
        else CEASegment.loop f ⟨some l, y :: s, false⟩ := by
  simp [CEASegment.loop, Iterator.Next, Iterator.Type_cons]

theorem CEASegment.loop_last (l : BufferList) (x : Buffer) (f : Nat) :
    CEASegment.loop (f + 1) ⟨some l, [x], false⟩ = ⟨some l, [], false⟩ := by
  simp [CEASegment.loop, Iterator.Next]

theorem CEASegment.loop_eq (l : BufferList) :
    ∀ (s : BufferList) (x : Buffer) (fuel : Nat), s.length < fuel →
      CEASegment.loop fuel ⟨some l, x :: s, false⟩
        = ⟨some l, s.dropWhile (fun b => b[0] != CEA.extension_tag), false⟩ := by
  intro s
  induction s with
  | nil =>
    intro x fuel hf
    obtain ⟨f, rfl⟩ : ∃ f, fuel = f + 1 := ⟨fuel - 1, by simp at hf; omega⟩
    rw [CEASegment.loop_last]
    rfl
  | cons y s ih =>
    intro x fuel hf
    obtain ⟨f, rfl⟩ : ∃ f, fuel = f + 1 := ⟨fuel - 1, by simp at hf; omega⟩
    have hf2 : s.length < f := by simp at hf; omega
    rw [CEASegment.loop_step]
    by_cases hy : y[0] = CEA.extension_tag
    · simp [hy, List.dropWhile_cons]
    · simp [hy, List.dropWhile_cons, ih y f hf2]

theorem CEASegment_eq (d : ExtendedDisplayIdentification) :
    d.CEASegment
      = ⟨some d._segments, d._segments.dropWhile (fun b => b[0] != CEA.extension_tag), false⟩ := by
  unfold CEASegment
  cases hl : d._segments with
  | nil => simp [CEASegment.loop, Iterator.Next, Iterator.ofList]
  | cons x s =>
    simp only [Iterator.ofList, List.length_cons]
    rw [CEASegment.loop_start]
    by_cases hx : x[0] = CEA.extension_tag
    · simp [hx, List.dropWhile_cons]
    · simp [hx, List.dropWhile_cons, CEASegment.loop_eq (x :: s) s x (s.length + 1) (by omega)]

theorem CEASegment_invalid_of_no_cea (d : ExtendedDisplayIdentification)
    (h : ∀ b ∈ d._segments, b[0] ≠ CEA.extension_tag) : d.CEASegment.IsValid = false := by
  rw [CEASegment_eq]
  have : d._segments.dropWhile (fun b => b[0] != CEA.extension_tag) = [] := by
    rw [List.dropWhile_eq_nil_iff]
    intro b hb
    simpa using h b hb
  simp [Iterator.IsValid, this]

theorem Segment.loop_advance (memory : Nat → Buffer) (index : Nat) (segments : BufferList)
    (hindex : index ≤ 254) :
    ∀ (n i current fuel : Nat), current + n = index + 1 → i + n < segments.length → n < fuel →
      Segment.loop memory index fuel segments (some i) current = some (segments, some (i + n)) := by
  intro n
  induction n with
  | zero =>
    intro i current fuel hc _ hf
    obtain ⟨f, rfl⟩ : ∃ f, fuel = f + 1 := ⟨fuel - 1, by omega⟩
    have hgt : ¬ current ≤ index := by omega
    simp [Segment.loop, hgt]
  | succ n ih =>
    intro i current fuel hc hi hf
    obtain ⟨f, rfl⟩ : ∃ f, fuel = f + 1 := ⟨fuel - 1, by omega⟩
    have hle : current ≤ index := by omega
    have hnext : i + 1 < segments.length := by omega
    have hu8 : u8 (current + 1) = current + 1 := by
      unfold u8
      omega
    have h := ih (i + 1) (current + 1) f (by omega) (by omega) (by omega)
    simp only [Segment.loop, hle, if_true, hnext, hu8, h]
    congr 3
    omega

theorem Segment_of_lt_length (memory : Nat → Buffer) (d : ExtendedDisplayIdentification)
    (k : Nat) (h1 : 1 ≤ k) (hk : k ≤ d.Segments) (h254 : k ≤ 254)
    (hlen : k < d._segments.length) :
    Segment (k + 1) memory d k = some (.segment k, d) := by
  have hne : d._segments.isEmpty = false := by
    cases hs : d._segments with
    | nil => simp [hs] at hlen
    | cons x s => rfl
  have hk0 : (k == 0) = false := by
    simp
    omega
  have h := Segment.loop_advance memory k d._segments h254 k 0 1 (k + 1) (by omega) (by omega)
    (by omega)
  simp only [Segment, hk0, hk, if_true, hne]
  simp only [Bool.false_eq_true, if_false]
  rw [h]
  simp

end ExtendedDisplayIdentification

/-! ## Claims -/

namespace ExtendedDisplayIdentification

/-- C1: `IsValid()` is true if and only if base bytes 0..7 are `00 FF FF FF FF FF FF 00`, and
every document whose base block has the same bytes 0..7 gives the same answer, whatever its
other 120 base bytes and its extension blocks are. -/
theorem IsValid_iff_magic (d : ExtendedDisplayIdentification) :
    (d.IsValid = true ↔
      (d._base[0] = 0x00 ∧ d._base[1] = 0xFF ∧ d._base[2] = 0xFF ∧ d._base[3] = 0xFF ∧
        d._base[4] = 0xFF ∧ d._base[5] = 0xFF ∧ d._base[6] = 0xFF ∧ d._base[7] = 0x00)) ∧
    (d.IsValid = true ↔ d._base._data.take 8 = magic) ∧
    (∀ e : ExtendedDisplayIdentification,
      e._base._data.take 8 = d._base._data.take 8 → e.IsValid = d.IsValid) := by
  refine ⟨IsValid_iff_bytes d, IsValid_iff_take d, ?_⟩
  intro e he
  have h1 := IsValid_iff_take d
  have h2 := IsValid_iff_take e
  rw [he] at h2
  cases hd : d.IsValid <;> cases hv : e.IsValid <;> simp_all

/-- C2: when base bytes 0..7 differ from the magic sequence, `IsValid()` is false,
`Manufacturer()` is empty, `ProductCode()` is `0xFFFF`, `Serial()` is `0xFFFFFFFF`, `Week()`,
`Year()`, `Major()` and `Minor()` are 0 and `Segments()` is 1, whatever the other bytes
(byte `0x7E` included) are. -/
theorem invalid_accessors_sentinel (d : ExtendedDisplayIdentification)
    (h : d._base._data.take 8 ≠ magic) :
    d.IsValid = false ∧ d.Manufacturer = "" ∧ d.ProductCode = 0xFFFF ∧
      d.Serial = 0xFFFFFFFF ∧ d.Week = 0 ∧ d.Year = 0 ∧ d.Major = 0 ∧ d.Minor = 0 ∧
      d.Segments = 1 := by
  have hv : d.IsValid = false := by
    cases hd : d.IsValid
    · rfl
    · exact absurd ((IsValid_iff_take d).mp hd) h
  simp [Manufacturer, ProductCode, Serial, Week, Year, Major, Minor, Segments, hv, u8, u16]

/-- Instance of C2 at `invalidDocument` (byte 0 is `0x55`, byte `0x7E` is 7). -/
theorem invalid_accessors_sentinel_witness :
    invalidDocument._base._data.take 8 ≠ magic ∧ invalidDocument._base[0x7e] = 7 ∧
    (invalidDocument.IsValid = false ∧ invalidDocument.Manufacturer = "" ∧
      invalidDocument.ProductCode = 0xFFFF ∧ invalidDocument.Serial = 0xFFFFFFFF ∧
      invalidDocument.Week = 0 ∧ invalidDocument.Year = 0 ∧ invalidDocument.Major = 0 ∧
      invalidDocument.Minor = 0 ∧ invalidDocument.Segments = 1) :=
  ⟨by decide, by decide, invalid_accessors_sentinel invalidDocument (by decide)⟩

/-- C3 as stated fails: `invalidCeaDocument` has `IsValid()` false and holds a CEA block with
a video data block, and `SupportedTimings` appends two codes to an empty vector. -/
theorem invalid_document_reports_timings :
    invalidCeaDocument.IsValid = false ∧
    invalidCeaDocument.SupportedTimings [] = .ok [0x42, 0x10] := by
  decide

/-- C3 amended: the capability scans do not test `IsValid()`.  Their results are determined by
the extension blocks and by base bytes `0x14` and `0x18`; and for every document, valid or
not, in which no extension block has first byte `0x02`, `SupportedColorFormats()` and
`SupportedAudioFormats()` are 0, `SupportedColorFormat()` is the undefined format,
`SupportedTimings(out)` leaves `out` as it is, `SupportedColorDepths()` is `ColorDepth()` as a
byte and `SupportedColorSpace()` is the sRGB flag when bit 2 of byte `0x18` is set and 0
otherwise. -/
theorem capability_scans_not_gated (K : DisplayInfo) (d : ExtendedDisplayIdentification) :
    (∀ e : ExtendedDisplayIdentification, e._segments = d._segments →
      e._base[0x14] = d._base[0x14] → e._base[0x18] = d._base[0x18] →
      e.SupportedColorDepths K = d.SupportedColorDepths K ∧
      e.SupportedColorFormats K = d.SupportedColorFormats K ∧
      e.SupportedColorSpace K = d.SupportedColorSpace K ∧
      e.SupportedAudioFormats K = d.SupportedAudioFormats K ∧
      e.SupportedColorFormat K = d.SupportedColorFormat K ∧
      ∀ out : List Nat, e.SupportedTimings out = d.SupportedTimings out) ∧
    ((∀ b ∈ d._segments, b[0] ≠ 0x02) →
      d.SupportedColorDepths K = .ok (u8 (d.ColorDepth K)) ∧
      d.SupportedColorFormats K = .ok 0 ∧
      d.SupportedColorSpace K
        = .ok (if d._base[0x18] &&& 4 ≠ 0 then u16 K.DISPLAYINFO_EDID_COLOR_SPACE_SRGB else 0) ∧
      d.SupportedAudioFormats K = .ok 0 ∧
      d.SupportedColorFormat K = K.DISPLAYINFO_EDID_COLOR_FORMAT_UNDEFINED ∧
      ∀ out : List Nat, d.SupportedTimings out = .ok out) := by
  constructor
  · intro e hseg h14 h18
    obtain ⟨eb, es⟩ := e
    obtain ⟨db, ds⟩ := d
    simp only at hseg h14 h18
    subst hseg
    refine ⟨?_, ?_, ?_, ?_, ?_, ?_⟩
    · simp only [SupportedColorDepths, CEASegment, ColorDepth, h14]
    · simp only [SupportedColorFormats, CEASegment, SupportedDigitalDisplayTypes, h14, h18]
    · simp only [SupportedColorSpace, CEASegment, h18]
    · simp only [SupportedAudioFormats, CEASegment]
    · simp only [SupportedColorFormat, CEASegment]
    · intro out
      simp only [SupportedTimings, CEASegment]
  · intro h
    have hv : d.CEASegment.IsValid = false := CEASegment_invalid_of_no_cea d h
    refine ⟨?_, ?_, ?_, ?_, ?_, ?_⟩
    · simp [SupportedColorDepths, hv, pure, Except.pure]
    · simp [SupportedColorFormats, hv, pure, Except.pure]
    · by_cases hb : d._base[0x18] &&& 4 = 0
      · simp [SupportedColorSpace, hv, pure, Except.pure, hb]
      · simp [SupportedColorSpace, hv, pure, Except.pure, hb]
    · simp [SupportedAudioFormats, hv, pure, Except.pure]
    · simp [SupportedColorFormat, hv]
    · intro out
      simp [SupportedTimings, hv, pure, Except.pure]

/-- Instance of C3 (amended) at `invalidDocument`, which is invalid and holds no extension
block. -/
theorem capability_scans_not_gated_witness :
    invalidDocument.IsValid = false ∧
    invalidDocument.SupportedColorFormats sampleDisplayInfo = .ok 0 ∧
    invalidDocument.SupportedAudioFormats sampleDisplayInfo = .ok 0 ∧
    invalidDocument.SupportedTimings [] = .ok [] :=
  have h := (capability_scans_not_gated sampleDisplayInfo invalidDocument).2 (by decide)
  ⟨by decide, h.2.1, h.2.2.2.1, h.2.2.2.2.2 []⟩

/-- C4: the scans bound the offset of a data-block header only.  In `overrunBlock` the header
at offset 100 lies inside the block and before the DTD start, its length field is 31, and
`CEA::SupportedTimings` reads `Current()[28]`, the byte at offset 128. -/
theorem SupportedTimings_reads_past_block :
    overrunBlock[2] = 0x7F ∧ overrunBlock[100] = 0x5F ∧
    (CEA.mk overrunBlock).SupportedTimings [] = .error (.outOfBounds 128) := by
  decide

/-- C5: for a valid document, with `v = base[0x08] * 256 + base[0x09]`, `Manufacturer()` is the
three characters `'A' + ((g - 1) mod 32)` for the groups `g` = bits 14-10, bits 9-5 and bits
4-0 of `v`; a document that differs from it in bit 15 of `v` only (bit 7 of byte `0x08`) has
the same manufacturer. -/
theorem Manufacturer_decode (d : ExtendedDisplayIdentification) (h : d.IsValid = true) :
    d.Manufacturer =
      String.mk [groupLetter ((d._base[0x08] * 256 + d._base[0x09]) / 1024 % 32),
        groupLetter ((d._base[0x08] * 256 + d._base[0x09]) / 32 % 32),
        groupLetter ((d._base[0x08] * 256 + d._base[0x09]) % 32)] ∧
    (∀ e : ExtendedDisplayIdentification, e.IsValid = true →
      e._base[0x08] % 128 = d._base[0x08] % 128 → e._base[0x09] = d._base[0x09] →
      e.Manufacturer = d.Manufacturer) := by
  refine ⟨Manufacturer_eq d h, ?_⟩
  intro e he h8 h9
  rw [Manufacturer_eq d h, Manufacturer_eq e he, h9]
  have g1 : (e._base[0x08] * 256 + d._base[0x09]) / 1024 % 32
      = (d._base[0x08] * 256 + d._base[0x09]) / 1024 % 32 := by omega
  have g2 : (e._base[0x08] * 256 + d._base[0x09]) / 32 % 32
      = (d._base[0x08] * 256 + d._base[0x09]) / 32 % 32 := by omega
  have g3 : (e._base[0x08] * 256 + d._base[0x09]) % 32
      = (d._base[0x08] * 256 + d._base[0x09]) % 32 := by omega
  rw [g1, g2, g3]

/-- Instance of C5 at `samsungDocument`: bytes `4C 2D` give the groups 19, 1, 13 and the
characters `S`, `A`, `M`. -/
theorem Manufacturer_decode_witness :
    samsungDocument.IsValid = true ∧
    (samsungDocument._base[0x08] = 0x4C ∧ samsungDocument._base[0x09] = 0x2D) ∧
    samsungDocument.Manufacturer = String.mk [groupLetter 19, groupLetter 1, groupLetter 13] ∧
    samsungDocument.Manufacturer = "SAM" :=
  ⟨by decide, by decide, (Manufacturer_decode samsungDocument (by decide)).1, by decide⟩

/-- C6: for a valid document `PreferredWidthInPixels()` is
`((base[0x3A] & 0xF0) << 4) | base[0x38]`, `PreferredHeightInPixels()` is
`((base[0x3D] & 0xF0) << 4) | base[0x3B]`, and both are below 4096. -/
theorem PreferredSize_decode (d : ExtendedDisplayIdentification) (h : d.IsValid = true) :
    d.PreferredWidthInPixels = (((d._base[0x3A] &&& 0xF0) <<< 4) ||| d._base[0x38]) ∧
    d.PreferredHeightInPixels = (((d._base[0x3D] &&& 0xF0) <<< 4) ||| d._base[0x3B]) ∧
    d.PreferredWidthInPixels < 4096 ∧ d.PreferredHeightInPixels < 4096 := by
  have hw := highNibble_shift_add d._base[0x3A] d._base[0x38] (d._base.getElem_lt _ (by decide))
  have hh := highNibble_shift_add d._base[0x3D] d._base[0x3B] (d._base.getElem_lt _ (by decide))
  have ew : d.PreferredWidthInPixels = ((d._base[0x3A] &&& 0xF0) <<< 4) + d._base[0x38] := by
    simp only [PreferredWidthInPixels, h, if_true, u16]
    omega
  have eh : d.PreferredHeightInPixels = ((d._base[0x3D] &&& 0xF0) <<< 4) + d._base[0x3B] := by
    simp only [PreferredHeightInPixels, h, if_true, u16]
    omega
  refine ⟨?_, ?_, ?_, ?_⟩
  · rw [ew]; exact hw.1
  · rw [eh]; exact hh.1
  · rw [ew]; exact hw.2
  · rw [eh]; exact hh.2

/-- Instance of C6 at `preferredDocument`: byte `0x38 = 0x20` and byte `0x3A = 0x10` give the
width 288. -/
theorem PreferredSize_decode_witness :
    preferredDocument.IsValid = true ∧
    (preferredDocument._base[0x38] = 0x20 ∧ preferredDocument._base[0x3A] = 0x10) ∧
    preferredDocument.PreferredWidthInPixels = 288 ∧
    preferredDocument.PreferredHeightInPixels = 0x438 :=
  ⟨by decide, by decide,
    (PreferredSize_decode preferredDocument (by decide)).1.trans (by decide),
    (PreferredSize_decode preferredDocument (by decide)).2.1.trans (by decide)⟩

/-- C7: `ColorDepth()` tests the digital-input flag and `BitsPerColor()` does not.  At
`analogDocument` (byte `0x14 = 0x20`: flag clear, depth field 2) `ColorDepth()` is
`DISPLAYINFO_EDID_BPC_UNDEFINED` while `BitsPerColor()` is 8.  For every base block, with
`f` = bits 6-4 of byte `0x14`, `BitsPerColor()` is entry `f` of `0, 6, 8, 10, 12, 14, 16, 255`
whatever bit 7 is, and `ColorDepth()` is entry `f` of `UNDEFINED, BPC_6, .., BPC_16,
UNDEFINED` when bit 7 is set and `UNDEFINED` when it is clear. -/
theorem BitsPerColor_ignores_digital_flag :
    (analogDocument._base[0x14] = 0x20 ∧ analogDocument._base[0x14] / 128 % 2 = 0 ∧
      analogDocument.BitsPerColor = 8 ∧
      ∀ K : DisplayInfo, analogDocument.ColorDepth K = K.DISPLAYINFO_EDID_BPC_UNDEFINED) ∧
    (∀ d : ExtendedDisplayIdentification,
      d.BitsPerColor = [0, 6, 8, 10, 12, 14, 16, 255].getD (d._base[0x14] / 16 % 8) 0) ∧
    (∀ (K : DisplayInfo) (d : ExtendedDisplayIdentification),
      d.ColorDepth K =
        if d._base[0x14] / 128 % 2 = 1 then
          [K.DISPLAYINFO_EDID_BPC_UNDEFINED, K.DISPLAYINFO_EDID_BPC_6, K.DISPLAYINFO_EDID_BPC_8,
            K.DISPLAYINFO_EDID_BPC_10, K.DISPLAYINFO_EDID_BPC_12, K.DISPLAYINFO_EDID_BPC_14,
            K.DISPLAYINFO_EDID_BPC_16, K.DISPLAYINFO_EDID_BPC_UNDEFINED].getD
            (d._base[0x14] / 16 % 8) K.DISPLAYINFO_EDID_BPC_UNDEFINED
        else K.DISPLAYINFO_EDID_BPC_UNDEFINED) :=
  ⟨⟨by decide, by decide, by decide, fun _ => rfl⟩, BitsPerColor_eq, ColorDepth_eq⟩

/-- C8: `Digital()` reads base byte 14 (`0x0E`), not the video-input-definition byte `0x14`:
at `digitalDocument` bit 7 of byte `0x14` is set, `ColorDepth()` decodes the depth field
(8 bits per colour), and `Digital()` is false. -/
theorem Digital_reads_byte_14 :
    (∀ d : ExtendedDisplayIdentification, d.Digital = ((d._base[0x0E] &&& 0x80) != 0)) ∧
    (digitalDocument._base[0x14] &&& 0x80 = 0x80 ∧ digitalDocument._base[0x0E] = 0 ∧
      (∀ K : DisplayInfo, digitalDocument.ColorDepth K = K.DISPLAYINFO_EDID_BPC_8) ∧
      digitalDocument.Digital = false) :=
  ⟨fun _ => rfl, by decide, by decide, fun _ => rfl, by decide⟩

/-- C9 as stated fails: at `wrapDocument`, a valid document with byte `0x7E = 255`,
`Segments()` is 0 and not 256. -/
theorem Segments_wraps_at_255 :
    wrapDocument.IsValid = true ∧ wrapDocument._base[0x7e] = 255 ∧ wrapDocument.Segments = 0 := by
  decide

/-- C9 amended: for a valid document `Segments()` is the count of byte `0x7E` plus one reduced
to 8 bits; for the counts 0..254 that is the count plus one, a value in 1..255, and for the
count 255 it is 0. -/
theorem Segments_valid (d : ExtendedDisplayIdentification) (h : d.IsValid = true) :
    d.Segments = (d._base[0x7e] + 1) % 256 ∧
    (d._base[0x7e] ≤ 254 → d.Segments = d._base[0x7e] + 1 ∧ 1 ≤ d.Segments ∧ d.Segments ≤ 255) ∧
    (d._base[0x7e] = 255 → d.Segments = 0) := by
  have hs : d.Segments = (d._base[0x7e] + 1) % 256 := by
    simp [Segments, h, u8]
  refine ⟨hs, ?_, ?_⟩
  · intro hle
    omega
  · intro he
    omega

/-- Instance of C9 (amended) at `twoBlockDocument`, whose byte `0x7E` is 2. -/
theorem Segments_valid_witness :
    twoBlockDocument.IsValid = true ∧ twoBlockDocument._base[0x7e] = 2 ∧
    twoBlockDocument.Segments = 3 :=
  ⟨by decide, by decide,
    ((Segments_valid twoBlockDocument (by decide)).2.1 (by decide)).1⟩

/-- C10: `Segment(1)` on a document that holds two extension blocks returns the second one.
`twoBlockDocument` declares two extensions, so index 1 is allowed; the first `Next()` of an
`Extensions()` cursor reaches `videoBlock`; `Segment(1)` returns a pointer to the block at
list position 1, and filling it replaces `otherBlock` and leaves `videoBlock` in place.  In
general, when the list holds more than `k` blocks (`1 <= k <= 254`), `Segment(k)` returns the
block at list position `k` counted from 0, which is block `k + 1`. -/
theorem Segment_one_of_two_addresses_second :
    twoBlockDocument.Segments = 3 ∧
    twoBlockDocument._segments = [videoBlock, otherBlock] ∧
    (twoBlockDocument.Extensions.Next.1 = true ∧
      ∀ h, twoBlockDocument.Extensions.Next.2.Current h = videoBlock) ∧
    (∀ memory : Nat → Buffer,
      Segment 2 memory twoBlockDocument 1 = some (.segment 1, twoBlockDocument)) ∧
    (twoBlockDocument.fill (.segment 1) newBlock)._segments = [videoBlock, newBlock] ∧
    (∀ (memory : Nat → Buffer) (d : ExtendedDisplayIdentification) (k : Nat),
      1 ≤ k → k ≤ d.Segments → k ≤ 254 → k < d._segments.length →
      Segment (k + 1) memory d k = some (.segment k, d)) :=
  ⟨by decide, rfl, ⟨by decide, fun _ => rfl⟩, fun _ => rfl, by decide, Segment_of_lt_length⟩

end ExtendedDisplayIdentification

/-! ## Lemmas on `Segment`, `Raw` and the re-population -/

namespace ExtendedDisplayIdentification

/-- The placeholder blocks that `emplace_back()` appends to a list of length `n`, `m` times. -/
theorem placeholders_succ (memory : Nat → Buffer) (n m : Nat) :
    (List.range (m + 1)).map (fun j => memory (n + j))
      = memory n :: (List.range m).map (fun j => memory (n + 1 + j)) := by
  rw [List.range_succ_eq_map, List.map_cons, List.map_map]
  congr 1
  apply List.map_congr_left
  intro j _
  simp only [Function.comp, Nat.add_zero]
  congr 1
  omega

theorem Segment.loop_append (memory : Nat → Buffer) (index : Nat) (hindex : index ≤ 254) :
    ∀ (m : Nat) (segments : BufferList) (current fuel : Nat), current + m = index + 1 →
      m < fuel →
      Segment.loop memory index fuel segments none current
        = some (segments ++ (List.range m).map (fun j => memory (segments.length + j)), none) := by
  intro m
  induction m with
  | zero =>
    intro segments current fuel hc hf
    obtain ⟨f, rfl⟩ : ∃ f, fuel = f + 1 := ⟨fuel - 1, by omega⟩
    have hgt : ¬ current ≤ index := by omega
    simp [Segment.loop, hgt]
  | succ m ih =>
    intro segments current fuel hc hf
    obtain ⟨f, rfl⟩ : ∃ f, fuel = f + 1 := ⟨fuel - 1, by omega⟩
    have hle : current ≤ index := by omega
    have hu8 : u8 (current + 1) = current + 1 := by
      unfold u8
      omega
    have h := ih (segments ++ [memory segments.length]) (current + 1) f (by omega) (by omega)
    simp only [Segment.loop, hle, if_true, hu8, h, placeholders_succ]
    simp

theorem Segment.loop_through (memory : Nat → Buffer) (index : Nat) (segments : BufferList)
    (hindex : index ≤ 254) :
    ∀ (m i current fuel : Nat), current + m = index + 1 → i < segments.length →
      segments.length - i ≤ m → m < fuel →
      Segment.loop memory index fuel segments (some i) current
        = some (segments ++ (List.range (m - (segments.length - i))).map
            (fun j => memory (segments.length + j)), none) := by
  intro m
  induction m with
  | zero =>
    intro i current fuel _ hi hm _
    omega
  | succ m ih =>
    intro i current fuel hc hi hm hf
    obtain ⟨f, rfl⟩ : ∃ f, fuel = f + 1 := ⟨fuel - 1, by omega⟩
    have hle : current ≤ index := by omega
    have hu8 : u8 (current + 1) = current + 1 := by
      unfold u8
      omega
    by_cases hnext : i + 1 < segments.length
    · have h := ih (i + 1) (current + 1) f (by omega) hnext (by omega) (by omega)
      have e : m + 1 - (segments.length - i) = m - (segments.length - (i + 1)) := by omega
      simp only [Segment.loop, hle, if_true, hnext, hu8, h, e]
    · have h := Segment.loop_append memory index hindex m segments (current + 1) f (by omega)
        (by omega)
      have e : m + 1 - (segments.length - i) = m := by omega
      simp only [Segment.loop, hle, if_true, hnext, if_false, hu8, h, e]

theorem Segment_eq (fuel : Nat) (memory : Nat → Buffer) (d : ExtendedDisplayIdentification)
    (k : Nat) (h1 : 1 ≤ k) (hk : k ≤ d.Segments) (h254 : k ≤ 254) (hf : k < fuel) :
    Segment fuel memory d k
      = some (.segment (if k < d._segments.length then k else k - 1),
          ⟨d._base, d._segments ++ (List.range (k - d._segments.length)).map
            (fun j => memory (d._segments.length + j))⟩) := by
  have hk0 : (k == 0) = false := by
    simp
    omega
  simp only [Segment, hk0, hk, if_true, Bool.false_eq_true, if_false]
  by_cases hlt : k < d._segments.length
  · have hne : d._segments.isEmpty = false := by
      cases hs : d._segments with
      | nil => simp [hs] at hlt
      | cons x s => rfl
    have h := Segment.loop_advance memory k d._segments h254 k 0 1 fuel (by omega) (by omega) hf
    have e : k - d._segments.length = 0 := by omega
    simp only [hne, Bool.false_eq_true, if_false]
    rw [h]
    simp [hlt, e]
  · by_cases hempty : d._segments = []
    · have h := Segment.loop_append memory k h254 k d._segments 1 fuel (by omega) hf
      simp only [hempty, List.isEmpty_nil, if_true] at h ⊢
      rw [h]
      simp [List.length_range]
    · have hne : d._segments.isEmpty = false := by
        cases hs : d._segments with
        | nil => exact absurd hs hempty
        | cons x s => rfl
      have hpos : 0 < d._segments.length := List.length_pos.mpr hempty
      have h := Segment.loop_through memory k d._segments h254 k 0 1 fuel (by omega) hpos
        (by omega) hf
      simp only [hne, Bool.false_eq_true, if_false]
      rw [h]
      simp only [Nat.sub_zero, hlt, if_false]
      simp [List.length_range]
      omega

theorem Segment.loop_255 (memory : Nat → Buffer) :
    ∀ (fuel : Nat) (segments : BufferList) (pointer : Option Nat) (current : Nat),
      current ≤ 255 → Segment.loop memory 255 fuel segments pointer current = none := by
  intro fuel
  induction fuel with
  | zero =>
    intro segments pointer current _
    rfl
  | succ f ih =>
    intro segments pointer current hc
    have hu8 : u8 (current + 1) ≤ 255 := by
      unfold u8
      omega
    cases pointer with
    | none => simp only [Segment.loop, hc, if_true, ih _ _ _ hu8]
    | some i => simp only [Segment.loop, hc, if_true, ih _ _ _ hu8]

theorem Segment_255 (fuel : Nat) (memory : Nat → Buffer) (d : ExtendedDisplayIdentification)
    (h : 255 ≤ d.Segments) : Segment fuel memory d 255 = none := by
  have hk0 : ((255 : Nat) == 0) = false := rfl
  simp only [Segment, hk0, h, if_true, Bool.false_eq_true, if_false,
    Segment.loop_255 memory fuel _ _ 1 (by omega)]

theorem Raw.loop_spec (L : Nat) (hL : L ≤ 65535) :
    ∀ (segments : BufferList) (written : Nat) (data : Nat → Fin 256), written ≤ L →
      (Raw.loop L segments written data).1 = min L (written + 128 * segments.length) ∧
      ∀ i, (Raw.loop L segments written data).2 i
        = if written ≤ i ∧ i < min L (written + 128 * segments.length) then
            (segments.map (fun b => b._data)).flatten.getD (i - written) 0
          else data i := by
  intro segments
  induction segments with
  | nil =>
    intro written data hw
    constructor
    · simp only [Raw.loop, List.length_nil]
      omega
    · intro i
      have : ¬ (written ≤ i ∧ i < min L (written + 128 * ([] : BufferList).length)) := by
        simp only [List.length_nil]
        omega
      simp only [Raw.loop, this, if_false]
  | cons b rest ih =>
    intro written data hw
    by_cases hlt : written < L
    · have hseg : min b.Length (u16 (L - written)) = min 128 (L - written) := by
        simp only [Buffer.Length, Buffer.edid_block_size, u16]
        omega
      have hw1 : u16 (written + min 128 (L - written)) = written + min 128 (L - written) := by
        simp only [u16]
        omega
      have hstep : Raw.loop L (b :: rest) written data
          = Raw.loop L rest (written + min 128 (L - written))
              (memcpy data written b (min 128 (L - written))) := by
        simp only [Raw.loop, hlt, if_true, hseg, hw1]
      obtain ⟨ih1, ih2⟩ := ih (written + min 128 (L - written))
        (memcpy data written b (min 128 (L - written))) (by omega)
      rw [hstep]
      constructor
      · rw [ih1]
        simp only [List.length_cons]
        omega
      · intro i
        rw [ih2 i]
        have hb : b._data.length = 128 := b.size_eq
        simp only [List.length_cons, List.map_cons, List.flatten_cons, memcpy]
        by_cases h1 : i < written
        · have c1 : ¬ (written + min 128 (L - written) ≤ i ∧
              i < min L (written + min 128 (L - written) + 128 * rest.length)) := by omega
          have c2 : ¬ (written ≤ i ∧ i < written + min 128 (L - written)) := by omega
          have c3 : ¬ (written ≤ i ∧ i < min L (written + 128 * (rest.length + 1))) := by omega
          simp only [c1, c2, c3, if_false]
        · by_cases h2 : i < written + min 128 (L - written)
          · have c1 : ¬ (written + min 128 (L - written) ≤ i ∧
                i < min L (written + min 128 (L - written) + 128 * rest.length)) := by omega
            have c2 : written ≤ i ∧ i < written + min 128 (L - written) := by omega
            have c3 : written ≤ i ∧ i < min L (written + 128 * (rest.length + 1)) := by omega
            simp only [c1, c2, c3, if_false, if_true, and_self]
            rw [List.getD_append _ _ _ _ (by omega)]
          · by_cases h3 : i < min L (written + 128 * (rest.length + 1))
            · have c1 : written + min 128 (L - written) ≤ i ∧
                  i < min L (written + min 128 (L - written) + 128 * rest.length) := by omega
              have c3 : written ≤ i ∧ i < min L (written + 128 * (rest.length + 1)) := by omega
              simp only [c1, c3, if_true, and_self]
              rw [List.getD_append_right _ _ _ _ (by omega)]
              congr 1
              omega
            · have c1 : ¬ (written + min 128 (L - written) ≤ i ∧
                  i < min L (written + min 128 (L - written) + 128 * rest.length)) := by omega
              have c2 : ¬ (written ≤ i ∧ i < written + min 128 (L - written)) := by omega
              have c3 : ¬ (written ≤ i ∧ i < min L (written + 128 * (rest.length + 1))) := by
                omega
              simp only [c1, c2, c3, if_false]
    · have hstep : Raw.loop L (b :: rest) written data = (written, data) := by
        simp only [Raw.loop, hlt, if_false]
      rw [hstep]
      constructor
      · simp only [List.length_cons]
        omega
      · intro i
        have c3 : ¬ (written ≤ i ∧ i < min L (written + 128 * (b :: rest).length)) := by
          simp only [List.length_cons]
          omega
        simp only [c3, if_false]

theorem allBytes_length (d : ExtendedDisplayIdentification) :
    d.allBytes.length = 128 * (d._segments.length + 1) := by
  have h : ∀ l : BufferList, (l.map (fun b => b._data)).flatten.length = 128 * l.length := by
    intro l
    induction l with
    | nil => rfl
    | cons b rest ih =>
      simp only [List.map_cons, List.flatten_cons, List.length_append, ih, b.size_eq,
        List.length_cons]
      omega
  simp only [allBytes, List.length_append, h, d._base.size_eq]
  omega

theorem Raw_valid (d : ExtendedDisplayIdentification) (L : Nat) (data : Nat → Fin 256)
    (hL : L ≤ 65535) (hv : d.IsValid = true) :
    (d.Raw L data).1 = min L (128 * (d._segments.length + 1)) ∧
    ∀ i, (d.Raw L data).2 i
      = if i < min L (128 * (d._segments.length + 1)) then d.allBytes.getD i 0 else data i := by
  have hraw : d.Raw L data
      = Raw.loop L d._segments (min 128 L) (memcpy data 0 d._base (min 128 L)) := by
    simp only [Raw, hv, beq_self_eq_true, if_true, Length, Buffer.Length,
      Buffer.edid_block_size]
  obtain ⟨h1, h2⟩ := Raw.loop_spec L hL d._segments (min 128 L)
    (memcpy data 0 d._base (min 128 L)) (by omega)
  rw [hraw]
  constructor
  · rw [h1]
    omega
  · intro i
    rw [h2 i]
    have hb : d._base._data.length = 128 := d._base.size_eq
    simp only [memcpy, allBytes]
    by_cases c1 : i < min 128 L
    · have a1 : ¬ (min 128 L ≤ i ∧ i < min L (min 128 L + 128 * d._segments.length)) := by omega
      have a2 : 0 ≤ i ∧ i < 0 + min 128 L := by omega
      have a3 : i < min L (128 * (d._segments.length + 1)) := by omega
      simp only [a1, a2, a3, if_false, if_true, and_self, Nat.sub_zero]
      rw [List.getD_append _ _ _ _ (by omega)]
    · by_cases c2 : i < min L (128 * (d._segments.length + 1))
      · have a1 : min 128 L ≤ i ∧ i < min L (min 128 L + 128 * d._segments.length) := by omega
        have a3 : i < min L (128 * (d._segments.length + 1)) := c2
        simp only [a1, a3, if_true, and_self]
        rw [List.getD_append_right _ _ _ _ (by omega)]
        congr 1
        omega
      · have a1 : ¬ (min 128 L ≤ i ∧ i < min L (min 128 L + 128 * d._segments.length)) := by
          omega
        have a2 : ¬ (0 ≤ i ∧ i < 0 + min 128 L) := by omega
        simp only [a1, a2, c2, if_false]

theorem Buffer.ext_data {a b : Buffer} (h : a._data = b._data) : a = b := by
  cases a
  cases b
  simp only [Buffer.mk.injEq]
  exact h

theorem blockAt_eq (data : Nat → Fin 256) (o : Nat) (b : Buffer)
    (h : ∀ i, i < 128 → data (o + i) = b._data.getD i 0) : blockAt data o = b := by
  apply Buffer.ext_data
  apply List.ext_getElem
  · simp [blockAt, b.size_eq]
  · intro i h1 h2
    have hi : i < 128 := by simpa [blockAt] using h1
    simp only [blockAt, List.getElem_map, List.getElem_range]
    rw [h i hi, List.getD_eq_getElem _ _ h2]

theorem flatten_getD_block :
    ∀ (l : BufferList) (k j : Nat) (hk : k < l.length), j < 128 →
      (l.map (fun b => b._data)).flatten.getD (128 * k + j) 0 = (l[k])._data.getD j 0 := by
  intro l
  induction l with
  | nil =>
    intro k j hk _
    simp at hk
  | cons b rest ih =>
    intro k j hk hj
    have hb : b._data.length = 128 := b.size_eq
    cases k with
    | zero =>
      simp only [List.map_cons, List.flatten_cons, Nat.mul_zero, Nat.zero_add,
        List.getElem_cons_zero]
      rw [List.getD_append _ _ _ _ (by omega)]
    | succ k =>
      have hk2 : k < rest.length := by simpa using hk
      simp only [List.map_cons, List.flatten_cons, List.getElem_cons_succ]
      rw [List.getD_append_right _ _ _ _ (by omega)]
      have e : 128 * (k + 1) + j - b._data.length = 128 * k + j := by omega
      rw [e]
      exact ih k j hk2 hj

theorem allBytes_getD_base (d : ExtendedDisplayIdentification) (j : Nat) (hj : j < 128) :
    d.allBytes.getD j 0 = d._base._data.getD j 0 := by
  have hb : d._base._data.length = 128 := d._base.size_eq
  simp only [allBytes]
  rw [List.getD_append _ _ _ _ (by omega)]

theorem allBytes_getD_segment (d : ExtendedDisplayIdentification) (k j : Nat)
    (hk : k < d._segments.length) (hj : j < 128) :
    d.allBytes.getD (128 * (k + 1) + j) 0 = (d._segments[k])._data.getD j 0 := by
  have hb : d._base._data.length = 128 := d._base.size_eq
  simp only [allBytes]
  rw [List.getD_append_right _ _ _ _ (by omega)]
  have e : 128 * (k + 1) + j - d._base._data.length = 128 * k + j := by omega
  rw [e]
  exact flatten_getD_block d._segments k j hk hj

theorem Segments_eq_of_base (d e : ExtendedDisplayIdentification) (h : d._base = e._base) :
    d.Segments = e.Segments := by
  simp only [Segments, IsValid, h]

theorem populate.loop_restores (fuel : Nat) (memory : Nat → Buffer) (data : Nat → Fin 256)
    (D : ExtendedDisplayIdentification) (hN : D._segments.length ≤ D.Segments)
    (h254 : D._segments.length ≤ 254) (hf : D._segments.length < fuel)
    (hdata : ∀ k (hk : k < D._segments.length), blockAt data (128 * (k + 1)) = D._segments[k]) :
    ∀ (remaining k : Nat), 1 ≤ k → k + remaining = D._segments.length + 1 →
      populate.loop fuel memory data remaining k ⟨D._base, D._segments.take (k - 1)⟩
        = some D := by
  intro remaining
  induction remaining with
  | zero =>
    intro k h1 hk
    have e : k - 1 = D._segments.length := by omega
    simp only [populate.loop, e, List.take_length]
  | succ r ih =>
    intro k h1 hk
    have hlen : (D._segments.take (k - 1)).length = k - 1 := by
      rw [List.length_take]
      omega
    have hS : (⟨D._base, D._segments.take (k - 1)⟩ : ExtendedDisplayIdentification).Segments
        = D.Segments := Segments_eq_of_base _ D rfl
    have hseg := Segment_eq fuel memory ⟨D._base, D._segments.take (k - 1)⟩ k h1
      (by rw [hS]; omega) (by omega) (by omega)
    have hnlt : ¬ k < (D._segments.take (k - 1)).length := by omega
    have hone : k - (D._segments.take (k - 1)).length = 1 := by omega
    simp only [hnlt, if_false, hone] at hseg
    have hk1 : k - 1 < D._segments.length := by omega
    have hfill : ((D._segments.take (k - 1)) ++
        (List.range 1).map (fun j => memory ((D._segments.take (k - 1)).length + j))).set (k - 1)
          (blockAt data (128 * k)) = D._segments.take (k + 1 - 1) := by
      have hb := hdata (k - 1) hk1
      have ek : k - 1 + 1 = k := by omega
      rw [ek] at hb
      rw [hb]
      have e2 : k + 1 - 1 = (k - 1) + 1 := by omega
      have hr : List.range 1 = [0] := rfl
      rw [e2, List.take_succ, List.getElem?_eq_getElem hk1, hr]
      simp only [List.map_cons, List.map_nil, Option.toList_some]
      rw [List.set_append_right _ _ (by omega)]
      simp [hlen]
    simp only [populate.loop, hseg, fill, hfill]
    exact ih (k + 1) (by omega) (by omega)

end ExtendedDisplayIdentification

/-! ## Claims on segments, serialisation and the CEA cursor -/

namespace ExtendedDisplayIdentification

theorem or_ne_zero_left {x : Nat} (y : Nat) (h : x ≠ 0) : x ||| y ≠ 0 := by
  obtain ⟨i, hi⟩ := Nat.ne_zero_implies_bit_true h
  intro h0
  have := Nat.testBit_or x y i
  rw [h0, hi] at this
  simp at this

theorem SupportedDigitalDisplayTypes_ne_zero (K : DisplayInfo)
    (d : ExtendedDisplayIdentification) (h : u8 K.DISPLAYINFO_EDID_COLOR_FORMAT_RGB ≠ 0) :
    d.SupportedDigitalDisplayTypes K ≠ 0 := by
  unfold SupportedDigitalDisplayTypes
  simp only
  split
  · split
    · exact or_ne_zero_left _ h
    · rw [Nat.or_assoc]; exact or_ne_zero_left _ h
    · rw [Nat.or_assoc]; exact or_ne_zero_left _ h
    · rw [Nat.or_assoc, Nat.or_assoc]; exact or_ne_zero_left _ h
    · exact h
  · exact h

theorem find?_eq_head?_dropWhile (p : Buffer → Bool) :
    ∀ l : BufferList, l.find? p = (l.dropWhile (fun b => !p b)).head? := by
  intro l
  induction l with
  | nil => rfl
  | cons x s ih =>
    by_cases hx : p x = true
    · simp [List.find?_cons, List.dropWhile_cons, hx]
    · simp [List.find?_cons, List.dropWhile_cons, hx, ih]

theorem Iterator.IsValid_copy (it : Iterator) : (Iterator.copy it).IsValid = false := by
  simp [Iterator.copy, Iterator.IsValid]

/-- C11: `Segment(255)` never returns.  `loopDocument` is valid with byte `0x7E = 254`, so
`Segments()` is 255 and the index 255 is allowed, and no number of loop iterations ends the
call.  For every allowed index `k` from 1 to 254 the call returns, keeps the `n` stored blocks
as a prefix and appends `k - n` placeholder blocks, so that the list has length `max(n, k)`;
`Segment(0)` returns the base block and changes nothing. -/
theorem Segment_255_never_returns :
    (loopDocument.IsValid = true ∧ loopDocument.Segments = 255 ∧
      ∀ (fuel : Nat) (memory : Nat → Buffer), Segment fuel memory loopDocument 255 = none) ∧
    (∀ (fuel : Nat) (memory : Nat → Buffer) (d : ExtendedDisplayIdentification) (k : Nat),
      1 ≤ k → k ≤ d.Segments → k ≤ 254 → k < fuel →
      ∃ p d1, Segment fuel memory d k = some (p, d1) ∧ d1._base = d._base ∧
        d1._segments = d._segments ++ (List.range (k - d._segments.length)).map
          (fun j => memory (d._segments.length + j)) ∧
        d1._segments.length = max d._segments.length k) ∧
    (∀ (fuel : Nat) (memory : Nat → Buffer) (d : ExtendedDisplayIdentification),
      Segment fuel memory d 0 = some (.base, d)) := by
  refine ⟨⟨by decide, by decide, fun fuel memory => Segment_255 fuel memory _ (by decide)⟩, ?_,
    fun _ _ _ => rfl⟩
  intro fuel memory d k h1 hk h254 hf
  refine ⟨_, _, Segment_eq fuel memory d k h1 hk h254 hf, rfl, rfl, ?_⟩
  simp only [List.length_append, List.length_map, List.length_range]
  omega

/-- C12: for a buffer length `L` of 16 bits, `Raw(L, data)` on a valid document with `n`
extension blocks returns `r = min(L, 128 * (n + 1))`, the first `r` bytes of `data` are the
first `r` bytes of `base ++ ext_1 ++ ... ++ ext_n`, and the bytes from `r` on are unchanged;
on an invalid document it returns 0 and leaves `data` as it is. -/
theorem Raw_serialises (d : ExtendedDisplayIdentification) (L : Nat) (data : Nat → Fin 256)
    (hL : L ≤ 65535) :
    (d.IsValid = true →
      (d.Raw L data).1 = min L (128 * (d._segments.length + 1)) ∧
      (List.range (d.Raw L data).1).map (d.Raw L data).2 = d.allBytes.take (d.Raw L data).1 ∧
      ∀ i, (d.Raw L data).1 ≤ i → (d.Raw L data).2 i = data i) ∧
    (d.IsValid = false → d.Raw L data = (0, data)) := by
  constructor
  · intro hv
    obtain ⟨h1, h2⟩ := Raw_valid d L data hL hv
    have hlen := allBytes_length d
    refine ⟨h1, ?_, ?_⟩
    · apply List.ext_getElem
      · rw [List.length_map, List.length_range, List.length_take, h1, hlen]
        omega
      · intro i hi1 hi2
        have hi : i < (d.Raw L data).1 := by simpa using hi1
        have hi3 : i < min L (128 * (d._segments.length + 1)) := by rw [← h1]; exact hi
        rw [List.getElem_map, List.getElem_range, List.getElem_take, h2 i, if_pos hi3,
          List.getD_eq_getElem]
    · intro i hi
      have hi3 : ¬ i < min L (128 * (d._segments.length + 1)) := by rw [← h1]; omega
      rw [h2 i, if_neg hi3]
  · intro hv
    simp [Raw, hv]

/-- Instance of C12 at `twoBlockDocument` with a buffer of 200 bytes: 200 bytes are written. -/
theorem Raw_serialises_witness :
    (200 ≤ 65535 ∧ twoBlockDocument.IsValid = true) ∧
    (twoBlockDocument.Raw 200 freshData).1 = 200 ∧
    (twoBlockDocument.Raw 200 freshData).2 200 = 0x11 :=
  ⟨by decide,
    ((Raw_serialises twoBlockDocument 200 freshData (by decide)).1 (by decide)).1.trans
      (by decide),
    ((Raw_serialises twoBlockDocument 200 freshData (by decide)).1 (by decide)).2.2 200
      (by decide)⟩

/-- C13 as stated fails: `undeclaredDocument` is valid and holds two extension blocks while
byte `0x7E` declares none, so `Segments()` is 1.  `Raw(384, ..)` returns 384, but in the
re-population `Segment(2)` returns `nullptr` and no document results. -/
theorem round_trip_stops_at_declared_count :
    undeclaredDocument.IsValid = true ∧ undeclaredDocument._segments.length = 2 ∧
    undeclaredDocument.Segments = 1 ∧
    (undeclaredDocument.Raw 384 freshData).1 = 384 ∧
    (Segment 3 (fun _ => newBlock) ⟨undeclaredDocument._base, [videoBlock]⟩ 2).map Prod.fst
      = some BlockPtr.null ∧
    populate 3 newBlock (fun _ => newBlock) (undeclaredDocument.Raw 384 freshData).2 2 = none := by
  decide

/-- C13 amended: for a valid document `D` that holds `N` extension blocks with
`N <= Segments()` and `N <= 254`, `Raw(128 * (N + 1), buf)` returns `128 * (N + 1)`, and a
freshly constructed document populated from `buf` through `Segment(0)`, `Segment(1)`, ..,
`Segment(N)` is `D` itself: the same base block and the same extension sequence. -/
theorem round_trip (D : ExtendedDisplayIdentification) (fuel : Nat) (memory0 : Buffer)
    (memory : Nat → Buffer) (data : Nat → Fin 256) (hv : D.IsValid = true)
    (hN : D._segments.length ≤ D.Segments) (h254 : D._segments.length ≤ 254)
    (hf : D._segments.length < fuel) :
    (D.Raw (128 * (D._segments.length + 1)) data).1 = 128 * (D._segments.length + 1) ∧
    populate fuel memory0 memory (D.Raw (128 * (D._segments.length + 1)) data).2
      D._segments.length = some D := by
  obtain ⟨h1, h2⟩ := Raw_valid D (128 * (D._segments.length + 1)) data (by omega) hv
  rw [Nat.min_self] at h1 h2
  refine ⟨h1, ?_⟩
  have hbase : blockAt (D.Raw (128 * (D._segments.length + 1)) data).2 (128 * 0) = D._base := by
    apply blockAt_eq
    intro i hi
    rw [h2, if_pos (by omega)]
    have e : 128 * 0 + i = i := by omega
    rw [e]
    exact allBytes_getD_base D i hi
  have hdata : ∀ k (hk : k < D._segments.length),
      blockAt (D.Raw (128 * (D._segments.length + 1)) data).2 (128 * (k + 1))
        = D._segments[k] := by
    intro k hk
    apply blockAt_eq
    intro i hi
    rw [h2, if_pos (by omega)]
    exact allBytes_getD_segment D k i hk hi
  have hloop := populate.loop_restores fuel memory
    (D.Raw (128 * (D._segments.length + 1)) data).2 D hN h254 hf hdata
    D._segments.length 1 (by omega) (by omega)
  have h0 : Segment fuel memory (new memory0) 0 = some (.base, new memory0) := rfl
  simp only [populate, populate.loop, h0, fill, hbase]
  simpa [new] using hloop

/-- Instance of C13 (amended) at `twoBlockDocument`, which declares and holds two extension
blocks. -/
theorem round_trip_witness :
    (twoBlockDocument.IsValid = true ∧ twoBlockDocument._segments.length = 2 ∧
      twoBlockDocument.Segments = 3) ∧
    (twoBlockDocument.Raw 384 freshData).1 = 384 ∧
    populate 3 newBlock (fun _ => newBlock) (twoBlockDocument.Raw 384 freshData).2 2
      = some twoBlockDocument :=
  ⟨by decide,
    round_trip twoBlockDocument 3 newBlock (fun _ => newBlock) freshData (by decide) (by decide)
      (by decide) (by decide)⟩

/-- C14: the cursor that `CEASegment()` returns is valid if and only if some extension block
has first byte `0x02`; when it is valid, `Current()` is the first such block of the sequence;
when no block has the tag, the cursor is past the end (`cend()`), not valid, and `Next()`
returns false. -/
theorem CEASegment_first_cea_block (d : ExtendedDisplayIdentification) :
    (d.CEASegment.IsValid = true ↔ ∃ b ∈ d._segments, b[0] = 0x02) ∧
    (∀ h : d.CEASegment.IsValid = true,
      d._segments.find? (fun b => b[0] == 0x02) = some (d.CEASegment.Current h)) ∧
    ((∀ b ∈ d._segments, b[0] ≠ 0x02) →
      d.CEASegment.IsValid = false ∧ d.CEASegment._index = [] ∧
      d.CEASegment.Next.1 = false) := by
  have hfind := find?_eq_head?_dropWhile (fun b => b[0] == 0x02) d._segments
  have hdrop : (fun b : Buffer => !(b[0] == 0x02)) = (fun b => b[0] != CEA.extension_tag) := rfl
  rw [hdrop] at hfind
  have hce := CEASegment_eq d
  refine ⟨?_, ?_, ?_⟩
  · rw [hce]
    simp only [Iterator.IsValid, beq_self_eq_true, Option.isSome_some, Bool.true_and,
      Bool.not_eq_true', List.isEmpty_eq_false]
    constructor
    · intro hne
      cases hdw : List.dropWhile (fun b => b[0] != CEA.extension_tag) d._segments with
      | nil => exact absurd hdw hne
      | cons x s =>
        rw [hdw] at hfind
        have hx := List.find?_some hfind
        exact ⟨x, List.mem_of_find?_eq_some hfind, by simpa using hx⟩
    · rintro ⟨b, hb, hb0⟩ hnil
      rw [List.dropWhile_eq_nil_iff] at hnil
      have := hnil b hb
      simp [CEA.extension_tag, hb0] at this
  · intro h
    have hidx : d.CEASegment._index
        = d._segments.dropWhile (fun b => b[0] != CEA.extension_tag) := by rw [hce]
    rw [hfind, ← hidx]
    exact List.head?_eq_head _
  · intro hno
    have hnil : d._segments.dropWhile (fun b => b[0] != CEA.extension_tag) = [] := by
      rw [List.dropWhile_eq_nil_iff]
      intro b hb
      simpa [CEA.extension_tag] using hno b hb
    rw [hce, hnil]
    simp [Iterator.IsValid, Iterator.Next]

/-- Instance of C14 at `twoBlockDocument`, whose first extension block is the CEA block
`videoBlock`. -/
theorem CEASegment_first_cea_block_witness :
    twoBlockDocument.CEASegment.IsValid = true ∧
    ∀ h : twoBlockDocument.CEASegment.IsValid = true,
      twoBlockDocument.CEASegment.Current h = videoBlock :=
  ⟨by decide, fun h =>
    Option.some.inj (((CEASegment_first_cea_block twoBlockDocument).2.1 h).symm.trans
      (by decide))⟩

/-- C15: without a CEA block `SupportedColorDepths()` falls back to `ColorDepth()`, and
`SupportedColorFormats()` does not fall back: it is 0, while `SupportedDigitalDisplayTypes()`
always contains `DISPLAYINFO_EDID_COLOR_FORMAT_RGB` and so is not 0 when that flag is not 0.
At `srgbDocument`, which holds no extension block, the two are 0 and 1 for the sample
numbering. -/
theorem SupportedColorFormats_no_fallback :
    (∀ (K : DisplayInfo) (d : ExtendedDisplayIdentification),
      (∀ b ∈ d._segments, b[0] ≠ 0x02) →
      d.SupportedColorDepths K = .ok (u8 (d.ColorDepth K)) ∧
      d.SupportedColorFormats K = .ok 0) ∧
    (∀ (K : DisplayInfo) (d : ExtendedDisplayIdentification),
      u8 K.DISPLAYINFO_EDID_COLOR_FORMAT_RGB ≠ 0 → d.SupportedDigitalDisplayTypes K ≠ 0) ∧
    (srgbDocument._segments = [] ∧
      srgbDocument.SupportedColorFormats sampleDisplayInfo = .ok 0 ∧
      srgbDocument.SupportedDigitalDisplayTypes sampleDisplayInfo = 1) := by
  refine ⟨?_, SupportedDigitalDisplayTypes_ne_zero, by decide⟩
  intro K d h
  have hv : d.CEASegment.IsValid = false := CEASegment_invalid_of_no_cea d h
  constructor
  · simp [SupportedColorDepths, hv, pure, Except.pure]
  · simp [SupportedColorFormats, hv, pure, Except.pure]

/-- C16 as stated fails: `srgbDocument` holds no extension block and has bit 2 of byte `0x18`
set, and `SupportedColorSpace()` returns `DISPLAYINFO_EDID_COLOR_SPACE_SRGB` (as 16 bits), which
is 1 in the sample numbering. -/
theorem SupportedColorSpace_srgb_without_cea :
    srgbDocument._segments = [] ∧ srgbDocument._base[0x18] = 0x04 ∧
    (∀ K : DisplayInfo,
      srgbDocument.SupportedColorSpace K = .ok (u16 K.DISPLAYINFO_EDID_COLOR_SPACE_SRGB)) ∧
    srgbDocument.SupportedColorSpace sampleDisplayInfo = .ok 1 := by
  refine ⟨rfl, by decide, ?_, by decide⟩
  intro K
  have hv : srgbDocument.CEASegment.IsValid = false := by decide
  have hb : (srgbDocument._base[0x18] &&& (1 <<< 2) != 0) = true := by decide
  simp only [SupportedColorSpace, hv, hb, if_true, pure, Except.pure, Nat.zero_or]
  simp

/-- C16 amended: when no extension block has first byte `0x02`, `SupportedColorSpace()` is
`DISPLAYINFO_EDID_COLOR_SPACE_SRGB` (as 16 bits) if bit 2 of base byte `0x18` is set and 0
otherwise, `SupportedAudioFormats()` is 0 and `SupportedTimings(out)` leaves `out` as it
is. -/
theorem scans_without_cea (K : DisplayInfo) (d : ExtendedDisplayIdentification)
    (h : ∀ b ∈ d._segments, b[0] ≠ 0x02) :
    d.SupportedColorSpace K
      = .ok (if d._base[0x18] &&& 4 ≠ 0 then u16 K.DISPLAYINFO_EDID_COLOR_SPACE_SRGB else 0) ∧
    d.SupportedAudioFormats K = .ok 0 ∧
    ∀ out : List Nat, d.SupportedTimings out = .ok out := by
  have hv : d.CEASegment.IsValid = false := CEASegment_invalid_of_no_cea d h
  refine ⟨?_, ?_, ?_⟩
  · by_cases hb : d._base[0x18] &&& 4 = 0
    · simp [SupportedColorSpace, hv, pure, Except.pure, hb]
    · simp [SupportedColorSpace, hv, pure, Except.pure, hb]
  · simp [SupportedAudioFormats, hv, pure, Except.pure]
  · intro out
    simp [SupportedTimings, hv, pure, Except.pure]

/-- Instance of C16 (amended) at `analogDocument`, which holds no extension block and has
bit 2 of byte `0x18` clear. -/
theorem scans_without_cea_witness :
    (∀ b ∈ analogDocument._segments, b[0] ≠ 0x02) ∧
    analogDocument.SupportedColorSpace sampleDisplayInfo = .ok 0 ∧
    analogDocument.SupportedAudioFormats sampleDisplayInfo = .ok 0 ∧
    analogDocument.SupportedTimings [7] = .ok [7] :=
  have h := scans_without_cea sampleDisplayInfo analogDocument (by decide)
  ⟨by decide, h.1.trans (by decide), h.2.1, h.2.2 [7]⟩

end ExtendedDisplayIdentification

/-! ## Lemmas on the data-block scanner -/

namespace ExtendedDisplayIdentification

set_option maxRecDepth 100000 in
theorem byte_bits : ∀ x : Fin 256,
    u8 ((x.val &&& 0x78) >>> 3) = x.val / 8 % 16 ∧
    (x.val &&& 0xF8) >>> 3 = x.val / 8 % 32 ∧
    ((x.val &&& 0x01 != 0) = decide (x.val % 2 = 1)) := by
  decide

set_option maxRecDepth 100000 in
theorem byte_bit_tests : ∀ x : Fin 256, ∀ i : Fin 8,
    ((x.val &&& (1 <<< i.val) != 0) = decide (x.val / 2 ^ i.val % 2 = 1)) := by
  decide

end ExtendedDisplayIdentification

namespace ExtendedDisplayIdentification
namespace CEA
open DataBlockIterator

theorem DataBlockIterator.Next_true (it : DataBlockIterator) (h : it.Next.1 = true) :
    it.Next.2._reset = false ∧ it.Next.2.IsValid = true ∧ it.Next.2._index < 128 ∧
    it.Next.2.BlockSize ≠ 0 ∧ it.Next.2._segment = it._segment ∧
    it.Next.2._dtdBegin = it._dtdBegin ∧
    (it._reset = true → it.Next.2._index = it._index) ∧
    (it._reset = false → it._index < it.Next.2._index) := by
  obtain ⟨seg, idx, dtd, reset⟩ := it
  cases reset with
  | true =>
    simp only [DataBlockIterator.Next, beq_self_eq_true, if_true] at h ⊢
    simp only [Bool.and_eq_true] at h
    obtain ⟨hs, hr⟩ := h
    have hv : (DataBlockIterator.mk seg idx dtd false).IsValid = true := by
      simp [DataBlockIterator.IsValid, hr]
    have hr2 := hr
    simp only [DataBlockIterator.IsInRange, Buffer.edid_block_size, Bool.and_eq_true,
      decide_eq_true_eq] at hr2
    have hs2 : (DataBlockIterator.mk seg idx dtd false).BlockSize ≠ 0 := by
      intro h0
      simp [h0] at hs
    simp only [hv, hs2, ne_eq, not_false_eq_true, true_and, and_true, implies_true]
    exact ⟨by omega, fun h => by simp at h⟩
  | false =>
    by_cases hin : (DataBlockIterator.mk seg idx dtd false).IsInRange = true
    · simp only [DataBlockIterator.Next, Bool.false_eq_true, if_false, hin, if_true,
        beq_iff_eq] at h ⊢
      simp only [Bool.and_eq_true] at h
      obtain ⟨hs, hr⟩ := h
      have hr2 := hr
      simp only [DataBlockIterator.IsInRange, Buffer.edid_block_size, Bool.and_eq_true,
        decide_eq_true_eq] at hr2 hin
      have hsz : (DataBlockIterator.mk seg idx dtd false).BlockSize ≤ 0x1F := by
        unfold DataBlockIterator.BlockSize
        split
        · exact Nat.and_le_right
        · omega
      have hu : u16 (idx + ((DataBlockIterator.mk seg idx dtd false).BlockSize + 1))
          = idx + ((DataBlockIterator.mk seg idx dtd false).BlockSize + 1) := by
        unfold u16
        omega
      have hv : (DataBlockIterator.mk seg
          (u16 (idx + ((DataBlockIterator.mk seg idx dtd false).BlockSize + 1))) dtd
          false).IsValid = true := by
        simp [DataBlockIterator.IsValid, hr]
      have hs2 : (DataBlockIterator.mk seg
          (u16 (idx + ((DataBlockIterator.mk seg idx dtd false).BlockSize + 1))) dtd
          false).BlockSize ≠ 0 := by
        intro h0
        simp [h0] at hs
      simp only [hv, hs2, ne_eq, not_false_eq_true, true_and, and_true, implies_true]
      rw [hu] at hr2 ⊢
      exact ⟨by omega, fun h => h.elim, by omega⟩
    · simp only [DataBlockIterator.Next, Bool.false_eq_true, if_false, hin] at h
      simp only [Bool.and_eq_true] at h
      exact absurd h.2 hin

theorem DataBlockIterator.enough_next (fuel : Nat) (it : DataBlockIterator)
    (h : it.Next.1 = true) (he : enough (fuel + 1) it) : enough fuel it.Next.2 := by
  obtain ⟨hr, _, hlt, _, _, _, h1, h2⟩ := DataBlockIterator.Next_true it h
  unfold enough at he ⊢
  rw [hr]
  simp only [Bool.false_eq_true, if_false]
  cases hreset : it._reset with
  | true =>
    have := h1 hreset
    simp only [hreset, if_true] at he
    omega
  | false =>
    have := h2 hreset
    simp only [hreset, Bool.false_eq_true, if_false] at he
    omega

theorem DataBlockIterator.scan_succ (fuel : Nat) (it : DataBlockIterator) :
    it.scan (fuel + 1) = if it.Next.1 then it.Next.2 :: it.Next.2.scan fuel else [] := rfl

/-- A loop `while(dataBlock.Next())` that leaves at the first data block satisfying `P`
is described by the first such block among the scanned ones. -/
theorem DataBlockIterator.scan_find {α β : Type}
    (F : Nat → DataBlockIterator → α → Except Fault β)
    (P : DataBlockIterator → Bool) (body : DataBlockIterator → α → Except Fault β)
    (done : α → Except Fault β) (Q : DataBlockIterator → Prop)
    (hstep : ∀ f it acc, it.Next.1 = true → it.Next.2.IsValid = true → Q it.Next.2 →
      F (f + 1) it acc = if P it.Next.2 then body it.Next.2 acc else F f it.Next.2 acc)
    (hdone : ∀ f it acc, it.Next.1 = false → F (f + 1) it acc = done acc) :
    ∀ (fuel : Nat) (it : DataBlockIterator) (acc : α), enough fuel it →
      (∀ b ∈ it.scan fuel, Q b) →
      F fuel it acc = match (it.scan fuel).find? P with
        | some b => body b acc
        | none => done acc := by
  intro fuel
  induction fuel with
  | zero =>
    intro it acc he _
    exact absurd he.1 (by omega)
  | succ f ih =>
    intro it acc he hQ
    rw [DataBlockIterator.scan_succ] at hQ ⊢
    cases hn : it.Next.1 with
    | false =>
      simp only [Bool.false_eq_true, if_false, List.find?_nil]
      exact hdone f it acc hn
    | true =>
      simp only [hn, if_true] at hQ ⊢
      have hv := (DataBlockIterator.Next_true it hn).2.1
      have hq : Q it.Next.2 := hQ _ (List.mem_cons_self _ _)
      rw [hstep f it acc hn hv hq, List.find?_cons]
      cases hp : P it.Next.2 with
      | true => simp
      | false =>
        simp only [Bool.false_eq_true, if_false]
        exact ih it.Next.2 acc (DataBlockIterator.enough_next f it hn he)
          (fun b hb => hQ b (List.mem_cons_of_mem _ hb))

theorem DataBlockIterator.scan_valid :
    ∀ (fuel : Nat) (it : DataBlockIterator), ∀ b ∈ it.scan fuel,
      b.IsValid = true ∧ b.BlockSize ≠ 0 ∧ b._segment = it._segment := by
  intro fuel
  induction fuel with
  | zero =>
    intro it b hb
    simp [DataBlockIterator.scan] at hb
  | succ f ih =>
    intro it b hb
    rw [DataBlockIterator.scan_succ] at hb
    cases hn : it.Next.1 with
    | false => simp [hn] at hb
    | true =>
      simp only [hn, if_true, List.mem_cons] at hb
      obtain ⟨_, hv, _, hs, hseg, _⟩ := DataBlockIterator.Next_true it hn
      rcases hb with rfl | hb
      · exact ⟨hv, hs, hseg⟩
      · obtain ⟨a, b', c⟩ := ih it.Next.2 b hb
        exact ⟨a, b', c.trans hseg⟩

theorem enough_new (seg : Buffer) (dtd : Nat) :
    DataBlockIterator.enough scanFuel (DataBlockIterator.new seg dtd) := by
  simp [DataBlockIterator.enough, scanFuel, DataBlockIterator.new]

end CEA
end ExtendedDisplayIdentification

namespace ExtendedDisplayIdentification
namespace CEA
open DataBlockIterator

theorem DataBlockIterator.BlockSize_le (it : DataBlockIterator) : it.BlockSize ≤ 31 := by
  unfold DataBlockIterator.BlockSize
  split
  · exact Nat.and_le_right
  · omega

theorem DataBlockIterator.byte_lt (it : DataBlockIterator) (i : Nat) : it.byte i < 256 :=
  Fin.isLt _

theorem DataBlockIterator.Current_eq (it : DataBlockIterator) (i : Nat) :
    it.Current i = if it._index + i < 128 then .ok (it.byte i)
      else .error (.outOfBounds (it._index + i)) := by
  unfold DataBlockIterator.Current Buffer.rd DataBlockIterator.byte
  split
  · rw [Buffer.getElem_eq_getD]
  · rfl

theorem DataBlockIterator.Current_ok (it : DataBlockIterator) (i : Nat)
    (h : it._index + i < 128) : it.Current i = .ok (it.byte i) := by
  rw [DataBlockIterator.Current_eq, if_pos h]

theorem SupportedTimings.forLoop_appends (b : DataBlockIterator) (hin : b._index + b.BlockSize ≤ 128) :
    ∀ (n index fuel : Nat) (vicList : List Nat), index + n = b.BlockSize → n < fuel →
      SupportedTimings.forLoop b fuel index vicList
        = .ok (vicList ++ (List.range' index n).map (fun i => b.byte i &&& 0x7F)) := by
  have hsz := b.BlockSize_le
  intro n
  induction n with
  | zero =>
    intro index fuel vicList hi hf
    obtain ⟨f, rfl⟩ : ∃ f, fuel = f + 1 := ⟨fuel - 1, by omega⟩
    have : ¬ index < b.BlockSize := by omega
    simp [SupportedTimings.forLoop, this, pure, Except.pure]
  | succ n ih =>
    intro index fuel vicList hi hf
    obtain ⟨f, rfl⟩ : ∃ f, fuel = f + 1 := ⟨fuel - 1, by omega⟩
    have hlt : index < b.BlockSize := by omega
    have hu : u8 (index + 1) = index + 1 := by
      unfold u8
      omega
    simp only [SupportedTimings.forLoop, hlt, if_true, b.Current_ok index (by omega), hu, bind,
      Except.bind]
    rw [ih (index + 1) f _ (by omega) (by omega)]
    simp [List.range'_succ]

theorem SupportedTimings.loop_first_video (fuel : Nat) (it : DataBlockIterator) (vicList : List Nat)
    (he : DataBlockIterator.enough fuel it) :
    SupportedTimings.loop fuel it vicList
      = match (it.scan fuel).find? (fun b => b.BlockTag == 0x02) with
        | some b => SupportedTimings.forLoop b 33 0 vicList
        | none => .ok vicList := by
  refine DataBlockIterator.scan_find SupportedTimings.loop (fun b => b.BlockTag == 0x02)
    (fun b vicList => SupportedTimings.forLoop b 33 0 vicList) (fun vicList => .ok vicList)
    (fun _ => True) ?_ ?_ fuel it vicList he (fun _ _ => trivial)
  · intro f it acc hn hv _
    rw [SupportedTimings.loop]
    rcases hN : it.Next with ⟨n, b⟩
    rw [hN] at hn hv
    simp only at hn hv
    simp only [hn, hv, if_true, Bool.true_and]
  · intro f it acc hn
    rw [SupportedTimings.loop]
    rcases hN : it.Next with ⟨n, b⟩
    rw [hN] at hn
    simp only at hn
    simp only [hn, Bool.false_eq_true, if_false]
    rfl

end CEA
end ExtendedDisplayIdentification

namespace ExtendedDisplayIdentification
namespace CEA
open DataBlockIterator

theorem DataBlockIterator.byte_bits_at (it : DataBlockIterator) (i : Nat) :
    u8 ((it.byte i &&& 0x78) >>> 3) = it.byte i / 8 % 16 ∧
    (it.byte i &&& 0xF8) >>> 3 = it.byte i / 8 % 32 ∧
    ((it.byte i &&& 0x01 != 0) = decide (it.byte i % 2 = 1)) :=
  byte_bits _

theorem SupportedAudioFormats.extended_eq (K : DisplayInfo) (code map : Nat) :
    SupportedAudioFormats.extended K code map = map ||| extendedAudioFormatOf K code := by
  unfold SupportedAudioFormats.extended extendedAudioFormatOf
  split <;> simp

theorem SupportedAudioFormats.descriptor_eq (K : DisplayInfo) (b : DataBlockIterator)
    (index map : Nat) (h : b._index + (index + 2) < 128) :
    SupportedAudioFormats.descriptor K b index (b.byte index / 8 % 16) map
      = .ok (map ||| audioFormatOf K (b.byte index) (b.byte (index + 2))) := by
  have hc : b.byte index / 8 % 16 < 16 := Nat.mod_lt _ (by norm_num)
  obtain ⟨_, h3, h1⟩ := b.byte_bits_at (index + 2)
  unfold audioFormatOf
  generalize b.byte index / 8 % 16 = c at hc
  interval_cases c <;>
    simp [SupportedAudioFormats.descriptor, b.Current_ok (index + 2) h, h3, h1, pure,
      Except.pure, bind, Except.bind, SupportedAudioFormats.extended_eq, Nat.or_assoc]
  · split <;> simp

theorem SupportedAudioFormats.forLoop_folds (K : DisplayInfo) (b : DataBlockIterator)
    (hin : b.inBlock) :
    ∀ (n t fuel map : Nat), 3 * (t + n) = b.BlockSize → n < fuel →
      SupportedAudioFormats.forLoop K b fuel (3 * t + 1) map
        = .ok ((List.range' t n).foldl
            (fun map t => map ||| audioFormatOf K (b.byte (3 * t + 1)) (b.byte (3 * t + 3)))
            map) := by
  have hsz := b.BlockSize_le
  unfold DataBlockIterator.inBlock at hin
  intro n
  induction n with
  | zero =>
    intro t fuel map hi hf
    obtain ⟨f, rfl⟩ : ∃ f, fuel = f + 1 := ⟨fuel - 1, by omega⟩
    have : ¬ 3 * t + 1 < b.BlockSize := by omega
    simp [SupportedAudioFormats.forLoop, this, pure, Except.pure]
  | succ n ih =>
    intro t fuel map hi hf
    obtain ⟨f, rfl⟩ : ∃ f, fuel = f + 1 := ⟨fuel - 1, by omega⟩
    have hlt : 3 * t + 1 < b.BlockSize := by omega
    have hu : u8 (3 * t + 1 + 3) = 3 * (t + 1) + 1 := by
      unfold u8
      omega
    have hd := SupportedAudioFormats.descriptor_eq K b (3 * t + 1) map (by omega)
    have e3 : 3 * t + 1 + 2 = 3 * t + 3 := by omega
    rw [e3] at hd
    simp only [SupportedAudioFormats.forLoop, hlt, if_true, b.Current_ok (3 * t + 1) (by omega),
      (b.byte_bits_at (3 * t + 1)).1, hd, hu, bind, Except.bind]
    rw [ih (t + 1) f _ (by omega) (by omega)]
    simp [List.range'_succ]

theorem SupportedAudioFormats.loop_first_audio (K : DisplayInfo) (fuel : Nat) (it : DataBlockIterator)
    (map : Nat) (he : DataBlockIterator.enough fuel it) :
    SupportedAudioFormats.loop K fuel it map
      = match (it.scan fuel).find? (fun b => b.BlockTag == 0x01) with
        | some b => SupportedAudioFormats.forLoop K b 33 1 map
        | none => .ok map := by
  refine DataBlockIterator.scan_find (SupportedAudioFormats.loop K) (fun b => b.BlockTag == 0x01)
    (fun b map => SupportedAudioFormats.forLoop K b 33 1 map) (fun map => .ok map)
    (fun _ => True) ?_ ?_ fuel it map he (fun _ _ => trivial)
  · intro f it acc hn hv _
    rw [SupportedAudioFormats.loop]
    rcases hN : it.Next with ⟨n, b⟩
    rw [hN] at hn hv
    simp only at hn hv
    simp only [hn, hv, if_true, Bool.true_and]
  · intro f it acc hn
    rw [SupportedAudioFormats.loop]
    rcases hN : it.Next with ⟨n, b⟩
    rw [hN] at hn
    simp only at hn
    simp only [hn, Bool.false_eq_true, if_false]
    rfl

end CEA
end ExtendedDisplayIdentification

namespace ExtendedDisplayIdentification
namespace CEA
open DataBlockIterator

theorem DataBlockIterator.bit_test (it : DataBlockIterator) (i bit : Nat) (h : bit < 8) :
    (it.byte i &&& (1 <<< bit) != 0) = decide (it.byte i / 2 ^ bit % 2 = 1) :=
  byte_bit_tests _ ⟨bit, h⟩

theorem or_bitFlag (cast : Nat → Nat) (it : DataBlockIterator) (i bit flag map : Nat)
    (h : bit < 8) :
    (if it.byte i &&& (1 <<< bit) != 0 then map ||| cast flag else map)
      = map ||| bitFlag cast (it.byte i) bit flag := by
  rw [it.bit_test i bit h]
  unfold bitFlag
  by_cases hb : it.byte i / 2 ^ bit % 2 = 1
  · simp [hb]
  · simp [hb]

theorem DataBlockIterator.registrationId_eq (it : DataBlockIterator) :
    u32 (it.byte 1 + (it.byte 2 <<< 8) + (it.byte 3 <<< 16)) = it.registrationId := by
  have h1 := it.byte_lt 1
  have h2 := it.byte_lt 2
  have h3 := it.byte_lt 3
  unfold DataBlockIterator.registrationId u32
  rw [Nat.shiftLeft_eq, Nat.shiftLeft_eq]
  omega

theorem SupportedColorDepths.loop_first_hdmi (K : DisplayInfo) (fuel : Nat) (it : DataBlockIterator)
    (map : Nat) (he : DataBlockIterator.enough fuel it)
    (hin : ∀ b ∈ it.scan fuel, b.inBlock) :
    SupportedColorDepths.loop K fuel it map
      = match (it.scan fuel).find? (fun b => (b.BlockTag == 0x03) && decide (b.BlockSize > 6)
          && (b.registrationId == 0x000C03)) with
        | some b => .ok (map ||| colorDepthsOf K (b.byte 6))
        | none => .ok map := by
  refine DataBlockIterator.scan_find (SupportedColorDepths.loop K)
    (fun b => (b.BlockTag == 0x03) && decide (b.BlockSize > 6) && (b.registrationId == 0x000C03))
    (fun b map => .ok (map ||| colorDepthsOf K (b.byte 6))) (fun map => .ok map)
    (fun b => b.inBlock) ?_ ?_ fuel it map he hin
  · intro f it acc hn hv hq
    rw [SupportedColorDepths.loop]
    rcases hN : it.Next with ⟨n, b⟩
    rw [hN] at hn hv hq
    simp only at hn hv hq
    unfold DataBlockIterator.inBlock at hq
    simp only [hn, hv, if_true, Bool.true_and]
    by_cases hc : ((b.BlockTag == 0x03) && decide (b.BlockSize > 6)) = true
    · have hsz : b.BlockSize > 6 := by
        simp only [Bool.and_eq_true, decide_eq_true_eq] at hc
        exact hc.2
      simp only [hc, if_true, Bool.true_and, b.Current_ok 1 (by omega),
        b.Current_ok 2 (by omega), b.Current_ok 3 (by omega), b.Current_ok 6 (by omega), bind,
        Except.bind, b.registrationId_eq, pure, Except.pure]
      by_cases hid : (b.registrationId == 0x000C03) = true
      · simp only [hid, if_true]
        rw [or_bitFlag u8 b 6 6 _ _ (by omega), or_bitFlag u8 b 6 5 _ _ (by omega),
          or_bitFlag u8 b 6 4 _ _ (by omega)]
        simp only [colorDepthsOf, Nat.or_assoc]
      · simp only [hid, Bool.false_eq_true, if_false]
    · simp only [hc, Bool.false_eq_true, if_false, Bool.false_and]
  · intro f it acc hn
    rw [SupportedColorDepths.loop]
    rcases hN : it.Next with ⟨n, b⟩
    rw [hN] at hn
    simp only at hn
    simp only [hn, Bool.false_eq_true, if_false]
    rfl

/-- What `CEA::SupportedColorSpaces` does at the first extended-tag block with more than one
payload byte. -/
theorem SupportedColorSpaces.loop_first_extended (K : DisplayInfo) (fuel : Nat) (it : DataBlockIterator)
    (map : Nat) (he : DataBlockIterator.enough fuel it)
    (hin : ∀ b ∈ it.scan fuel, b.inBlock) :
    SupportedColorSpaces.loop K fuel it map
      = match (it.scan fuel).find? (fun b => (b.BlockTag == 0x07) && decide (b.BlockSize > 1)) with
        | some b =>
          .ok (if b.byte 1 = 0x05 ∧ 3 ≤ b.BlockSize then
            map ||| colorimetryOf K (b.byte 2) (b.byte 3) else map)
        | none => .ok map := by
  refine DataBlockIterator.scan_find (SupportedColorSpaces.loop K)
    (fun b => (b.BlockTag == 0x07) && decide (b.BlockSize > 1))
    (fun b map => .ok (if b.byte 1 = 0x05 ∧ 3 ≤ b.BlockSize then
      map ||| colorimetryOf K (b.byte 2) (b.byte 3) else map)) (fun map => .ok map)
    (fun b => b.inBlock) ?_ ?_ fuel it map he hin
  · intro f it acc hn hv hq
    rw [SupportedColorSpaces.loop]
    rcases hN : it.Next with ⟨n, b⟩
    rw [hN] at hn hv hq
    simp only at hn hv hq
    unfold DataBlockIterator.inBlock at hq
    simp only [hn, hv, if_true, Bool.true_and]
    by_cases hc : ((b.BlockTag == 0x07) && decide (b.BlockSize > 1)) = true
    · have hsz : b.BlockSize > 1 := by
        simp only [Bool.and_eq_true, decide_eq_true_eq] at hc
        exact hc.2
      simp only [hc, if_true, b.Current_ok 1 (by omega), bind, Except.bind, pure, Except.pure]
      by_cases hx : b.byte 1 = 0x05 ∧ 3 ≤ b.BlockSize
      · have hx2 : ((b.byte 1 == 0x05) && decide (b.BlockSize ≥ 3)) = true := by
          simp [hx.1, hx.2]
        simp only [hx2, if_true, hx, and_self, b.Current_ok 2 (by omega),
          b.Current_ok 3 (by omega), orIfBit16]
        rw [or_bitFlag u16 b 2 0 _ _ (by omega), or_bitFlag u16 b 2 1 _ _ (by omega),
          or_bitFlag u16 b 2 2 _ _ (by omega), or_bitFlag u16 b 2 3 _ _ (by omega),
          or_bitFlag u16 b 2 4 _ _ (by omega), or_bitFlag u16 b 2 5 _ _ (by omega),
          or_bitFlag u16 b 2 6 _ _ (by omega), or_bitFlag u16 b 2 7 _ _ (by omega),
          or_bitFlag u16 b 3 7 _ _ (by omega)]
        simp only [colorimetryOf, Nat.or_assoc]
        simp
      · have hx2 : ((b.byte 1 == 0x05) && decide (b.BlockSize ≥ 3)) = false := by
          rw [Bool.eq_false_iff]
          intro h
          simp only [Bool.and_eq_true, beq_iff_eq, decide_eq_true_eq] at h
          exact hx ⟨h.1, h.2⟩
        simp only [hx2, Bool.false_eq_true, if_false, hx]
    · simp only [hc, Bool.false_eq_true, if_false]
  · intro f it acc hn
    rw [SupportedColorSpaces.loop]
    rcases hN : it.Next with ⟨n, b⟩
    rw [hN] at hn
    simp only at hn
    simp only [hn, Bool.false_eq_true, if_false]
    rfl

end CEA
end ExtendedDisplayIdentification

namespace ExtendedDisplayIdentification
namespace CEA
open DataBlockIterator

theorem DataBlockIterator.scan_stable :
    ∀ (fuel : Nat) (it : DataBlockIterator), DataBlockIterator.enough fuel it →
      it.scan (fuel + 1) = it.scan fuel := by
  intro fuel
  induction fuel with
  | zero =>
    intro it he
    exact absurd he.1 (by omega)
  | succ f ih =>
    intro it he
    rw [DataBlockIterator.scan_succ (f + 1) it, DataBlockIterator.scan_succ f it]
    cases hn : it.Next.1 with
    | false => rfl
    | true =>
      simp only [if_true]
      rw [ih it.Next.2 (DataBlockIterator.enough_next f it hn he)]

end CEA
end ExtendedDisplayIdentification

/-! ## Claims on the CEA capability scans -/

namespace ExtendedDisplayIdentification
open CEA

/-- C17: `CEA::SupportedTimings` starts at `Current()[0]`.  In `videoBlock` the video data
block has header `42` and payload `10 1F`, and the call appends `42 10` (the header and the
first payload byte) and not `10 1F`.  In general, for the first scanned data block with tag
`0x02`, of length `n` and lying inside the block, the call appends bytes `0 .. n - 1` of the
data block, each masked with `0x7F`: the header and all payload bytes but the last; without
such a block the vector is unchanged. -/
theorem SupportedTimings_emits_header :
    (videoBlock[4] = 0x42 ∧ videoBlock[5] = 0x10 ∧ videoBlock[6] = 0x1F ∧
      (CEA.mk videoBlock).SupportedTimings [7] = .ok [7, 0x42, 0x10]) ∧
    (∀ (c : CEA) (out : List Nat),
      (c.dataBlocks.find? (fun b => b.BlockTag == 0x02) = none →
        c.SupportedTimings out = .ok out) ∧
      (∀ b, c.dataBlocks.find? (fun b => b.BlockTag == 0x02) = some b →
        b._index + b.BlockSize ≤ 128 →
        c.SupportedTimings out
          = .ok (out ++ (List.range b.BlockSize).map (fun i => b.byte i &&& 0x7F)))) := by
  refine ⟨by decide, ?_⟩
  intro c out
  have h := SupportedTimings.loop_first_video scanFuel
    (DataBlockIterator.new c._segment c.DetailedTimingDescriptorStart) out (enough_new _ _)
  constructor
  · intro hnone
    unfold dataBlocks at hnone
    rw [hnone] at h
    exact h
  · intro b hsome hin
    unfold dataBlocks at hsome
    rw [hsome] at h
    have hf := SupportedTimings.forLoop_appends b hin b.BlockSize 0 33 out (by omega)
      (by have := b.BlockSize_le; omega)
    rw [← List.range_eq_range'] at hf
    exact h.trans hf

/-- C18: the decoding is as claimed for an audio data block that lies inside the block, and
the scan reads past the block otherwise.  In `overrunAudioBlock` the first audio data block
has its header at offset 100 and length 30, a multiple of 3, and `SupportedAudioFormats`
reads `Current()[28]` at offset 128.  For the first scanned data block with tag `0x01`, of a
length `3m` and lying inside the block, the result is the OR of the formats of its `m`
descriptors; without such a block it is 0.  In `audioBlock` the descriptor `51 07 01` sets
both E-AC3 and Dolby Atmos. -/
theorem SupportedAudioFormats_decodes_descriptors :
    (overrunAudioBlock[100] = 0x3E ∧
      (CEA.mk overrunAudioBlock).SupportedAudioFormats sampleDisplayInfo
        = .error (.outOfBounds 128)) ∧
    (∀ (K : DisplayInfo) (c : CEA),
      (c.dataBlocks.find? (fun b => b.BlockTag == 0x01) = none →
        c.SupportedAudioFormats K = .ok 0) ∧
      (∀ b, c.dataBlocks.find? (fun b => b.BlockTag == 0x01) = some b →
        b.BlockSize % 3 = 0 → b.inBlock →
        c.SupportedAudioFormats K = .ok (b.audioFormats K (b.BlockSize / 3)))) ∧
    ((CEA.mk audioBlock).SupportedAudioFormats sampleDisplayInfo
        = .ok (sampleDisplayInfo.DISPLAYINFO_EDID_AUDIOFORMAT_EAC3
          ||| sampleDisplayInfo.DISPLAYINFO_EDID_AUDIOFORMAT_DOLBY_ATMOS
          ||| sampleDisplayInfo.DISPLAYINFO_EDID_AUDIOFORMAT_LPCM)) := by
  refine ⟨by decide, ?_, by decide⟩
  intro K c
  have h := SupportedAudioFormats.loop_first_audio K scanFuel
    (DataBlockIterator.new c._segment c.DetailedTimingDescriptorStart) 0 (enough_new _ _)
  constructor
  · intro hnone
    unfold dataBlocks at hnone
    rw [hnone] at h
    exact h
  · intro b hsome h3 hin
    unfold dataBlocks at hsome
    rw [hsome] at h
    have hf := SupportedAudioFormats.forLoop_folds K b hin (b.BlockSize / 3) 0 33 0 (by omega)
      (by have := b.BlockSize_le; omega)
    rw [← List.range_eq_range'] at hf
    exact h.trans hf

/-- C19: the decoding is as claimed when the scanned data blocks lie inside the block, and
the scan reads past the block otherwise.  In `overrunVendorBlock` the last scanned data block
has its header at offset 124, tag `0x03`, length 7 and registration id `0x000C03`, and
`SupportedColorDepths` reads its payload byte 6, `Current()[6]`, at offset 130.  When every
scanned data block lies inside the block, the result is decided by the first one with tag
`0x03`, length at least 7 and registration id `0x000C03`: it is the OR of `BPC_16`, `BPC_12`,
`BPC_10` for the bits 6, 5, 4 of its payload byte 6, and 0 without such a block.  In
`hdmiBlock` a vendor-specific block of another id comes first and is skipped. -/
theorem SupportedColorDepths_decodes_hdmi_block :
    ((CEA.mk overrunVendorBlock).dataBlocks.getLast?.map
          (fun b => (b._index, b.BlockTag, b.BlockSize, b.registrationId))
        = some (124, 0x03, 7, 0x000C03) ∧
      (CEA.mk overrunVendorBlock).SupportedColorDepths sampleDisplayInfo
        = .error (.outOfBounds 130)) ∧
    (∀ (K : DisplayInfo) (c : CEA), (∀ b ∈ c.dataBlocks, b.inBlock) →
      c.SupportedColorDepths K
        = match c.dataBlocks.find? (fun b => (b.BlockTag == 0x03) && decide (b.BlockSize > 6)
            && (b.registrationId == 0x000C03)) with
          | some b => .ok (colorDepthsOf K (b.byte 6))
          | none => .ok 0) ∧
    ((CEA.mk hdmiBlock).SupportedColorDepths sampleDisplayInfo
        = .ok (sampleDisplayInfo.DISPLAYINFO_EDID_BPC_16
          ||| sampleDisplayInfo.DISPLAYINFO_EDID_BPC_10)) := by
  refine ⟨by decide, ?_, by decide⟩
  intro K c hin
  have h := SupportedColorDepths.loop_first_hdmi K scanFuel
    (DataBlockIterator.new c._segment c.DetailedTimingDescriptorStart) 0 (enough_new _ _) hin
  simp only [Nat.zero_or] at h
  exact h

/-- C20: `CEA::SupportedColorSpaces` leaves the loop at the first data block with tag `0x07`
and more than one payload byte, whatever its extended tag is.  In `capabilityFirstBlock` a
video-capability block (extended tag `00`) precedes the colorimetry block `E3 05 FF 80`, and
the result is 0; for the colorimetry block alone (`colorimetryBlock`) the result is its
decoding.  When every scanned data block lies inside the block, the result is decided by the
first one with tag `0x07` and length above 1: the decoding of its payload bytes 2 and 3 when
its extended tag is `0x05` and its length at least 3, and 0 otherwise. -/
theorem SupportedColorSpaces_stops_at_first_extended_block :
    ((CEA.mk capabilityFirstBlock).dataBlocks.map
          (fun b => (b._index, b.BlockTag, b.BlockSize, b.byte 1))
        = [(4, 7, 2, 0), (7, 7, 3, 5)] ∧
      ∀ K : DisplayInfo, (CEA.mk capabilityFirstBlock).SupportedColorSpaces K = .ok 0) ∧
    ((CEA.mk colorimetryBlock).SupportedColorSpaces sampleDisplayInfo
        = .ok (sampleDisplayInfo.DISPLAYINFO_EDID_COLOR_SPACE_XVYCC_601
          ||| sampleDisplayInfo.DISPLAYINFO_EDID_COLOR_SPACE_XVYCC_709
          ||| sampleDisplayInfo.DISPLAYINFO_EDID_COLOR_SPACE_DCI_P3)) ∧
    (∀ (K : DisplayInfo) (c : CEA), (∀ b ∈ c.dataBlocks, b.inBlock) →
      c.SupportedColorSpaces K
        = match c.dataBlocks.find?
            (fun b => (b.BlockTag == 0x07) && decide (b.BlockSize > 1)) with
          | some b =>
            .ok (if b.byte 1 = 0x05 ∧ 3 ≤ b.BlockSize then
              colorimetryOf K (b.byte 2) (b.byte 3) else 0)
          | none => .ok 0) := by
  refine ⟨⟨by decide, fun K => rfl⟩, by decide, ?_⟩
  intro K c hin
  have h := SupportedColorSpaces.loop_first_extended K scanFuel
    (DataBlockIterator.new c._segment c.DetailedTimingDescriptorStart) 0 (enough_new _ _) hin
  simp only [Nat.zero_or] at h
  exact h

end ExtendedDisplayIdentification

/-! ## Lemmas on the scanner as a state machine -/

namespace ExtendedDisplayIdentification

theorem and7_shift4 (x : Nat) : u8 ((x &&& 0x07) >>> 4) = 0 := by
  have h : x &&& 0x07 ≤ 7 := Nat.and_le_right
  have h2 : (x &&& 0x07) >>> 4 = 0 := by
    rw [Nat.shiftRight_eq_div_pow]
    exact Nat.div_eq_of_lt (by omega)
  rw [h2]; rfl

namespace CEA
open DataBlockIterator

set_option maxRecDepth 100000 in
theorem tag_bits : ∀ x : Fin 256, (x.val &&& 0xE0) >>> 5 = x.val >>> 5 := by
  decide

theorem DataBlockIterator.IsInRange_iff (it : DataBlockIterator) :
    it.IsInRange = true ↔ 4 ≤ it._index ∧ it._index < min it._dtdBegin 128 := by
  simp only [DataBlockIterator.IsInRange, Buffer.edid_block_size, Bool.and_eq_true,
    decide_eq_true_eq]
  omega

theorem DataBlockIterator.header_eq (it : DataBlockIterator) (h : it.IsValid = true) :
    it.header h = it._segment.byteAt it._index := by
  unfold DataBlockIterator.header Buffer.byteAt
  exact Buffer.getElem_eq_getD _ _ _

theorem DataBlockIterator.BlockSize_of_valid (it : DataBlockIterator) (h : it.IsValid = true) :
    it.BlockSize = it._segment.byteAt it._index &&& 0x1F := by
  unfold DataBlockIterator.BlockSize
  rw [dif_pos h, DataBlockIterator.header_eq]

theorem DataBlockIterator.BlockTag_of_valid (it : DataBlockIterator) (h : it.IsValid = true) :
    it.BlockTag = it._segment.byteAt it._index >>> 5 := by
  unfold DataBlockIterator.BlockTag
  rw [dif_pos h, DataBlockIterator.header_eq]
  exact tag_bits _

theorem DataBlockIterator.BlockSize_of_invalid (it : DataBlockIterator)
    (h : it.IsValid = false) : it.BlockSize = 0 ∧ it.BlockTag = 0 := by
  unfold DataBlockIterator.BlockSize DataBlockIterator.BlockTag
  simp [h]

theorem DataBlockIterator.Next_fst (it : DataBlockIterator) :
    it.Next.1 = true ↔ it.Next.2.BlockSize ≠ 0 ∧ it.Next.2.IsInRange = true := by
  simp [DataBlockIterator.Next]

/-- The three cases of the state change of `Next()`. -/
theorem DataBlockIterator.Next_snd (it : DataBlockIterator) :
    it.Next.2 =
      if it._reset = true then { it with _reset := false }
      else if it.IsInRange = true then
        { it with _index := it._index + 1 + (it._segment.byteAt it._index &&& 0x1F) }
      else it := by
  obtain ⟨seg, idx, dtd, reset⟩ := it
  cases reset with
  | true => simp [DataBlockIterator.Next]
  | false =>
    by_cases hin : (DataBlockIterator.mk seg idx dtd false).IsInRange = true
    · have hv : (DataBlockIterator.mk seg idx dtd false).IsValid = true := by
        simp [DataBlockIterator.IsValid, hin]
      have hlt := (DataBlockIterator.IsInRange_iff _).1 hin
      have hle : seg.byteAt idx &&& 0x1F ≤ 0x1F := Nat.and_le_right
      simp only [DataBlockIterator.Next, hin, DataBlockIterator.BlockSize_of_valid _ hv]
      simp only [Bool.false_eq_true, beq_iff_eq, if_false, if_true]
      have hu : u16 (idx + ((seg.byteAt idx &&& 0x1F) + 1)) = idx + 1 + (seg.byteAt idx &&& 0x1F) := by
        unfold u16
        simp only at hlt
        omega
      rw [hu]
    · simp [DataBlockIterator.Next, hin]

theorem specVisitedOffset_lt_succ (block : Buffer) (n : Nat) :
    specVisitedOffset block n < specVisitedOffset block (n + 1) := by
  show _ < specVisitedOffset block n + 1 + _
  omega

theorem specVisitedOffset_lt (block : Buffer) {j n : Nat} (h : j < n) :
    specVisitedOffset block j < specVisitedOffset block n := by
  induction n with
  | zero => omega
  | succ n ih =>
    have := specVisitedOffset_lt_succ block n
    rcases Nat.lt_succ_iff_lt_or_eq.1 h with h | h
    · exact lt_trans (ih h) this
    · rw [h]; exact this

theorem specVisitedOffset_ge (block : Buffer) (n : Nat) : 4 ≤ specVisitedOffset block n := by
  induction n with
  | zero => exact le_refl 4
  | succ n ih =>
    have := specVisitedOffset_lt_succ block n
    omega

/-- The scanner after `n + 1` calls of `Next()` from a state with `_reset` set and offset 4:
it stands at the offset `o_(n+1)` as long as the earlier offsets were in range, and it is
out of range once one of them was not. -/
theorem DataBlockIterator.afterNext_fresh (it : DataBlockIterator) (hr : it._reset = true)
    (h4 : it._index = 4) (n : Nat) :
    (it.afterNext (n + 1))._reset = false ∧
    (it.afterNext (n + 1))._segment = it._segment ∧
    (it.afterNext (n + 1))._dtdBegin = it._dtdBegin ∧
    ((∀ j < n, specVisitedOffset it._segment j < min it._dtdBegin 128) →
      (it.afterNext (n + 1))._index = specVisitedOffset it._segment n) ∧
    ((∃ j < n, ¬ specVisitedOffset it._segment j < min it._dtdBegin 128) →
      (it.afterNext (n + 1)).IsInRange = false) := by
  induction n with
  | zero =>
    have hS : it.afterNext (0 + 1) = it.Next.2 := rfl
    rw [hS, DataBlockIterator.Next_snd, if_pos hr]
    refine ⟨rfl, rfl, rfl, fun _ => h4, ?_⟩
    rintro ⟨j, hj, _⟩
    omega
  | succ n ih =>
    obtain ⟨ihr, ihs, ihd, ihi, iho⟩ := ih
    have hS : it.afterNext (n + 1 + 1) = (it.afterNext (n + 1)).Next.2 := rfl
    have hge := specVisitedOffset_ge it._segment n
    rw [hS, DataBlockIterator.Next_snd, if_neg (by rw [ihr]; simp)]
    by_cases hin : (it.afterNext (n + 1)).IsInRange = true
    · rw [if_pos hin]
      have hall : ∀ j < n, specVisitedOffset it._segment j < min it._dtdBegin 128 := by
        intro j hj
        by_contra hc
        rw [iho ⟨j, hj, hc⟩] at hin
        exact Bool.false_ne_true hin
      have hidx := ihi hall
      have hrange := (DataBlockIterator.IsInRange_iff _).1 hin
      rw [hidx, ihd] at hrange
      refine ⟨ihr, ihs, ihd, ?_, ?_⟩
      · intro _
        show (it.afterNext (n + 1))._index + 1 + _ = specVisitedOffset it._segment n + 1 + _
        rw [hidx, ihs]
      · rintro ⟨j, hj, hc⟩
        rcases Nat.lt_succ_iff_lt_or_eq.1 hj with hj | hj
        · exact absurd (hall j hj) hc
        · rw [hj] at hc
          exact absurd hrange.2 hc
    · rw [if_neg hin]
      refine ⟨ihr, ihs, ihd, ?_, fun _ => by simpa using hin⟩
      intro hall
      have hidx := ihi (fun j hj => hall j (Nat.lt_succ_of_lt hj))
      have hn := hall n (Nat.lt_succ_self n)
      exfalso
      apply hin
      rw [DataBlockIterator.IsInRange_iff, hidx, ihd]
      exact ⟨hge, hn⟩

/-- The `(n + 1)`-th call of `Next()` from a state with `_reset` set and offset 4. -/
theorem DataBlockIterator.Next_fresh (it : DataBlockIterator) (hr : it._reset = true)
    (h4 : it._index = 4) (n : Nat) :
    ((it.afterNext n).Next.1 = true ↔
      4 ≤ specVisitedOffset it._segment n ∧
      specVisitedOffset it._segment n < min it._dtdBegin 128 ∧
      it._segment.byteAt (specVisitedOffset it._segment n) &&& 0x1F ≠ 0) ∧
    ((it.afterNext n).Next.1 = true →
      (it.afterNext n).Next.2._index = specVisitedOffset it._segment n ∧
      (it.afterNext n).Next.2.BlockTag
        = it._segment.byteAt (specVisitedOffset it._segment n) >>> 5 ∧
      (it.afterNext n).Next.2.BlockSize
        = it._segment.byteAt (specVisitedOffset it._segment n) &&& 0x1F) := by
  obtain ⟨ihr, ihs, ihd, ihi, iho⟩ := DataBlockIterator.afterNext_fresh it hr h4 n
  have hS : (it.afterNext n).Next.2 = it.afterNext (n + 1) := rfl
  have hge := specVisitedOffset_ge it._segment n
  -- the scanner is in range after the call exactly if the offset of the call is
  have key : (it.afterNext (n + 1)).IsInRange = true →
      (it.afterNext (n + 1))._index = specVisitedOffset it._segment n := by
    intro hin
    apply ihi
    intro j hj
    by_contra hc
    rw [iho ⟨j, hj, hc⟩] at hin
    exact Bool.false_ne_true hin
  have hvalid : (it.afterNext (n + 1)).IsInRange = true →
      (it.afterNext (n + 1)).IsValid = true := by
    intro hin
    simp [DataBlockIterator.IsValid, ihr, hin]
  have htrue : (it.afterNext n).Next.1 = true →
      (it.afterNext (n + 1)).IsInRange = true ∧ (it.afterNext (n + 1)).BlockSize ≠ 0 := by
    intro h
    rw [DataBlockIterator.Next_fst, hS] at h
    exact ⟨h.2, h.1⟩
  refine ⟨⟨?_, ?_⟩, ?_⟩
  · intro h
    obtain ⟨hin, hsz⟩ := htrue h
    have hidx := key hin
    have hrange := (DataBlockIterator.IsInRange_iff _).1 hin
    rw [DataBlockIterator.BlockSize_of_valid _ (hvalid hin), hidx, ihs] at hsz
    rw [hidx, ihd] at hrange
    exact ⟨hrange.1, hrange.2, hsz⟩
  · rintro ⟨_, hlt, hsz⟩
    have hidx : (it.afterNext (n + 1))._index = specVisitedOffset it._segment n :=
      ihi (fun j hj => lt_trans (specVisitedOffset_lt it._segment hj) hlt)
    have hin : (it.afterNext (n + 1)).IsInRange = true := by
      rw [DataBlockIterator.IsInRange_iff, hidx, ihd]
      exact ⟨hge, hlt⟩
    rw [DataBlockIterator.Next_fst, hS,
      DataBlockIterator.BlockSize_of_valid _ (hvalid hin), hidx, ihs]
    exact ⟨hsz, hin⟩
  · intro h
    obtain ⟨hin, _⟩ := htrue h
    have hidx := key hin
    rw [hS, DataBlockIterator.BlockSize_of_valid _ (hvalid hin),
      DataBlockIterator.BlockTag_of_valid _ (hvalid hin), hidx, ihs]
    exact ⟨rfl, rfl, rfl⟩

/-- While the calls of `Next()` return true the scanner follows the offsets `o_k`. -/
theorem DataBlockIterator.Next_fresh_index (it : DataBlockIterator) (hr : it._reset = true)
    (h4 : it._index = 4) (n : Nat) (hall : ∀ j < n, (it.afterNext j).Next.1 = true) :
    (it.afterNext n).Next.2._index = specVisitedOffset it._segment n :=
  (DataBlockIterator.afterNext_fresh it hr h4 n).2.2.2.1
    (fun j hj => (((DataBlockIterator.Next_fresh it hr h4 j).1).1 (hall j hj)).2.1)

theorem DataBlockIterator.Next_keeps (it : DataBlockIterator) :
    it.Next.2._reset = false ∧ it.Next.2._segment = it._segment ∧
    it.Next.2._dtdBegin = it._dtdBegin := by
  rw [DataBlockIterator.Next_snd]
  split
  · exact ⟨rfl, rfl, rfl⟩
  · rename_i hr
    split
    · exact ⟨by simpa using hr, rfl, rfl⟩
    · exact ⟨by simpa using hr, rfl, rfl⟩

theorem DataBlockIterator.afterNext_keeps (it : DataBlockIterator) (n : Nat) :
    (it.afterNext n)._segment = it._segment ∧ (it.afterNext n)._dtdBegin = it._dtdBegin := by
  induction n with
  | zero => exact ⟨rfl, rfl⟩
  | succ n ih =>
    have h := DataBlockIterator.Next_keeps (it.afterNext n)
    exact ⟨h.2.1.trans ih.1, h.2.2.trans ih.2⟩

/-- A started scanner that is out of range stays where it is, and `Next()` returns false. -/
theorem DataBlockIterator.Next_out_of_range (it : DataBlockIterator) (hr : it._reset = false)
    (hin : it.IsInRange = false) : it.Next.1 = false ∧ it.Next.2 = it := by
  have h2 : it.Next.2 = it := by
    rw [DataBlockIterator.Next_snd, if_neg (by rw [hr]; simp), if_neg (by rw [hin]; simp)]
  refine ⟨?_, h2⟩
  cases hn : it.Next.1 with
  | false => rfl
  | true =>
    have := ((DataBlockIterator.Next_fst it).1 hn).2
    rw [h2, hin] at this
    exact absurd this Bool.false_ne_true

theorem DataBlockIterator.afterNext_out_of_range (it : DataBlockIterator)
    (hr : it._reset = false) (hin : it.IsInRange = false) (k : Nat) :
    it.afterNext k = it ∧ (it.afterNext k).Next.1 = false := by
  induction k with
  | zero => exact ⟨rfl, (DataBlockIterator.Next_out_of_range it hr hin).1⟩
  | succ k ih =>
    have h : it.afterNext (k + 1) = it := by
      show (it.afterNext k).Next.2 = it
      rw [ih.1]
      exact (DataBlockIterator.Next_out_of_range it hr hin).2
    rw [h]
    exact ⟨rfl, (DataBlockIterator.Next_out_of_range it hr hin).1⟩

/-- After a call of `Next()` that returned false the scanner is out of range or stands at a
header of length 0. -/
theorem DataBlockIterator.Next_false (it : DataBlockIterator) (h : it.Next.1 = false) :
    it.Next.2.IsInRange = false ∨
    (it.Next.2.IsValid = true ∧ it.Next.2._segment.byteAt it.Next.2._index &&& 0x1F = 0) := by
  by_cases hin : it.Next.2.IsInRange = true
  · right
    have hv : it.Next.2.IsValid = true := by
      simp [DataBlockIterator.IsValid, (DataBlockIterator.Next_keeps it).1, hin]
    refine ⟨hv, ?_⟩
    rw [← DataBlockIterator.BlockSize_of_valid _ hv]
    by_contra hc
    have := (DataBlockIterator.Next_fst it).2 ⟨hc, hin⟩
    rw [h] at this
    exact absurd this Bool.false_ne_true
  · left
    simpa using hin

end CEA
end ExtendedDisplayIdentification

/-! ## Claims on the colour format and on the scanner states -/

namespace ExtendedDisplayIdentification
open CEA

/-- C21: `CEA::SupportedColorFormat` computes `(_segment[3] & 0x07) >> 4`, which is 0 for
every byte, so only the first case of the `switch` is ever taken.  In `formatBlock` (version
3, byte 3 equal to `0x11`, so that either 3-bit field holds 1) the result is RGB and not
YCbCr 4:2:2.  For every CEA block the result is UNDEFINED when the version is at most 2 and
RGB when it is above 2, whatever byte 3 holds. -/
theorem SupportedColorFormat_always_rgb :
    (formatBlock[1] = 3 ∧ formatBlock[3] = 0x11 ∧
      (CEA.mk formatBlock).SupportedColorFormat sampleDisplayInfo
        = sampleDisplayInfo.DISPLAYINFO_EDID_COLOR_FORMAT_RGB ∧
      sampleDisplayInfo.DISPLAYINFO_EDID_COLOR_FORMAT_RGB
        ≠ sampleDisplayInfo.DISPLAYINFO_EDID_COLOR_FORMAT_YCBCR_4_2_2) ∧
    (∀ (K : DisplayInfo) (c : CEA),
      (c.Version ≤ 2 →
        c.SupportedColorFormat K = K.DISPLAYINFO_EDID_COLOR_FORMAT_UNDEFINED) ∧
      (c.Version > 2 → c.SupportedColorFormat K = K.DISPLAYINFO_EDID_COLOR_FORMAT_RGB)) := by
  refine ⟨by decide, ?_⟩
  intro K c
  constructor
  · intro h
    unfold CEA.SupportedColorFormat
    rw [if_neg (by omega)]
  · intro h
    unfold CEA.SupportedColorFormat
    rw [if_pos h]
    simp only [and7_shift4]

/-- C22: the scan order of `CEA::DataBlockIterator`.  For a scanner `it` over `block` with
DTD start `d` that is freshly constructed or reset, and for every `n`, the `(n + 1)`-th of
consecutive calls of `Next()` returns true if and only if the offset `o_(n+1)` lies in
`[4, min(d, 128))` and the header there has a non-zero length; it then stands at that offset,
and `BlockTag()` and `BlockSize()` are the upper 3 and the lower 5 bits of the header.  While
the earlier calls returned true the call positions the scanner at `o_(n+1)` whatever it
returns.  A header `0x00` at offset 4 makes the first call return false. -/
theorem Next_visits_offsets (block : Buffer) (d : Nat) (it : DataBlockIterator)
    (hit : it = DataBlockIterator.new block d ∨
      ∃ s : DataBlockIterator, s._segment = block ∧ s._dtdBegin = d ∧ it = s.Reset)
    (n : Nat) :
    ((it.afterNext n).Next.1 = true ↔
      4 ≤ specVisitedOffset block n ∧ specVisitedOffset block n < min d 128 ∧
      block.byteAt (specVisitedOffset block n) &&& 0x1F ≠ 0) ∧
    ((it.afterNext n).Next.1 = true →
      (it.afterNext n).Next.2._index = specVisitedOffset block n ∧
      (it.afterNext n).Next.2.BlockTag = block.byteAt (specVisitedOffset block n) >>> 5 ∧
      (it.afterNext n).Next.2.BlockSize
        = block.byteAt (specVisitedOffset block n) &&& 0x1F) ∧
    ((∀ j < n, (it.afterNext j).Next.1 = true) →
      (it.afterNext n).Next.2._index = specVisitedOffset block n) ∧
    (block[4] = 0x00 → it.Next.1 = false) := by
  have hfresh : it._reset = true ∧ it._index = 4 ∧ it._segment = block ∧ it._dtdBegin = d := by
    rcases hit with h | ⟨s, hs, hd, h⟩
    · rw [h]
      exact ⟨rfl, rfl, rfl, rfl⟩
    · rw [h]
      exact ⟨rfl, rfl, hs, hd⟩
  obtain ⟨hr, h4, hseg, hdtd⟩ := hfresh
  have h := DataBlockIterator.Next_fresh it hr h4
  have hi := DataBlockIterator.Next_fresh_index it hr h4
  rw [hseg, hdtd] at h
  rw [hseg] at hi
  refine ⟨(h n).1, (h n).2, hi n, ?_⟩
  intro h0
  have hb : block.byteAt 4 = 0 := by
    unfold Buffer.byteAt
    rw [← Buffer.getElem_eq_getD block 4 (by decide)]
    exact h0
  cases hn : it.Next.1 with
  | false => rfl
  | true =>
    have := ((h 0).1.1 hn).2.2
    rw [show specVisitedOffset block 0 = 4 from rfl, hb] at this
    exact absurd rfl this

/-- Instance of C22 at the first call on `videoBlock` (header `42` at offset 4, DTD start
8). -/
theorem Next_visits_offsets_witness :
    (specVisitedOffset videoBlock 0 = 4 ∧ videoBlock.byteAt 4 = 0x42) ∧
    (DataBlockIterator.new videoBlock 8).Next.1 = true ∧
    (DataBlockIterator.new videoBlock 8).Next.2._index = 4 ∧
    (DataBlockIterator.new videoBlock 8).Next.2.BlockTag = 2 ∧
    (DataBlockIterator.new videoBlock 8).Next.2.BlockSize = 2 :=
  have h := Next_visits_offsets videoBlock 8 (DataBlockIterator.new videoBlock 8)
    (Or.inl rfl) 0
  have ht : (DataBlockIterator.new videoBlock 8).Next.1 = true := h.1.2 (by decide)
  ⟨by decide, ht, (h.2.1 ht).1, (h.2.1 ht).2.1.trans (by decide),
    (h.2.1 ht).2.2.trans (by decide)⟩

/-- C23 as stated fails: in `zeroLengthBlock` (header `40` of length 0 at offset 4, header
`41` at offset 5, DTD start 8) the first `Next()` on a freshly constructed scanner returns
false, and the second one, made without a `Reset()`, returns true, at offset 5. -/
theorem Next_resumes_after_zero_length :
    zeroLengthBlock[4] = 0x40 ∧ zeroLengthBlock[5] = 0x41 ∧
    ((DataBlockIterator.new zeroLengthBlock 8).afterNext 0).Next.1 = false ∧
    ((DataBlockIterator.new zeroLengthBlock 8).afterNext 1).Next.1 = true ∧
    ((DataBlockIterator.new zeroLengthBlock 8).afterNext 1).Next.2._index = 5 := by
  decide

/-- C23 (amended): after a call of `Next()` that returned false, when the scanner is out of
range every later call returns false and leaves the scanner where it is; when the scanner is
in range, it stands at a header of length 0 and the next call moves it by one byte. -/
theorem out_of_range_is_terminal (it : DataBlockIterator) (h : it.Next.1 = false) :
    (it.Next.2.IsInRange = false →
      ∀ k, (it.Next.2.afterNext k).Next.1 = false ∧ it.Next.2.afterNext k = it.Next.2) ∧
    (it.Next.2.IsInRange = true →
      it.Next.2._segment.byteAt it.Next.2._index &&& 0x1F = 0 ∧
      it.Next.2.Next.2._index = it.Next.2._index + 1) := by
  have hr := (DataBlockIterator.Next_keeps it).1
  constructor
  · intro hin k
    exact ⟨(DataBlockIterator.afterNext_out_of_range _ hr hin k).2,
      (DataBlockIterator.afterNext_out_of_range _ hr hin k).1⟩
  · intro hin
    rcases DataBlockIterator.Next_false it h with hout | ⟨_, hz⟩
    · rw [hin] at hout
      exact absurd hout (by simp)
    · refine ⟨hz, ?_⟩
      rw [DataBlockIterator.Next_snd it.Next.2, if_neg (by rw [hr]; simp), if_pos hin]
      show it.Next.2._index + 1 + _ = _
      rw [hz]

/-- Instance of C23 (amended) at `videoBlock` with DTD start 8: the third call of `Next()`
returns false with the scanner out of range at offset 8 (the second call had stopped at
offset 7, at a header of length 0), and every later call returns false. -/
theorem out_of_range_is_terminal_witness :
    (((DataBlockIterator.new videoBlock 8).afterNext 2).Next.1 = false ∧
      ((DataBlockIterator.new videoBlock 8).afterNext 2).Next.2._index = 8 ∧
      ((DataBlockIterator.new videoBlock 8).afterNext 2).Next.2.IsInRange = false) ∧
    ∀ k, ((((DataBlockIterator.new videoBlock 8).afterNext 2).Next.2).afterNext k).Next.1
      = false :=
  have h := out_of_range_is_terminal ((DataBlockIterator.new videoBlock 8).afterNext 2)
    (by decide)
  ⟨by decide, fun k => (h.1 (by decide) k).1⟩

/-- C24 as stated fails: in `zeroLengthBlock` the first `Next()` returns false at the header
`40` of length 0, and `BlockTag()` then returns 2. -/
theorem BlockTag_at_zero_length_header :
    (DataBlockIterator.new zeroLengthBlock 8).Next.1 = false ∧
    (DataBlockIterator.new zeroLengthBlock 8).Next.2.BlockSize = 0 ∧
    (DataBlockIterator.new zeroLengthBlock 8).Next.2.BlockTag = 0x02 ∧
    (DataBlockIterator.new zeroLengthBlock 8).Next.2.BlockTag ≠ 0x00 := by
  decide

/-- C24 (amended): for a scanner `it` over `block` with DTD start `d` that is freshly
constructed or reset, as long as no call of `Next()` has returned true, `BlockSize()` is 0;
`BlockTag()` is `0x00` when no call was made yet or the scanner is out of range; and when the
scanner is in range it stands at a header of length 0 and `BlockTag()` is the upper 3 bits of
that header. -/
theorem sentinels_before_positioned (block : Buffer) (d : Nat) (it : DataBlockIterator)
    (hit : it = DataBlockIterator.new block d ∨
      ∃ s : DataBlockIterator, s._segment = block ∧ s._dtdBegin = d ∧ it = s.Reset)
    (n : Nat) (hall : ∀ j < n, (it.afterNext j).Next.1 = false) :
    (it.afterNext n).BlockSize = 0 ∧
    (n = 0 ∨ (it.afterNext n).IsInRange = false → (it.afterNext n).BlockTag = 0x00) ∧
    (0 < n → (it.afterNext n).IsInRange = true →
      block.byteAt (it.afterNext n)._index &&& 0x1F = 0 ∧
      (it.afterNext n).BlockTag = block.byteAt (it.afterNext n)._index >>> 5) := by
  have hfresh : it._reset = true ∧ it._segment = block := by
    rcases hit with h | ⟨s, hs, _, h⟩
    · rw [h]
      exact ⟨rfl, rfl⟩
    · rw [h]
      exact ⟨rfl, hs⟩
  obtain ⟨hr, hseg⟩ := hfresh
  cases n with
  | zero =>
    have hv : it.IsValid = false := by simp [DataBlockIterator.IsValid, hr]
    have h0 := DataBlockIterator.BlockSize_of_invalid it hv
    exact ⟨h0.1, fun _ => h0.2, fun h => absurd h (lt_irrefl 0)⟩
  | succ n =>
    have hS : it.afterNext (n + 1) = (it.afterNext n).Next.2 := rfl
    have hkeep := (DataBlockIterator.afterNext_keeps it (n + 1)).1
    rw [hseg] at hkeep
    have hfalse := hall n (Nat.lt_succ_self n)
    rcases DataBlockIterator.Next_false _ hfalse with hout | ⟨hv, hz⟩
    · rw [← hS] at hout
      have hv : (it.afterNext (n + 1)).IsValid = false := by
        simp [DataBlockIterator.IsValid, hout]
      have h0 := DataBlockIterator.BlockSize_of_invalid _ hv
      refine ⟨h0.1, fun _ => h0.2, fun _ hin => ?_⟩
      rw [hout] at hin
      exact absurd hin (by simp)
    · rw [← hS] at hv hz
      rw [hkeep] at hz
      have hin : (it.afterNext (n + 1)).IsInRange = true := by
        simp only [DataBlockIterator.IsValid, Bool.and_eq_true] at hv
        exact hv.2
      refine ⟨?_, ?_, fun _ _ => ⟨hz, ?_⟩⟩
      · rw [DataBlockIterator.BlockSize_of_valid _ hv, hkeep]
        exact hz
      · rintro (h | h)
        · omega
        · rw [hin] at h
          exact absurd h (by simp)
      · rw [DataBlockIterator.BlockTag_of_valid _ hv, hkeep]

/-- Instance of C24 (amended) after the first call on `zeroLengthBlock`, which returns
false at the header `40`. -/
theorem sentinels_before_positioned_witness :
    (∀ j < 1, ((DataBlockIterator.new zeroLengthBlock 8).afterNext j).Next.1 = false) ∧
    ((DataBlockIterator.new zeroLengthBlock 8).afterNext 1).BlockSize = 0 ∧
    ((DataBlockIterator.new zeroLengthBlock 8).afterNext 1).BlockTag = 0x40 >>> 5 :=
  have h := sentinels_before_positioned zeroLengthBlock 8
    (DataBlockIterator.new zeroLengthBlock 8) (Or.inl rfl) 1 (by decide)
  ⟨by decide, h.1, ((h.2.2 (by decide) (by decide)).2).trans (by decide)⟩

end ExtendedDisplayIdentification

/-! ## Lemmas on the cursor over the extension blocks -/

namespace ExtendedDisplayIdentification

/-- The cursor after `k + 1` calls of `Next()` from the state of a fresh cursor over `l`. -/
theorem Iterator.afterNext_of_fresh_cursor (l : BufferList) (k : Nat) :
    (Iterator.mk (some l) l true).afterNext (k + 1)
      = ⟨some l, l.drop (min k l.length), false⟩ := by
  induction k with
  | zero =>
    show (Iterator.mk (some l) l true).Next.2 = _
    simp [Iterator.Next]
  | succ k ih =>
    show ((Iterator.mk (some l) l true).afterNext (k + 1)).Next.2 = _
    rw [ih]
    by_cases hk : k < l.length
    · have h1 : min k l.length = k := Nat.min_eq_left (le_of_lt hk)
      have h2 : min (k + 1) l.length = k + 1 := Nat.min_eq_left hk
      have hne : (l.drop k).isEmpty = false := by
        cases hd : l.drop k with
        | nil =>
          have := congrArg List.length hd
          simp at this
          omega
        | cons a t => rfl
      rw [h1, h2]
      simp [Iterator.Next, hne, List.tail_drop]
    · have h1 : min k l.length = l.length := Nat.min_eq_right (by omega)
      have h2 : min (k + 1) l.length = l.length := Nat.min_eq_right (by omega)
      rw [h1, h2]
      simp [Iterator.Next]

theorem Iterator.Next_of_fresh_cursor (l : BufferList) (k : Nat) :
    (((Iterator.mk (some l) l true).afterNext k).Next.1 = true ↔ k < l.length) ∧
    ((Iterator.mk (some l) l true).afterNext (k + 1)).IsValid
      = ((Iterator.mk (some l) l true).afterNext k).Next.1 := by
  have hS : (Iterator.mk (some l) l true).afterNext (k + 1)
      = ((Iterator.mk (some l) l true).afterNext k).Next.2 := rfl
  have hfst : ∀ it : Iterator, it.Next.1 = (it.Next.2._segments.isSome && !it.Next.2._index.isEmpty) :=
    fun it => rfl
  have h := Iterator.afterNext_of_fresh_cursor l k
  rw [hfst, ← hS, h]
  constructor
  · by_cases hk : k < l.length
    · have h1 : min k l.length = k := Nat.min_eq_left (le_of_lt hk)
      rw [h1]
      simp [hk]
    · have h1 : min k l.length = l.length := Nat.min_eq_right (by omega)
      simp [h1, hk]
  · simp [Iterator.IsValid]

theorem Iterator.Current_fresh (l : BufferList) (k : Nat) (hk : k < l.length) :
    ∃ hv : ((Iterator.mk (some l) l true).afterNext (k + 1)).IsValid = true,
      ((Iterator.mk (some l) l true).afterNext (k + 1)).Current hv = l.get ⟨k, hk⟩ ∧
      ((Iterator.mk (some l) l true).afterNext (k + 1)).Type_ = (l.get ⟨k, hk⟩)[0] := by
  have h := Iterator.afterNext_of_fresh_cursor l k
  have h1 : min k l.length = k := Nat.min_eq_left (le_of_lt hk)
  have hd : l.drop k = l.get ⟨k, hk⟩ :: l.drop (k + 1) := List.drop_eq_getElem_cons hk
  rw [h1, hd] at h
  rw [h]
  exact ⟨rfl, rfl, Iterator.Type_cons _ _ _⟩

end ExtendedDisplayIdentification

/-! ## Claim on the cursor over the extension blocks -/

namespace ExtendedDisplayIdentification

/-- C25: the contract of `Iterator`.  A cursor over the sequence `l` that is freshly
constructed (from the list or as a copy) or reset has `IsValid()` false and `Type()` `0xFF`.
For every `k`, the `(k + 1)`-th of consecutive calls of `Next()` returns true if and only if
`k + 1 <= n`, with `n` the number of blocks; then `Current()` is block `k + 1` of the sequence
(`l[k]`) and `Type()` its first byte.  After the call `IsValid()` equals the returned value, and
a call that returned false is followed by calls that return false only. -/
theorem Iterator_contract (l : BufferList) (it : Iterator)
    (hit : it = Iterator.ofList l ∨
      ∃ s : Iterator, s._segments = some l ∧ (it = s.Reset ∨ it = s.copy)) :
    (it.IsValid = false ∧ it.Type_ = 0xFF) ∧
    ∀ k : Nat,
      ((it.afterNext k).Next.1 = true ↔ k + 1 ≤ l.length) ∧
      (∀ hk : k < l.length, ∃ hv : (it.afterNext (k + 1)).IsValid = true,
        (it.afterNext (k + 1)).Current hv = l.get ⟨k, hk⟩ ∧
        (it.afterNext (k + 1)).Type_ = (l.get ⟨k, hk⟩)[0]) ∧
      (it.afterNext (k + 1)).IsValid = (it.afterNext k).Next.1 ∧
      ((it.afterNext k).Next.1 = false →
        ∀ m, k ≤ m → (it.afterNext m).Next.1 = false) := by
  have hfresh : it = ⟨some l, l, true⟩ := by
    rcases hit with h | ⟨s, hs, h | h⟩
    · exact h
    · rw [h]
      simp [Iterator.Reset, hs]
    · rw [h]
      simp [Iterator.copy, hs]
  subst hfresh
  refine ⟨⟨rfl, rfl⟩, ?_⟩
  intro k
  refine ⟨(Iterator.Next_of_fresh_cursor l k).1, Iterator.Current_fresh l k,
    (Iterator.Next_of_fresh_cursor l k).2, ?_⟩
  intro hf m hm
  cases hn : ((Iterator.mk (some l) l true).afterNext m).Next.1 with
  | false => rfl
  | true =>
    have h1 := (Iterator.Next_of_fresh_cursor l m).1.1 hn
    have h2 := (Iterator.Next_of_fresh_cursor l k).1.2 (by omega)
    rw [hf] at h2
    exact absurd h2 (by simp)

/-- Instance of C25 at the cursor `Extensions()` of `twoBlockDocument`, which holds two
blocks: calls 1 and 2 return true, calls 3 and 4 return false. -/
theorem Iterator_contract_witness :
    ((twoBlockDocument.Extensions.afterNext 0).Next.1 = true ∧
      (twoBlockDocument.Extensions.afterNext 1).Next.1 = true ∧
      (twoBlockDocument.Extensions.afterNext 2).Next.1 = false ∧
      (twoBlockDocument.Extensions.afterNext 3).Next.1 = false) ∧
    (twoBlockDocument.Extensions.afterNext 2).Type_ = 0x70 :=
  have h := Iterator_contract twoBlockDocument._segments twoBlockDocument.Extensions
    (Or.inl rfl)
  ⟨⟨(h.2 0).1.2 (by decide), (h.2 1).1.2 (by decide),
      (h.2 2).2.2.2 (by decide) 2 (le_refl 2), (h.2 2).2.2.2 (by decide) 3 (by decide)⟩,
    by decide⟩

end ExtendedDisplayIdentification

/-! ## Lemmas on `CEA::SupportedColorFormats` -/

namespace ExtendedDisplayIdentification
namespace CEA
open DataBlockIterator

theorem DataBlockIterator.CurrentIn_lt (beyond : DataBlockIterator → Nat → Fin 256)
    (it : DataBlockIterator) (i : Nat) : it.CurrentIn beyond i < 256 := by
  unfold DataBlockIterator.CurrentIn
  split
  · exact Buffer.getElem_lt _ _ _
  · exact Fin.isLt _

theorem DataBlockIterator.CurrentIn_of_lt (beyond : DataBlockIterator → Nat → Fin 256)
    (it : DataBlockIterator) (i : Nat) (h : it._index + i < 128) :
    it.CurrentIn beyond i = it.byte i := by
  unfold DataBlockIterator.CurrentIn DataBlockIterator.byte
  rw [dif_pos h, Buffer.getElem_eq_getD]

theorem DataBlockIterator.registrationIdIn_eq (beyond : DataBlockIterator → Nat → Fin 256)
    (it : DataBlockIterator) :
    u32 (it.CurrentIn beyond 1 + (it.CurrentIn beyond 2 <<< 8) + (it.CurrentIn beyond 3 <<< 16))
      = it.registrationIdIn beyond := by
  have h1 := it.CurrentIn_lt beyond 1
  have h2 := it.CurrentIn_lt beyond 2
  have h3 := it.CurrentIn_lt beyond 3
  unfold DataBlockIterator.registrationIdIn u32
  rw [Nat.shiftLeft_eq, Nat.shiftLeft_eq]
  omega

/-- The registration id `0xC45DD8` fixes the byte read as `Current()[3]` to `0xC4`. -/
theorem DataBlockIterator.CurrentIn3_of_forum_id (beyond : DataBlockIterator → Nat → Fin 256)
    (it : DataBlockIterator) (h : it.registrationIdIn beyond = 0xC45DD8) :
    it.CurrentIn beyond 3 = 0xC4 := by
  have h1 := it.CurrentIn_lt beyond 1
  have h2 := it.CurrentIn_lt beyond 2
  have h3 := it.CurrentIn_lt beyond 3
  unfold DataBlockIterator.registrationIdIn at h
  omega

theorem SupportedColorFormats.loopIn_first_forum (K : DisplayInfo)
    (beyond : DataBlockIterator → Nat → Fin 256) (fuel : Nat)
    (it : DataBlockIterator) (map : Nat) (he : DataBlockIterator.enough fuel it) :
    SupportedColorFormats.loopIn K beyond fuel it map
      = match (it.scan fuel).find? (fun b => (b.BlockTag == 0x03) && decide (b.BlockSize > 3)
          && (b.registrationIdIn beyond == 0xC45DD8)) with
        | some _ => .ok (map ||| u8 K.DISPLAYINFO_EDID_COLOR_FORMAT_YCBCR_4_2_0)
        | none => .ok map := by
  refine DataBlockIterator.scan_find (SupportedColorFormats.loopIn K beyond)
    (fun b => (b.BlockTag == 0x03) && decide (b.BlockSize > 3)
      && (b.registrationIdIn beyond == 0xC45DD8))
    (fun _ map => .ok (map ||| u8 K.DISPLAYINFO_EDID_COLOR_FORMAT_YCBCR_4_2_0))
    (fun map => .ok map) (fun _ => True) ?_ ?_ fuel it map he (fun _ _ => trivial)
  · intro f it acc hn hv _
    rw [SupportedColorFormats.loopIn]
    rcases hN : it.Next with ⟨n, b⟩
    rw [hN] at hn hv
    simp only at hn hv
    simp only [hn, hv, if_true, Bool.true_and]
    by_cases hc : ((b.BlockTag == 0x03) && decide (b.BlockSize > 3)) = true
    · simp only [hc, if_true, Bool.true_and, b.registrationIdIn_eq]
      by_cases hid : (b.registrationIdIn beyond == 0xC45DD8) = true
      · have h3 := b.CurrentIn3_of_forum_id beyond (by simpa using hid)
        have e8 : (196 &&& 8 : Nat) = 0 := by decide
        have e2 : (196 &&& 2 : Nat) = 0 := by decide
        simp only [hid, if_true, h3]
        simp [e8, e2]
      · simp only [hid, Bool.false_eq_true, if_false]
    · simp only [hc, Bool.false_eq_true, if_false, Bool.false_and]
  · intro f it acc hn
    rw [SupportedColorFormats.loopIn]
    rcases hN : it.Next with ⟨n, b⟩
    rw [hN] at hn
    simp only at hn
    simp only [hn, Bool.false_eq_true, if_false]

theorem DataBlockIterator.bytes_of_forum_id (b1 b2 b3 : Nat) (h1 : b1 < 256) (h2 : b2 < 256)
    (h : b1 + b2 * 2 ^ 8 + b3 * 2 ^ 16 = 0xC45DD8) :
    b1 = 0xD8 ∧ b2 = 0x5D ∧ b3 = 0xC4 := by
  omega

theorem DataBlockIterator.CurrentIn_beyond (beyond : DataBlockIterator → Nat → Fin 256)
    (it : DataBlockIterator) (i : Nat) (h : ¬ it._index + i < 128) :
    it.CurrentIn beyond i = (beyond it (it._index + i - 128)).val := by
  unfold DataBlockIterator.CurrentIn
  rw [dif_neg h]

/-- With the members of the scanner behind the block, a registration id that is read partly
behind the block is not `0xC45DD8`: the id matches only if it lies inside the block. -/
theorem DataBlockIterator.registrationIdIn_members (b : DataBlockIterator)
    (hv : b.IsValid = true) :
    (b.registrationIdIn DataBlockIterator.members == 0xC45DD8)
      = (b.registrationId == 0xC45DD8) := by
  have hin : b._index < 128 := by
    simp [DataBlockIterator.IsValid, DataBlockIterator.IsInRange, Buffer.edid_block_size] at hv
    omega
  by_cases h3 : b._index + 3 < 128
  · unfold DataBlockIterator.registrationIdIn DataBlockIterator.registrationId
    rw [b.CurrentIn_of_lt _ 1 (by omega), b.CurrentIn_of_lt _ 2 (by omega),
      b.CurrentIn_of_lt _ 3 h3]
  · have hz : b.byte 3 = 0 := by
      unfold DataBlockIterator.byte
      rw [List.getD_eq_default _ _ (by rw [b._segment.size_eq]; omega)]
      rfl
    have hr : (b.registrationId == 0xC45DD8) = false := by
      rw [beq_eq_false_iff_ne]
      intro h
      have := (DataBlockIterator.bytes_of_forum_id _ _ _ (b.byte_lt 1) (b.byte_lt 2) h).2.2
      omega
    have hl : (b.registrationIdIn DataBlockIterator.members == 0xC45DD8) = false := by
      rw [beq_eq_false_iff_ne]
      intro h
      obtain ⟨e1, e2, e3⟩ := DataBlockIterator.bytes_of_forum_id _ _ _
        (b.CurrentIn_lt _ 1) (b.CurrentIn_lt _ 2) h
      have hcases : b._index = 125 ∨ b._index = 126 ∨ b._index = 127 := by omega
      rcases hcases with h5 | h6 | h7
      · rw [b.CurrentIn_beyond _ 3 (by omega), show b._index + 3 - 128 = 0 by omega] at e3
        change b._index % 256 = 0xC4 at e3
        omega
      · rw [b.CurrentIn_beyond _ 3 (by omega), show b._index + 3 - 128 = 1 by omega] at e3
        change b._index / 256 % 256 = 0xC4 at e3
        omega
      · rw [b.CurrentIn_beyond _ 1 (by omega), show b._index + 1 - 128 = 0 by omega] at e1
        change b._index % 256 = 0xD8 at e1
        omega
    rw [hr, hl]

theorem SupportedColorFormats.loopIn_members_first_forum (K : DisplayInfo) (fuel : Nat)
    (it : DataBlockIterator) (map : Nat) (he : DataBlockIterator.enough fuel it) :
    SupportedColorFormats.loopIn K DataBlockIterator.members fuel it map
      = match (it.scan fuel).find? (fun b => (b.BlockTag == 0x03) && decide (b.BlockSize > 3)
          && (b.registrationId == 0xC45DD8)) with
        | some _ => .ok (map ||| u8 K.DISPLAYINFO_EDID_COLOR_FORMAT_YCBCR_4_2_0)
        | none => .ok map := by
  refine DataBlockIterator.scan_find (SupportedColorFormats.loopIn K DataBlockIterator.members)
    (fun b => (b.BlockTag == 0x03) && decide (b.BlockSize > 3)
      && (b.registrationId == 0xC45DD8))
    (fun _ map => .ok (map ||| u8 K.DISPLAYINFO_EDID_COLOR_FORMAT_YCBCR_4_2_0))
    (fun map => .ok map) (fun _ => True) ?_ ?_ fuel it map he (fun _ _ => trivial)
  · intro f it acc hn hv _
    rw [SupportedColorFormats.loopIn]
    rcases hN : it.Next with ⟨n, b⟩
    rw [hN] at hn hv
    simp only at hn hv
    simp only [hn, hv, if_true, Bool.true_and]
    by_cases hc : ((b.BlockTag == 0x03) && decide (b.BlockSize > 3)) = true
    · simp only [hc, if_true, Bool.true_and, b.registrationIdIn_eq,
        b.registrationIdIn_members hv]
      by_cases hid : (b.registrationId == 0xC45DD8) = true
      · have hid2 : b.registrationIdIn DataBlockIterator.members = 0xC45DD8 := by
          have := b.registrationIdIn_members hv
          rw [hid] at this
          simpa using this
        have h3 := b.CurrentIn3_of_forum_id _ hid2
        have e8 : (196 &&& 8 : Nat) = 0 := by decide
        have e2 : (196 &&& 2 : Nat) = 0 := by decide
        simp only [hid, if_true, h3]
        simp [e8, e2]
      · simp only [hid, Bool.false_eq_true, if_false]
    · simp only [hc, Bool.false_eq_true, if_false, Bool.false_and]
  · intro f it acc hn
    rw [SupportedColorFormats.loopIn]
    rcases hN : it.Next with ⟨n, b⟩
    rw [hN] at hn
    simp only at hn
    simp only [hn, Bool.false_eq_true, if_false]

/-- Where the checked reads give a value, the reads from memory give the same one. -/
theorem SupportedColorFormats.loopIn_of_ok (K : DisplayInfo)
    (beyond : DataBlockIterator → Nat → Fin 256) :
    ∀ (fuel : Nat) (it : DataBlockIterator) (map v : Nat),
      SupportedColorFormats.loop K fuel it map = .ok v →
      SupportedColorFormats.loopIn K beyond fuel it map = .ok v := by
  intro fuel
  induction fuel with
  | zero =>
    intro it map v h
    simp [SupportedColorFormats.loop] at h
  | succ f ih =>
    intro it map v h
    rw [SupportedColorFormats.loop] at h
    rw [SupportedColorFormats.loopIn]
    rcases hN : it.Next with ⟨n, b⟩
    rw [hN] at h
    simp only at h ⊢
    cases n with
    | false => simpa [pure, Except.pure] using h
    | true =>
      simp only [if_true] at h ⊢
      by_cases hc : (b.IsValid && (b.BlockTag == 0x03) && decide (b.BlockSize > 3)) = true
      · simp only [hc, if_true] at h ⊢
        by_cases h3 : b._index + 3 < 128
        · rw [b.CurrentIn_of_lt _ 1 (by omega), b.CurrentIn_of_lt _ 2 (by omega),
            b.CurrentIn_of_lt _ 3 h3]
          simp only [b.Current_ok 1 (by omega), b.Current_ok 2 (by omega), b.Current_ok 3 h3,
            bind, Except.bind, pure, Except.pure] at h
          split at h
          · rename_i hid
            simp only [hid, if_true]
            exact h
          · rename_i hid
            simp only [hid, if_false]
            exact ih _ _ _ h
        · exfalso
          rw [b.Current_eq 1, b.Current_eq 2, b.Current_eq 3, if_neg h3] at h
          by_cases h1 : b._index + 1 < 128
          · by_cases h2 : b._index + 2 < 128
            · simp [h1, h2, bind, Except.bind] at h
            · simp [h1, h2, bind, Except.bind] at h
          · simp [h1, bind, Except.bind] at h
      · simp only [hc, Bool.false_eq_true, if_false] at h ⊢
        exact ih _ _ _ h

end CEA
end ExtendedDisplayIdentification

/-! ## Claim on the colour formats of the HDMI Forum block -/

namespace ExtendedDisplayIdentification
open CEA

/-- C26: for every CEA block the result of `CEA::SupportedColorFormats` is 0 or the YCbCr
4:2:0 flag, and it is the flag exactly if the scan reaches a data block with tag `0x03`,
length at least 4 and registration id `0xC45DD8`.  This holds whatever bytes follow the block
in memory (`beyond`), with the id taken as the code reads it from `Current()[1..3]`: the byte
`Current()[3]` whose bits 1, 2, 3 are tested is the top byte of the id, `0xC4` when the id
matches, of which only bit 2 is set, and no later payload byte is read.  With the members of
the scanner behind the block the id matches only if it lies inside the block, so the result
is decided by the bytes of the block alone; in `overrunForumBlock`, whose last data block
(header at offset 125) holds only `D8 5D` of an id, the result is 0.  Where the reads checked
against the block size give a value, it is the same value.  In `forumBlock` and in
`hdmiBlock` the result is the flag. -/
theorem SupportedColorFormats_tests_registration_id :
    (∀ (K : DisplayInfo) (c : CEA),
      (∀ beyond : DataBlockIterator → Nat → Fin 256,
        c.SupportedColorFormatsIn K beyond
          = match c.dataBlocks.find? (fun b => (b.BlockTag == 0x03)
              && decide (b.BlockSize > 3) && (b.registrationIdIn beyond == 0xC45DD8)) with
            | some _ => .ok (u8 K.DISPLAYINFO_EDID_COLOR_FORMAT_YCBCR_4_2_0)
            | none => .ok 0) ∧
      (c.SupportedColorFormatsIn K DataBlockIterator.members
          = match c.dataBlocks.find? (fun b => (b.BlockTag == 0x03)
              && decide (b.BlockSize > 3) && (b.registrationId == 0xC45DD8)) with
            | some _ => .ok (u8 K.DISPLAYINFO_EDID_COLOR_FORMAT_YCBCR_4_2_0)
            | none => .ok 0) ∧
      (∀ v, c.SupportedColorFormats K = .ok v →
        ∀ beyond : DataBlockIterator → Nat → Fin 256,
          c.SupportedColorFormatsIn K beyond = .ok v)) ∧
    (∀ (beyond : DataBlockIterator → Nat → Fin 256) (b : DataBlockIterator),
      b.registrationIdIn beyond = 0xC45DD8 →
        b.CurrentIn beyond 3 = 0xC4 ∧ 0xC4 &&& (1 <<< 1) = 0 ∧ 0xC4 &&& (1 <<< 2) ≠ 0 ∧
        0xC4 &&& (1 <<< 3) = 0) ∧
    ((CEA.mk overrunForumBlock).dataBlocks.getLast?.map
          (fun b => (b._index, b.BlockTag, b.BlockSize, b.byte 1, b.byte 2))
        = some (125, 0x03, 4, 0xD8, 0x5D) ∧
      (CEA.mk overrunForumBlock).SupportedColorFormatsIn sampleDisplayInfo
          DataBlockIterator.members = .ok 0) ∧
    ((CEA.mk forumBlock).SupportedColorFormatsIn sampleDisplayInfo DataBlockIterator.members
        = .ok sampleDisplayInfo.DISPLAYINFO_EDID_COLOR_FORMAT_YCBCR_4_2_0 ∧
      (CEA.mk hdmiBlock).SupportedColorFormatsIn sampleDisplayInfo DataBlockIterator.members
        = .ok sampleDisplayInfo.DISPLAYINFO_EDID_COLOR_FORMAT_YCBCR_4_2_0 ∧
      (CEA.mk forumBlock).SupportedColorFormats sampleDisplayInfo
        = .ok sampleDisplayInfo.DISPLAYINFO_EDID_COLOR_FORMAT_YCBCR_4_2_0) := by
  refine ⟨?_, ?_, by decide, by decide⟩
  · intro K c
    refine ⟨?_, ?_, ?_⟩
    · intro beyond
      have h := SupportedColorFormats.loopIn_first_forum K beyond scanFuel
        (DataBlockIterator.new c._segment c.DetailedTimingDescriptorStart) 0 (enough_new _ _)
      simp only [Nat.zero_or] at h
      exact h
    · have h := SupportedColorFormats.loopIn_members_first_forum K scanFuel
        (DataBlockIterator.new c._segment c.DetailedTimingDescriptorStart) 0 (enough_new _ _)
      simp only [Nat.zero_or] at h
      exact h
    · intro v hv beyond
      exact SupportedColorFormats.loopIn_of_ok K beyond _ _ _ _ hv
  · intro beyond b h
    exact ⟨b.CurrentIn3_of_forum_id beyond h, by decide, by decide, by decide⟩

end ExtendedDisplayIdentification

/-! ## Lemmas on the end of the scans -/

namespace ExtendedDisplayIdentification
namespace CEA
open DataBlockIterator

/-- A loop `while(dataBlock.Next())` whose body either leaves the loop with a result other
than a used-up budget or goes on to the next call ends within the budget `enough`. -/
theorem DataBlockIterator.scan_ends {α β : Type}
    (F : Nat → DataBlockIterator → α → Except Fault β)
    (hstep : ∀ f it acc, it.Next.1 = true →
      F (f + 1) it acc ≠ .error .outOfFuel ∨ ∃ acc1, F (f + 1) it acc = F f it.Next.2 acc1)
    (hdone : ∀ f it acc, it.Next.1 = false → F (f + 1) it acc ≠ .error .outOfFuel) :
    ∀ (fuel : Nat) (it : DataBlockIterator) (acc : α), enough fuel it →
      F fuel it acc ≠ .error .outOfFuel := by
  intro fuel
  induction fuel with
  | zero =>
    intro it acc he
    exact absurd he.1 (by omega)
  | succ f ih =>
    intro it acc he
    cases hn : it.Next.1 with
    | false => exact hdone f it acc hn
    | true =>
      rcases hstep f it acc hn with h | ⟨acc1, h⟩
      · exact h
      · rw [h]
        exact ih it.Next.2 acc1 (DataBlockIterator.enough_next f it hn he)

theorem DataBlockIterator.Current_ne_outOfFuel (it : DataBlockIterator) (i : Nat) :
    (∃ v, it.Current i = .ok v) ∨ ∃ o, it.Current i = .error (.outOfBounds o) := by
  rw [DataBlockIterator.Current_eq]
  split
  · exact Or.inl ⟨_, rfl⟩
  · exact Or.inr ⟨_, rfl⟩

theorem SupportedColorDepths.depth_scan_ends (K : DisplayInfo) (fuel : Nat) (it : DataBlockIterator)
    (map : Nat) (he : DataBlockIterator.enough fuel it) :
    SupportedColorDepths.loop K fuel it map ≠ .error .outOfFuel := by
  refine DataBlockIterator.scan_ends (SupportedColorDepths.loop K) ?_ ?_ fuel it map he
  · intro f it acc hn
    rw [SupportedColorDepths.loop]
    rcases hN : it.Next with ⟨n, b⟩
    rw [hN] at hn
    simp only at hn
    simp only [hn, if_true]
    split
    · rcases b.Current_ne_outOfFuel 1 with ⟨v1, h1⟩ | ⟨o, h1⟩
      · rcases b.Current_ne_outOfFuel 2 with ⟨v2, h2⟩ | ⟨o, h2⟩
        · rcases b.Current_ne_outOfFuel 3 with ⟨v3, h3⟩ | ⟨o, h3⟩
          · simp only [h1, h2, h3, bind, Except.bind, pure, Except.pure]
            split
            · left
              rcases b.Current_ne_outOfFuel 6 with ⟨v6, h6⟩ | ⟨o, h6⟩
              · simp [h6]
              · simp [h6]
            · exact Or.inr ⟨acc, rfl⟩
          · left
            simp [h1, h2, h3, bind, Except.bind]
        · left
          simp [h1, h2, bind, Except.bind]
      · left
        simp [h1, bind, Except.bind]
    · exact Or.inr ⟨acc, rfl⟩
  · intro f it acc hn
    rw [SupportedColorDepths.loop]
    rcases hN : it.Next with ⟨n, b⟩
    rw [hN] at hn
    simp only at hn
    simp only [hn, Bool.false_eq_true, if_false]
    simp [pure, Except.pure]

theorem SupportedColorFormats.format_scan_ends (K : DisplayInfo) (fuel : Nat) (it : DataBlockIterator)
    (map : Nat) (he : DataBlockIterator.enough fuel it) :
    SupportedColorFormats.loop K fuel it map ≠ .error .outOfFuel := by
  refine DataBlockIterator.scan_ends (SupportedColorFormats.loop K) ?_ ?_ fuel it map he
  · intro f it acc hn
    rw [SupportedColorFormats.loop]
    rcases hN : it.Next with ⟨n, b⟩
    rw [hN] at hn
    simp only at hn
    simp only [hn, if_true]
    split
    · rcases b.Current_ne_outOfFuel 1 with ⟨v1, h1⟩ | ⟨o, h1⟩
      · rcases b.Current_ne_outOfFuel 2 with ⟨v2, h2⟩ | ⟨o, h2⟩
        · rcases b.Current_ne_outOfFuel 3 with ⟨v3, h3⟩ | ⟨o, h3⟩
          · simp only [h1, h2, h3, bind, Except.bind, pure, Except.pure]
            split
            · left
              simp
            · exact Or.inr ⟨acc, rfl⟩
          · left
            simp [h1, h2, h3, bind, Except.bind]
        · left
          simp [h1, h2, bind, Except.bind]
      · left
        simp [h1, bind, Except.bind]
    · exact Or.inr ⟨acc, rfl⟩
  · intro f it acc hn
    rw [SupportedColorFormats.loop]
    rcases hN : it.Next with ⟨n, b⟩
    rw [hN] at hn
    simp only at hn
    simp only [hn, Bool.false_eq_true, if_false]
    simp [pure, Except.pure]

theorem SupportedColorSpaces.space_scan_ends (K : DisplayInfo) (fuel : Nat) (it : DataBlockIterator)
    (map : Nat) (he : DataBlockIterator.enough fuel it) :
    SupportedColorSpaces.loop K fuel it map ≠ .error .outOfFuel := by
  refine DataBlockIterator.scan_ends (SupportedColorSpaces.loop K) ?_ ?_ fuel it map he
  · intro f it acc hn
    rw [SupportedColorSpaces.loop]
    rcases hN : it.Next with ⟨n, b⟩
    rw [hN] at hn
    simp only at hn
    simp only [hn, if_true]
    split
    · left
      rcases b.Current_ne_outOfFuel 1 with ⟨v1, h1⟩ | ⟨o, h1⟩
      · simp only [h1, bind, Except.bind, pure, Except.pure]
        split
        · rcases b.Current_ne_outOfFuel 2 with ⟨v2, h2⟩ | ⟨o, h2⟩
          · rcases b.Current_ne_outOfFuel 3 with ⟨v3, h3⟩ | ⟨o, h3⟩
            · simp [h2, h3]
            · simp [h2, h3]
          · simp [h2]
        · simp
      · simp [h1, bind, Except.bind]
    · exact Or.inr ⟨acc, rfl⟩
  · intro f it acc hn
    rw [SupportedColorSpaces.loop]
    rcases hN : it.Next with ⟨n, b⟩
    rw [hN] at hn
    simp only at hn
    simp only [hn, Bool.false_eq_true, if_false]
    simp [pure, Except.pure]

/-- The `for` loop of `CEA::SupportedTimings` ends: `index` goes up by one to the block
size, which is at most 31. -/
theorem SupportedTimings.timing_forLoop_ends (b : DataBlockIterator) :
    ∀ (fuel index : Nat) (vicList : List Nat), b.BlockSize - index < fuel →
      SupportedTimings.forLoop b fuel index vicList ≠ .error .outOfFuel := by
  intro fuel
  induction fuel with
  | zero =>
    intro index vicList h
    omega
  | succ f ih =>
    intro index vicList h
    rw [SupportedTimings.forLoop]
    split
    · rename_i hlt
      have hle := b.BlockSize_le
      have hu : u8 (index + 1) = index + 1 := by
        unfold u8
        omega
      rcases b.Current_ne_outOfFuel index with ⟨v, hv⟩ | ⟨o, hv⟩
      · simp only [hv, bind, Except.bind, hu]
        exact ih _ _ (by omega)
      · simp [hv, bind, Except.bind]
    · simp [pure, Except.pure]

theorem SupportedTimings.timing_scan_ends (fuel : Nat) (it : DataBlockIterator)
    (vicList : List Nat) (he : DataBlockIterator.enough fuel it) :
    SupportedTimings.loop fuel it vicList ≠ .error .outOfFuel := by
  refine DataBlockIterator.scan_ends SupportedTimings.loop ?_ ?_ fuel it vicList he
  · intro f it acc hn
    rw [SupportedTimings.loop]
    rcases hN : it.Next with ⟨n, b⟩
    rw [hN] at hn
    simp only at hn
    simp only [hn, if_true]
    split
    · left
      exact SupportedTimings.timing_forLoop_ends b 33 0 acc (by have := b.BlockSize_le; omega)
    · exact Or.inr ⟨acc, rfl⟩
  · intro f it acc hn
    rw [SupportedTimings.loop]
    rcases hN : it.Next with ⟨n, b⟩
    rw [hN] at hn
    simp only at hn
    simp only [hn, Bool.false_eq_true, if_false]
    simp [pure, Except.pure]

theorem SupportedAudioFormats.descriptor_ends (K : DisplayInfo) (b : DataBlockIterator)
    (index sad map : Nat) :
    (∃ v, SupportedAudioFormats.descriptor K b index sad map = .ok v) ∨
    ∃ o, SupportedAudioFormats.descriptor K b index sad map = .error (.outOfBounds o) := by
  unfold SupportedAudioFormats.descriptor
  split <;>
    first
    | exact Or.inl ⟨_, rfl⟩
    | (rcases b.Current_ne_outOfFuel (index + 2) with ⟨v, hv⟩ | ⟨o, hv⟩
       · left
         simp only [hv, bind, Except.bind, pure, Except.pure]
         split <;> exact ⟨_, rfl⟩
       · right
         exact ⟨o, by simp [hv, bind, Except.bind]⟩)
    | (rcases b.Current_ne_outOfFuel (index + 2) with ⟨v, hv⟩ | ⟨o, hv⟩
       · left
         simp only [hv, bind, Except.bind, pure, Except.pure]
         exact ⟨_, rfl⟩
       · right
         exact ⟨o, by simp [hv, bind, Except.bind]⟩)

/-- The `for` loop of `CEA::SupportedAudioFormats` ends: `index` goes up by three until it
reaches the block size, which is at most 31. -/
theorem SupportedAudioFormats.audio_forLoop_ends (K : DisplayInfo) (b : DataBlockIterator) :
    ∀ (fuel index map : Nat), b.BlockSize - index < fuel →
      SupportedAudioFormats.forLoop K b fuel index map ≠ .error .outOfFuel := by
  intro fuel
  induction fuel with
  | zero =>
    intro index map h
    omega
  | succ f ih =>
    intro index map h
    rw [SupportedAudioFormats.forLoop]
    split
    · rename_i hlt
      have hle := b.BlockSize_le
      have hu : u8 (index + 3) = index + 3 := by
        unfold u8
        omega
      rcases b.Current_ne_outOfFuel index with ⟨v, hv⟩ | ⟨o, hv⟩
      · simp only [hv, bind, Except.bind, hu]
        rcases SupportedAudioFormats.descriptor_ends K b index (u8 ((v &&& 0x78) >>> 3)) map
          with ⟨w, hw⟩ | ⟨o, hw⟩
        · simp only [hw]
          exact ih _ _ (by omega)
        · simp [hw]
      · simp [hv, bind, Except.bind]
    · simp [pure, Except.pure]

theorem SupportedAudioFormats.audio_scan_ends (K : DisplayInfo) (fuel : Nat) (it : DataBlockIterator)
    (map : Nat) (he : DataBlockIterator.enough fuel it) :
    SupportedAudioFormats.loop K fuel it map ≠ .error .outOfFuel := by
  refine DataBlockIterator.scan_ends (SupportedAudioFormats.loop K) ?_ ?_ fuel it map he
  · intro f it acc hn
    rw [SupportedAudioFormats.loop]
    rcases hN : it.Next with ⟨n, b⟩
    rw [hN] at hn
    simp only at hn
    simp only [hn, if_true]
    split
    · left
      exact SupportedAudioFormats.audio_forLoop_ends K b 33 1 acc (by have := b.BlockSize_le; omega)
    · exact Or.inr ⟨acc, rfl⟩
  · intro f it acc hn
    rw [SupportedAudioFormats.loop]
    rcases hN : it.Next with ⟨n, b⟩
    rw [hN] at hn
    simp only at hn
    simp only [hn, Bool.false_eq_true, if_false]
    simp [pure, Except.pure]

/-- A successful call of `Next()` on a positioned scanner moves the offset up by at least 2. -/
theorem DataBlockIterator.Next_step (it : DataBlockIterator) (hr : it._reset = false)
    (hv : it.IsValid = true) (hs : it.BlockSize ≠ 0) :
    it._index + 2 ≤ it.Next.2._index ∧ it.Next.2._index ≤ it._index + 32 := by
  have hin : it.IsInRange = true := by
    simp only [DataBlockIterator.IsValid, Bool.and_eq_true] at hv
    exact hv.2
  rw [DataBlockIterator.BlockSize_of_valid it hv] at hs
  have hle : it._segment.byteAt it._index &&& 0x1F ≤ 0x1F := Nat.and_le_right
  rw [DataBlockIterator.Next_snd, if_neg (by rw [hr]; simp), if_pos hin]
  show it._index + 2 ≤ it._index + 1 + _ ∧ it._index + 1 + _ ≤ _
  omega

theorem DataBlockIterator.scan_length_le :
    ∀ (fuel : Nat) (it : DataBlockIterator), it._reset = false → it.IsValid = true →
      it.BlockSize ≠ 0 → (it.scan fuel).length ≤ (127 - it._index) / 2 := by
  intro fuel
  induction fuel with
  | zero =>
    intro it _ _ _
    simp [DataBlockIterator.scan]
  | succ f ih =>
    intro it hr hv hs
    rw [DataBlockIterator.scan_succ]
    cases hn : it.Next.1 with
    | false => simp
    | true =>
      obtain ⟨hr1, hv1, hlt, hs1, _⟩ := DataBlockIterator.Next_true it hn
      have hstep := (DataBlockIterator.Next_step it hr hv hs).1
      have := ih it.Next.2 hr1 hv1 hs1
      simp only [if_true, List.length_cons]
      omega

theorem DataBlockIterator.scan_new_length_le (block : Buffer) (d fuel : Nat) :
    ((DataBlockIterator.new block d).scan fuel).length ≤ 62 := by
  cases fuel with
  | zero => simp [DataBlockIterator.scan]
  | succ f =>
    rw [DataBlockIterator.scan_succ]
    cases hn : (DataBlockIterator.new block d).Next.1 with
    | false => simp
    | true =>
      obtain ⟨hr1, hv1, _, hs1, _, _, h4, _⟩ := DataBlockIterator.Next_true _ hn
      have h4 : (DataBlockIterator.new block d).Next.2._index = 4 := h4 rfl
      have := DataBlockIterator.scan_length_le f _ hr1 hv1 hs1
      simp only [if_true, List.length_cons]
      omega

/-- While the calls return true the offsets `o_k` go up by at least 2. -/
theorem DataBlockIterator.offset_lower_bound (it : DataBlockIterator) (hr : it._reset = true)
    (h4 : it._index = 4) (n : Nat) (hall : ∀ j < n, (it.afterNext j).Next.1 = true) :
    4 + 2 * n ≤ specVisitedOffset it._segment n := by
  induction n with
  | zero => exact le_refl 4
  | succ n ih =>
    have h1 := ih (fun j hj => hall j (Nat.lt_succ_of_lt hj))
    have h2 := ((DataBlockIterator.Next_fresh it hr h4 n).1.1 (hall n (Nat.lt_succ_self n))).2.2
    show _ ≤ specVisitedOffset it._segment n + 1 + _
    omega

/-- Of 63 consecutive calls of `Next()` on a fresh scanner one returns false. -/
theorem DataBlockIterator.Next_false_within (it : DataBlockIterator) (hr : it._reset = true)
    (h4 : it._index = 4) : ∃ k ≤ 62, (it.afterNext k).Next.1 = false := by
  by_contra hc
  push_neg at hc
  have hall : ∀ j ≤ 62, (it.afterNext j).Next.1 = true := by
    intro j hj
    simpa using hc j hj
  have h1 := DataBlockIterator.offset_lower_bound it hr h4 62 (fun j hj => hall j (by omega))
  have h2 := ((DataBlockIterator.Next_fresh it hr h4 62).1.1 (hall 62 (le_refl 62))).2.1
  omega

theorem DataBlockIterator.afterNext_index_le (it : DataBlockIterator) (h : it._index ≤ 159)
    (k : Nat) : (it.afterNext k)._index ≤ 159 := by
  induction k with
  | zero => exact h
  | succ k ih =>
    show ((it.afterNext k).Next.2)._index ≤ 159
    rw [DataBlockIterator.Next_snd]
    split
    · exact ih
    · split
      · rename_i hin
        have hlt := ((DataBlockIterator.IsInRange_iff _).1 hin).2
        have hle : (it.afterNext k)._segment.byteAt (it.afterNext k)._index &&& 0x1F ≤ 0x1F :=
          Nat.and_le_right
        show (it.afterNext k)._index + 1 + _ ≤ 159
        omega
      · exact ih

theorem DataBlockIterator.scan_length_le_62 (it : DataBlockIterator) (fuel : Nat) :
    (it.scan fuel).length ≤ 62 := by
  cases fuel with
  | zero => simp [DataBlockIterator.scan]
  | succ f =>
    rw [DataBlockIterator.scan_succ]
    cases hn : it.Next.1 with
    | false => simp
    | true =>
      obtain ⟨hr1, hv1, _, hs1, _⟩ := DataBlockIterator.Next_true _ hn
      have hin : it.Next.2.IsInRange = true := by
        simp only [DataBlockIterator.IsValid, Bool.and_eq_true] at hv1
        exact hv1.2
      have h4 := ((DataBlockIterator.IsInRange_iff _).1 hin).1
      have := DataBlockIterator.scan_length_le f _ hr1 hv1 hs1
      simp only [if_true, List.length_cons]
      omega

end CEA
end ExtendedDisplayIdentification

/-! ## Claim on the end of the scans -/

namespace ExtendedDisplayIdentification
open CEA

/-- C27: every data-block scan ends.  For every block and DTD start `d`, of the first 63
consecutive calls of `Next()` on a freshly constructed scanner one returns false, so that at
most 62 calls in a row return true; a scan reaches at most 62 data blocks; and the offset
never exceeds 159.  Every call that returns true leaves the scanner at an offset in
`[4, 128)`, and when the next call returns true as well the offset has gone up by at least
2.  None of the five capability queries of `CEA` uses up the budget of 128 calls of `Next()`
(nor an inner `for` loop its budget of 33 rounds): each loop `while(dataBlock.Next())` ends.
In `denseBlock` the scan reaches 62 data blocks. -/
theorem scans_terminate :
    (∀ (block : Buffer) (d : Nat),
      (∃ k ≤ 62, ((DataBlockIterator.new block d).afterNext k).Next.1 = false) ∧
      (∀ fuel, ((DataBlockIterator.new block d).scan fuel).length ≤ 62) ∧
      (∀ k, ((DataBlockIterator.new block d).afterNext k)._index ≤ 159)) ∧
    (∀ it : DataBlockIterator, it.Next.1 = true →
      4 ≤ it.Next.2._index ∧ it.Next.2._index < 128 ∧
      (it.Next.2.Next.1 = true → it.Next.2._index + 2 ≤ it.Next.2.Next.2._index)) ∧
    (∀ (K : DisplayInfo) (c : CEA) (out : List Nat),
      c.SupportedColorDepths K ≠ .error .outOfFuel ∧
      c.SupportedColorFormats K ≠ .error .outOfFuel ∧
      c.SupportedColorSpaces K ≠ .error .outOfFuel ∧
      c.SupportedTimings out ≠ .error .outOfFuel ∧
      c.SupportedAudioFormats K ≠ .error .outOfFuel) ∧
    ((CEA.mk denseBlock).DetailedTimingDescriptorStart = 128 ∧
      (CEA.mk denseBlock).dataBlocks.length = 62) := by
  refine ⟨?_, ?_, ?_, by decide⟩
  · intro block d
    exact ⟨DataBlockIterator.Next_false_within _ rfl rfl,
      fun fuel => DataBlockIterator.scan_length_le_62 _ fuel,
      DataBlockIterator.afterNext_index_le _ (show 4 ≤ 159 by omega)⟩
  · intro it h
    obtain ⟨hr1, hv1, hlt, hs1, _⟩ := DataBlockIterator.Next_true it h
    have hin : it.Next.2.IsInRange = true := by
      simp only [DataBlockIterator.IsValid, Bool.and_eq_true] at hv1
      exact hv1.2
    exact ⟨((DataBlockIterator.IsInRange_iff _).1 hin).1, hlt,
      fun _ => (DataBlockIterator.Next_step _ hr1 hv1 hs1).1⟩
  · intro K c out
    exact ⟨SupportedColorDepths.depth_scan_ends K _ _ _ (enough_new _ _),
      SupportedColorFormats.format_scan_ends K _ _ _ (enough_new _ _),
      SupportedColorSpaces.space_scan_ends K _ _ _ (enough_new _ _),
      SupportedTimings.timing_scan_ends _ _ _ (enough_new _ _),
      SupportedAudioFormats.audio_scan_ends K _ _ _ (enough_new _ _)⟩

end ExtendedDisplayIdentification
